import Mathlib

/-!
# NoLifeWzToNx

A shallow embedding of `wztonx.cpp`, the WZ to NX transcoder of NoLifeStory, and
theorems about it.

Conventions of the embedding.

* The file-scope variables of namespace `nl` are the fields of `State`.
* Bytes are natural numbers below 256; a `nl::string` (pointer and 16-bit size into
  the arena) is the list of its bytes.
* The 8-byte union `node::_data` is the 64-bit little-endian number of its raw bytes.
* Machine integers are `Nat` or `Int` with explicit reductions modulo `2^16`, `2^32`
  and `2^64` at the places where the C++ code converts or wraps.
* A `throw std::runtime_error` is an `Err` value naming the message.  Accesses the
  C++ standard leaves undefined (an index outside a vector, a read outside the
  mapped file, `pop_back` on an empty vector, a write outside a scratch buffer)
  are `Err.undefined_behaviour`.  Recursive procedures take a fuel argument and
  answer `Err.out_of_fuel` when it is used up.
* The three key tables (`key_bms`, `key_gms`, `key_kms`), the UCS-2 to UTF-8
  conversion of `std::codecvt_utf8` and the widening of a `float` to a `double` are
  not part of `wztonx.cpp`; they are the fields of `Env`.
* `std::sort` is the insertion sort `std_sort` over the comparison lambda of
  `sort_nodes`; `strncmp` is written out as the C standard describes it.
* `char` is signed, as on x86; operands of `+` are evaluated from left to right.
-/

namespace nl

/-- The ways a procedure can stop without returning. -/
inductive Err
  | not_a_valid_wz_file
  | i_give_up
  | failed_to_identify_the_locale
  | identical_strings
  | unknown_property_string_type
  | elusive_type_1_directory
  | unknown_directory_type
  | invalid_size
  | unknown_type_2_directory
  | unknown_sub_property_type_name
  | unknown_sub_property_type_tag
  | undefined_behaviour
  | out_of_fuel
  deriving DecidableEq, Repr

/-- The enumeration `node::type`. -/
inductive node_type
  | none
  | integer
  | real
  | string
  | vector
  | bitmap
  | audio
  | uol
  deriving DecidableEq, Repr

/-- The packed 20-byte record `struct node`; `data` is the raw union. -/
structure node where
  name : Nat
  children : Nat
  num : Nat
  data_type : node_type
  data : Nat
  deriving DecidableEq, Repr

/-- The constructor `node()`. -/
def node.default : node := ⟨0, 0, 0, node_type.none, 0⟩

/-- What `wztonx.cpp` takes from outside: the key tables and two library conversions. -/
structure Env where
  key_bms : Nat → Nat
  key_gms : Nat → Nat
  key_kms : Nat → Nat
  convert : List Nat → List Nat
  float_to_double : Nat → Nat

deriving instance DecidableEq for Except

/-- The file-scope variables of namespace `nl`. -/
structure State where
  in_base : List Nat
  in_offset : Nat
  nodes : List node
  nodes_to_sort : List (Nat × Nat)
  string_map : List (Nat × Nat)
  strings : List (List Nat)
  cur_key : Option Nat
  directories : List Nat
  imgs : List (Nat × Int)
  file_start : Nat
  resolve_path : List (List Nat)
  deriving DecidableEq, Repr

/-- The initial values of the file-scope variables, with the file `inp` mapped. -/
def State.init (inp : List Nat) : State :=
  { in_base := inp, in_offset := 0, nodes := [node.default], nodes_to_sort := [],
    string_map := [], strings := [], cur_key := Option.none, directories := [],
    imgs := [], file_start := 0, resolve_path := [] }

/-! ## The input cursor (namespace `in`) -/

/-- The number whose little-endian bytes are given. -/
def le_value : List Nat → Nat
  | [] => 0
  | b :: bs => b + 256 * le_value bs

/-- The signed reading of a `w`-bit pattern. -/
def to_signed (w : Nat) (v : Nat) : Int :=
  if v < 2 ^ (w - 1) then (v : Int) else (v : Int) - 2 ^ w

/-- The `w`-bit pattern of an integer. -/
def to_unsigned (w : Nat) (v : Int) : Nat :=
  (v % 2 ^ w).toNat

/-- The function `in::tell()`. -/
def in_tell (st : State) : Nat := st.in_offset

/-- The function `in::seek(n)`; no check is made. -/
def in_seek (n : Nat) (st : State) : State :=
  { st with in_offset := n % 2 ^ 64 }

/-- The function `in::skip(n)`; no check is made. -/
def in_skip (n : Nat) (st : State) : State :=
  { st with in_offset := (st.in_offset + n) % 2 ^ 64 }

/-- The function `in::read<T>()` for a type `T` of `k` bytes: the raw value. -/
def in_read (k : Nat) (st : State) : Except Err (Nat × State) :=
  if st.in_offset + k ≤ st.in_base.length then
    .ok (le_value ((st.in_base.drop st.in_offset).take k),
         { st with in_offset := st.in_offset + k })
  else .error Err.undefined_behaviour

/-- The function `in::read_cint()`. -/
def read_cint (st : State) : Except Err (Int × State) := do
  let (a, st1) ← in_read 1 st
  if to_signed 8 a ≠ -128 then .ok (to_signed 8 a, st1)
  else do
    let (v, st2) ← in_read 4 st1
    .ok (to_signed 32 v, st2)

/-- The `k` bytes of the mapped file from position `o` on, as read through a pointer. -/
def in_bytes (o k : Nat) (st : State) : Except Err (List Nat) :=
  if k = 0 then .ok []
  else if o + k ≤ st.in_base.length then .ok ((st.in_base.drop o).take k)
  else .error Err.undefined_behaviour

/-! ## C library -/

/-- The C function `strncmp` on the bytes found at two pointers: bytes are compared
as unsigned values, and the comparison stops after `n` bytes or at a zero byte. -/
def strncmp : List Nat → List Nat → Nat → Int
  | _, _, 0 => 0
  | a :: as, b :: bs, n + 1 =>
    if a ≠ b then (a : Int) - (b : Int)
    else if a = 0 then 0
    else strncmp as bs n
  | [], b :: _, _ + 1 => - (b : Int)
  | a :: _, [], _ + 1 => (a : Int)
  | [], [], _ + 1 => 0

/-! ## String table -/

/-- The value `static_cast<hash_t>(*s)` of a byte read through `char`, which is signed. -/
def char_to_hash (c : Nat) : Nat :=
  if c < 128 then c else c + 0xFFFFFF00

/-- The hash loop of `add_string`: 32-bit FNV-1a. -/
def fnv1a (data : List Nat) : Nat :=
  data.foldl (fun hash c => ((hash ^^^ char_to_hash c) * 16777619) % 2 ^ 32) 2166136261

/-- The value of `string_map[hash]`: a missing key is created with value 0. -/
def string_map_get (m : List (Nat × Nat)) (hash : Nat) : Nat :=
  match m.find? (fun p => p.1 == hash) with
  | some p => p.2
  | Option.none => 0

/-- The function `add_string(data, size)`, where `data` holds the `size` bytes. -/
def add_string (data : List Nat) (st : State) : Nat × State :=
  let hash := fnv1a data
  let id := string_map_get st.string_map hash
  if id ≠ 0 then (id, st)
  else
    let id := st.strings.length % 2 ^ 32
    (id, { st with string_map := (hash, id) :: st.string_map,
                   strings := st.strings ++ [data] })

/-! ## Encrypted strings -/

/-- The table `keys`: the candidates in the order `key_bms`, `key_gms`, `key_kms`. -/
def keys (env : Env) : List (Nat → Nat) := [env.key_bms, env.key_gms, env.key_kms]

/-- The unmasking loop of the 8-bit branch: byte `i` is xored with key byte `i` and
with the 8-bit mask that starts at `0xAA` and grows by one per byte. -/
def decode_bytes (key : Nat → Nat) (os : List Nat) : List Nat :=
  os.enum.map (fun p => p.2 ^^^ key p.1 ^^^ ((0xAA + p.1) % 256))

/-- The 16-bit units stored in a list of bytes. -/
def units16 : List Nat → List Nat
  | a :: b :: rest => (a + 256 * b) :: units16 rest
  | _ => []

/-- The unmasking loop of the 16-bit branch: the key table is read as 16-bit units
and the 16-bit mask starts at `0xAAAA`. -/
def decode_units (key : Nat → Nat) (ows : List Nat) : List Nat :=
  ows.enum.map (fun p =>
    p.2 ^^^ (key (2 * p.1) + 256 * key (2 * p.1 + 1)) ^^^ ((0xAAAA + p.1) % 65536))

/-- The size expression `static_cast<strsize_t>(ext ? in::read<int32_t>() : v)` of
`read_enc_string` and `deduce_key`. -/
def read_slen (ext : Bool) (v : Int) (st : State) : Except Err (Nat × State) :=
  if ext then do
    let (w, st1) ← in_read 4 st
    .ok (to_unsigned 16 (to_signed 32 w), st1)
  else .ok (to_unsigned 16 v, st)

/-- The function `read_enc_string()`. In the 16-bit branch the scratch buffer
`wstr_buf` has room for `0x8000` units, and `convert` gives the bytes that
`convert.out` stores in `str_buf`. -/
def read_enc_string (env : Env) (st : State) : Except Err (Nat × State) := do
  let (l, st1) ← in_read 1 st
  let len := to_signed 8 l
  if len > 0 then do
    let (slen, st2) ← read_slen (len == 127) len st1
    let ows ← in_bytes st2.in_offset (2 * slen) st2
    let st3 := in_skip (slen * 2) st2
    if 0x8000 < slen then .error Err.undefined_behaviour
    else
      match (keys env)[st3.cur_key.getD 3]? with
      | Option.none => .error Err.undefined_behaviour
      | some key =>
        let out := env.convert (decode_units key (units16 ows))
        .ok (add_string (out.take (out.length % 65536)) st3)
  else if len < 0 then do
    let (slen, st2) ← read_slen (len == -128) (-len) st1
    let os ← in_bytes st2.in_offset slen st2
    let st3 := in_skip slen st2
    match (keys env)[st3.cur_key.getD 3]? with
    | Option.none => .error Err.undefined_behaviour
    | some key => .ok (add_string (decode_bytes key os) st3)
  else .ok (0, st1)

/-- The function `read_prop_string(offset)`. -/
def read_prop_string (env : Env) (offset : Nat) (st : State) : Except Err (Nat × State) := do
  let (a, st1) ← in_read 1 st
  if a = 0x00 ∨ a = 0x73 then read_enc_string env st1
  else if a = 0x01 ∨ a = 0x1B then do
    let (v, st2) ← in_read 4 st1
    let o := (to_unsigned 64 (to_signed 32 v) + offset) % 2 ^ 64
    let p := in_tell st2
    let (s, st3) ← read_enc_string env (in_seek o st2)
    .ok (s, in_seek p st3)
  else .error Err.unknown_property_string_type

/-- The test of one candidate key in `deduce_key`: every unmasked byte is at least
`0x20` and below `0x80`. The loop does not stop early. -/
def key_valid (key : Nat → Nat) (os : List Nat) : Bool :=
  (decode_bytes key os).all (fun c => 0x20 ≤ c ∧ c < 0x80)

/-- The loop `for (auto key : keys)` of `deduce_key`: `k` is the index of the next
candidate and `cur` the value of `cur_key`. -/
def deduce_loop (os : List Nat) : List (Nat → Nat) → Nat → Option Nat → Option Nat
  | [], _, cur => cur
  | key :: rest, k, cur =>
    deduce_loop os rest (k + 1) (if key_valid key os then some k else cur)

/-- The function `deduce_key()`. -/
def deduce_key (env : Env) (st : State) : Except Err State := do
  let (l, st1) ← in_read 1 st
  let len := to_signed 8 l
  if len ≥ 0 then .error Err.i_give_up
  else do
    let (slen, st2) ← read_slen (len == -128) (-len) st1
    let os ← in_bytes st2.in_offset slen st2
    let cur := deduce_loop os (keys env) 0 Option.none
    let st3 := { st2 with cur_key := cur }
    if cur = Option.none then .error Err.failed_to_identify_the_locale
    else .ok (in_skip slen st3)

/-! ## Directories -/

/-- An assignment to fields of the node at index `i`, given as a function on records. -/
def update_node (f : node → node) (i : Nat) (st : State) : State :=
  { st with nodes := st.nodes.modify f i }

/-- The assignment `n.name = v` for the node at index `i`. -/
def set_name (i v : Nat) (st : State) : State :=
  update_node (fun n => { n with name := v }) i st

/-- The assignments `n.num = num` and `n.children = children` for the node at index `i`. -/
def set_range (i children num : Nat) (st : State) : State :=
  update_node (fun n => { n with num := num, children := children }) i st

/-- The assignment `n.data_type = t` for the node at index `i`. -/
def set_data_type (i : Nat) (t : node_type) (st : State) : State :=
  update_node (fun n => { n with data_type := t }) i st

/-- An assignment to a member of the union `n.data` for the node at index `i`; `f` gives
the new raw value from the old one. -/
def set_data (i : Nat) (f : Nat → Nat) (st : State) : State :=
  update_node (fun n => { n with data := f n.data }) i st

/-- The `switch (type)` of `directory` for the node just appended, at index `back`: the
name is read and stored. The result holds the type, read anew for an indirect entry. -/
def directory_switch (env : Env) (back ty : Nat) (st1 : State) : Except Err (Nat × State) :=
  if ty = 1 then .error Err.elusive_type_1_directory
  else if ty = 2 then do
    let (s, a1) ← in_read 4 st1
    let p := in_tell a1
    let a2 := in_seek ((a1.file_start + to_unsigned 64 (to_signed 32 s)) % 2 ^ 64) a1
    let (ty2, a3) ← in_read 1 a2
    let (name, a4) ← read_enc_string env a3
    .ok (ty2, in_seek p (set_name back name a4))
  else if ty = 3 ∨ ty = 4 then do
    let (name, a1) ← read_enc_string env st1
    .ok (ty, set_name back name a1)
  else .error Err.unknown_directory_type

/-- The end of a round of the loop of `directory`: the entry is put in its queue. -/
def directory_enqueue (ty c : Nat) (size : Int) (st : State) : Except Err State :=
  if ty = 3 then .ok { st with directories := st.directories ++ [c] }
  else if ty = 4 then .ok { st with imgs := st.imgs ++ [(c, size)] }
  else .error Err.unknown_type_2_directory

/-- The loop of `directory`: `i` is the loop variable and `k` the rounds left. -/
def directory_loop (env : Env) (ni : Nat) : Nat → Nat → State → Except Err State
  | 0, _, st => .ok st
  | k + 1, i, st => do
    let st0 := { st with nodes := st.nodes ++ [node.default] }
    let (ty, st1) ← in_read 1 st0
    let (ty2, st2) ← directory_switch env (st0.nodes.length - 1) ty st1
    let (size, st3) ← read_cint st2
    if size ≤ 0 then .error Err.invalid_size
    else do
      let (_, st4) ← read_cint st3
      let st5 ← directory_enqueue ty2 ((ni + i) % 2 ^ 32) size (in_skip 4 st4)
      directory_loop env ni k (i + 1) st5

/-- The function `directory(dir_node)`. -/
def directory (env : Env) (dir_node : Nat) (st : State) : Except Err State :=
  if dir_node < st.nodes.length then do
    let (c, st1) ← read_cint st
    let count := to_unsigned 32 c
    let ni := st1.nodes.length % 2 ^ 32
    let st2 := set_range dir_node ni (count % 65536) st1
    let st3 ← directory_loop env ni count 0 st2
    .ok { st3 with nodes_to_sort := st3.nodes_to_sort ++ [(ni, count)] }
  else .error Err.undefined_behaviour

/-! ## Images -/

/-- The bytes of a string literal with its terminating zero. -/
def literal (s : String) : List Nat := s.toList.map Char.toNat ++ [0]

/-- The test `!strncmp(st.data, lit, st.size)` of `extended_property`. -/
def type_is (st : List Nat) (lit : String) : Bool :=
  strncmp st (literal lit) st.length = 0

/-- The bytes of `std::to_string(i)`. -/
def to_string (i : Nat) : List Nat := (Nat.toDigits 10 i).map Char.toNat

/-- The assignment to a 32-bit member at the start of the union (`data.string`,
`data.vector[0]`): the other four bytes keep their value. -/
def set_low32 (data v : Nat) : Nat := (data / 2 ^ 32) * 2 ^ 32 + v % 2 ^ 32

/-- The assignment to `data.vector[1]`, the second four bytes of the union. -/
def set_high32 (data v : Nat) : Nat := (v % 2 ^ 32) * 2 ^ 32 + data % 2 ^ 32

/-- The loop of the `Shape2D#Convex2D` branch, with `call` the recursive call
`extended_property(ni, offset)`. -/
def convex_loop (call : State → Except Err State) (ni : Nat) :
    Nat → Nat → State → Except Err State
  | 0, _, st => .ok st
  | k + 1, i, st =>
    if (ni + i) % 2 ^ 32 < st.nodes.length then do
      let (name, st1) := add_string (to_string i) st
      let st3 ← call (set_name ((ni + i) % 2 ^ 32) name st1)
      convex_loop call ni k (i + 1) st3
    else .error Err.undefined_behaviour

/-- The body of the loop of `sub_property` for the child at index `c`, which is
`ni + i`; `ext` is the call `extended_property(ni + i, offset)`. In the case `0x09`
the block length is read before `in::tell()` is taken. -/
def sub_property_child (env : Env) (ext : State → Except Err State) (offset c i : Nat)
    (st : State) : Except Err State :=
  if c < st.nodes.length then do
    let (name, st1) ← read_prop_string env offset st
    let (ty, st3) ← in_read 1 (set_name c name st1)
    if ty = 0x00 then
      .ok (set_data c (fun _ => i) (set_data_type c node_type.integer st3))
    else if ty = 0x0B ∨ ty = 0x02 then do
      let (v, st4) ← in_read 2 (set_data_type c node_type.integer st3)
      .ok (set_data c (fun _ => v) st4)
    else if ty = 0x03 then do
      let (v, st4) ← read_cint (set_data_type c node_type.integer st3)
      .ok (set_data c (fun _ => to_unsigned 64 v) st4)
    else if ty = 0x04 then do
      let (b, st4) ← in_read 1 (set_data_type c node_type.real st3)
      if b = 0x80 then do
        let (v, st5) ← in_read 4 st4
        .ok (set_data c (fun _ => env.float_to_double v) st5)
      else .ok (set_data c (fun _ => 0) st4)
    else if ty = 0x05 then do
      let (v, st4) ← in_read 8 (set_data_type c node_type.real st3)
      .ok (set_data c (fun _ => v) st4)
    else if ty = 0x08 then do
      let (v, st4) ← read_prop_string env offset (set_data_type c node_type.string st3)
      .ok (set_data c (fun d => set_low32 d v) st4)
    else if ty = 0x09 then do
      let (v, st4) ← in_read 4 st3
      let p := (to_unsigned 64 (to_signed 32 v) + in_tell st4) % 2 ^ 64
      let st5 ← ext st4
      .ok (in_seek p st5)
    else .error Err.unknown_sub_property_type_tag
  else .error Err.undefined_behaviour

/-- The loop of `sub_property`, with `ext c` the call `extended_property(c, offset)`. -/
def sub_property_loop (env : Env) (ext : Nat → State → Except Err State) (offset ni : Nat) :
    Nat → Nat → State → Except Err State
  | 0, _, st => .ok st
  | k + 1, i, st => do
    let st1 ← sub_property_child env (ext ((ni + i) % 2 ^ 32)) offset ((ni + i) % 2 ^ 32) i st
    sub_property_loop env ext offset ni k (i + 1) st1

/-- The two mutually recursive procedures of the image parser. -/
inductive prop_call
  | extended_property (prop_node offset : Nat)
  | sub_property (prop_node offset : Nat)
  deriving DecidableEq, Repr

/-- The functions `extended_property(prop_node, offset)` and
`sub_property(prop_node, offset)`, defined together by recursion on the fuel. -/
def property (env : Env) : Nat → prop_call → State → Except Err State
  | 0, _, _ => .error Err.out_of_fuel
  | fuel + 1, prop_call.extended_property prop_node offset, st =>
    if prop_node < st.nodes.length then do
      let (s, st1) ← read_prop_string env offset st
      match st1.strings[s]? with
      | Option.none => .error Err.undefined_behaviour
      | some name =>
        if type_is name "Property" then
          property env fuel (prop_call.sub_property prop_node offset) (in_skip 2 st1)
        else if type_is name "Canvas" then do
          let (b, st2) ← in_read 1 (in_skip 1 st1)
          if b = 1 then
            property env fuel (prop_call.sub_property prop_node offset) (in_skip 2 st2)
          else .ok st2
        else if type_is name "Shape2D#Vector2D" then do
          let (x, st3) ← read_cint (set_data_type prop_node node_type.vector st1)
          let st4 := set_data prop_node (fun d => set_low32 d (to_unsigned 32 x)) st3
          let (y, st5) ← read_cint st4
          .ok (set_data prop_node (fun d => set_high32 d (to_unsigned 32 y)) st5)
        else if type_is name "Shape2D#Convex2D" then do
          let (c, st2) ← read_cint st1
          let count := to_unsigned 32 c
          let ni := st2.nodes.length % 2 ^ 32
          let st3 := { st2 with nodes := st2.nodes ++ List.replicate count node.default }
          let st4 ← convex_loop
            (property env fuel (prop_call.extended_property ni offset)) ni count 0 st3
          .ok { st4 with nodes_to_sort := st4.nodes_to_sort ++ [(ni, count)] }
        else if type_is name "Sound_DX8" then .ok st1
        else if type_is name "UOL" then do
          let st3 := set_data_type prop_node node_type.uol (in_skip 1 st1)
          let (v, st4) ← read_prop_string env offset st3
          .ok (set_data prop_node (fun d => set_low32 d v) st4)
        else .error Err.unknown_sub_property_type_name
    else .error Err.undefined_behaviour
  | fuel + 1, prop_call.sub_property prop_node offset, st => do
    let (c, st1) ← read_cint st
    let count := to_unsigned 32 c
    if prop_node < st1.nodes.length then do
      let ni := st1.nodes.length % 2 ^ 32
      let st2 := set_range prop_node ni (count % 65536) st1
      let st3 := { st2 with nodes := st2.nodes ++ List.replicate count node.default }
      let st4 ← sub_property_loop env
        (fun c => property env fuel (prop_call.extended_property c offset)) offset ni count 0 st3
      .ok { st4 with nodes_to_sort := st4.nodes_to_sort ++ [(ni, count)] }
    else .error Err.undefined_behaviour

/-- The function `extended_property(prop_node, offset)`. -/
def extended_property (env : Env) (fuel prop_node offset : Nat) (st : State) :
    Except Err State :=
  property env fuel (prop_call.extended_property prop_node offset) st

/-- The function `sub_property(prop_node, offset)`. -/
def sub_property (env : Env) (fuel prop_node offset : Nat) (st : State) :
    Except Err State :=
  property env fuel (prop_call.sub_property prop_node offset) st

/-- The function `img(img_node, size)`. -/
def img (env : Env) (fuel img_node : Nat) (size : Int) (st : State) : Except Err State := do
  let p := in_tell st
  let st1 ← deduce_key env (in_skip 1 st)
  let st2 ← sub_property env fuel img_node p (in_skip 2 st1)
  .ok (in_seek ((p + to_unsigned 64 size) % 2 ^ 64) st2)

/-! ## Sorting -/

/-- The comparison lambda of `sort_nodes`; `same` says whether its two arguments are
the same object (`&n1 == &n2`). -/
def node_less (strings : List (List Nat)) (same : Bool) (n1 n2 : node) : Except Err Bool :=
  if same then .ok false
  else
    match strings[n1.name]?, strings[n2.name]? with
    | some s1, some s2 =>
      let n := strncmp s1 s2 (min s1.length s2.length)
      if n < 0 then .ok true
      else if n > 0 then .ok false
      else if s1.length < s2.length then .ok true
      else if s1.length > s2.length then .ok false
      else .error Err.identical_strings
    | _, _ => .error Err.undefined_behaviour

/-- One insertion step of the sort: `x` is compared with the elements of a sorted
list from the front until it is less than one of them. -/
def sort_insert (strings : List (List Nat)) (x : node) : List node → Except Err (List node)
  | [] => .ok [x]
  | y :: ys => do
    if (← node_less strings false x y) then .ok (x :: y :: ys)
    else
      let r ← sort_insert strings x ys
      .ok (y :: r)

/-- The call of `std::sort` with the comparison lambda, as an insertion sort: a
comparison sort that calls the lambda on elements at different positions only and
stops when the lambda throws. -/
def std_sort (strings : List (List Nat)) : List node → Except Err (List node)
  | [] => .ok []
  | x :: xs => do
    let r ← std_sort strings xs
    sort_insert strings x r

/-- The function `sort_nodes(first, count)`. -/
def sort_nodes (first count : Nat) (st : State) : Except Err State :=
  if first + count ≤ st.nodes.length then do
    let r ← std_sort st.strings ((st.nodes.drop first).take count)
    .ok { st with nodes := st.nodes.take first ++ r ++ st.nodes.drop (first + count) }
  else .error Err.undefined_behaviour

/-! ## UOL resolution -/

/-- The loop of `resolve_uols` that cuts the link string `s` at slashes. `i` and `b`
are the 16-bit loop variables, `path` the copy of `resolve_path` being edited. The
last statement, which appends what follows the last cut, is included. -/
def uol_path_loop (s : List Nat) : Nat → Nat → Nat → List (List Nat) →
    Except Err (List (List Nat))
  | 0, _, _, _ => .error Err.out_of_fuel
  | fuel + 1, i, b, path =>
    if i < s.length then
      if s.getD i 0 = 47 then
        if i - b = 2 ∧ strncmp (s.drop b) [46, 46, 0] 2 = 0 then
          if path = [] then .error Err.undefined_behaviour
          else uol_path_loop s fuel ((i + 2) % 65536) ((i + 1) % 65536) path.dropLast
        else
          uol_path_loop s fuel ((i + 2) % 65536) ((i + 1) % 65536)
            (path ++ [(s.drop b).take ((i - b) % 65536)])
      else uol_path_loop s fuel ((i + 1) % 65536) b path
    else .ok (path ++ [(s.drop b).take ((s.length - b) % 65536)])

/-- The path that `resolve_uols` walks for the link string `s`. The loop runs at
most `s.length` times unless a 16-bit index wraps. -/
def uol_path (s : List Nat) (resolve_path : List (List Nat)) : Except Err (List (List Nat)) :=
  uol_path_loop s (s.length + 1) 0 0 resolve_path

/-- The inner loop of the walk: the first index `i` in the child range with a name
that has the size of `s` and compares equal to it. `k` counts the indices left. -/
def find_child (nodes : List node) (strings : List (List Nat)) (s : List Nat) :
    Nat → Nat → Except Err (Option Nat)
  | 0, _ => .ok Option.none
  | k + 1, i =>
    match nodes[i]? with
    | Option.none => .error Err.undefined_behaviour
    | some nn =>
      match strings[nn.name]? with
      | Option.none => .error Err.undefined_behaviour
      | some ss =>
        if s.length = ss.length ∧ strncmp s ss s.length = 0 then .ok (some i)
        else find_child nodes strings s k (i + 1)

/-- How the walk along a path ends: at a target, or stuck at a node. -/
inductive walk_result
  | found (search : Nat)
  | not_found (search : Nat)
  deriving DecidableEq, Repr

/-- The loop `for (string & s : path)` of `resolve_uols`, started at `search`. -/
def uol_walk (nodes : List node) (strings : List (List Nat)) :
    List (List Nat) → Nat → Except Err walk_result
  | [], search => .ok (walk_result.found search)
  | s :: path, search =>
    match nodes[search]? with
    | Option.none => .error Err.undefined_behaviour
    | some n => do
      let r ← find_child nodes strings s ((n.children + n.num) % 2 ^ 32 - n.children) n.children
      match r with
      | some i => uol_walk nodes strings path i
      | Option.none => .ok (walk_result.not_found search)

/-- The loop `for (node_t i {0}; i < n.num; ++i) resolve_uols(n.children + i)`, with
`n` the node at `uol_node` read anew in every round and `call` the recursive call.
`k` bounds the rounds; `num` is below 65536. -/
def resolve_children (call : Nat → State → Except Err State) (uol_node : Nat) :
    Nat → Nat → State → Except Err State
  | 0, _, _ => .error Err.out_of_fuel
  | k + 1, i, st =>
    match st.nodes[uol_node]? with
    | Option.none => .error Err.undefined_behaviour
    | some n =>
      if i < n.num then do
        let st1 ← call ((n.children + i) % 2 ^ 32) st
        resolve_children call uol_node k (i + 1) st1
      else .ok st

/-- The statement `if (uol_node) resolve_path.push_back(strings[n.name])`. -/
def resolve_push (uol_node : Nat) (n : node) (st : State) : Except Err State :=
  if uol_node ≠ 0 then
    match st.strings[n.name]? with
    | Option.none => .error Err.undefined_behaviour
    | some s => .ok { st with resolve_path := st.resolve_path ++ [s] }
  else .ok st

/-- The statement `if (uol_node) resolve_path.pop_back()`. -/
def resolve_pop (uol_node : Nat) (st : State) : Except Err State :=
  if uol_node ≠ 0 then
    if st.resolve_path = [] then .error Err.undefined_behaviour
    else .ok { st with resolve_path := st.resolve_path.dropLast }
  else .ok st

/-- The function `resolve_uols(uol_node)`. -/
def resolve_uols : Nat → Nat → State → Except Err State
  | 0, _, _ => .error Err.out_of_fuel
  | fuel + 1, uol_node, st =>
    match st.nodes[uol_node]? with
    | Option.none => .error Err.undefined_behaviour
    | some n =>
      if n.data_type = node_type.uol then
        match st.strings[n.data % 2 ^ 32]? with
        | Option.none => .error Err.undefined_behaviour
        | some s => do
          let path ← uol_path s st.resolve_path
          let r ← uol_walk st.nodes st.strings path 0
          match r with
          | walk_result.not_found search =>
            match st.nodes[search]? with
            | Option.none => .error Err.undefined_behaviour
            | some m =>
              let m1 : node := { m with data_type := node_type.none }
              .ok { st with nodes := st.nodes.set search m1 }
          | walk_result.found search =>
            match st.nodes[search]? with
            | Option.none => .error Err.undefined_behaviour
            | some nn =>
              let n1 : node := { n with data_type := nn.data_type, children := nn.children,
                                        num := nn.num, data := nn.data }
              .ok { st with nodes := st.nodes.set uol_node n1 }
      else do
        let st1 ← resolve_push uol_node n st
        let st2 ← resolve_children (resolve_uols fuel) uol_node 65536 0 st1
        resolve_pop uol_node st2

/-! ## The driver -/

/-- The first part of `wztonx`: the header is read, the key is deduced and the empty
string is interned. -/
def wztonx_open (env : Env) (inp : List Nat) : Except Err State := do
  let (magic, st1) ← in_read 4 (State.init inp)
  if magic ≠ 0x31474B50 then .error Err.not_a_valid_wz_file
  else do
    let (fs, st2) ← in_read 4 (in_skip 8 st1)
    let st3 := { st2 with file_start := fs }
    let (_, st4) ← read_cint (in_seek (st3.file_start + 2) st3)
    let st5 ← deduce_key env (in_skip 1 st4)
    let st6 := in_seek (st5.file_start + 2) st5
    .ok (add_string [] st6).2

/-- The loop `while (!directories.empty())` of `wztonx`. -/
def directories_loop (env : Env) : Nat → State → Except Err State
  | 0, _ => .error Err.out_of_fuel
  | fuel + 1, st =>
    match st.directories with
    | [] => .ok st
    | d :: _ => do
      let st1 ← directory env d st
      directories_loop env fuel { st1 with directories := st1.directories.tail }

/-- The loop `while (!imgs.empty())` of `wztonx`. -/
def imgs_loop (env : Env) : Nat → State → Except Err State
  | 0, _ => .error Err.out_of_fuel
  | fuel + 1, st =>
    match st.imgs with
    | [] => .ok st
    | i :: _ => do
      let st1 ← img env fuel i.1 i.2 st
      imgs_loop env fuel { st1 with imgs := st1.imgs.tail }

/-- The part of `wztonx` that builds the node table: both queues are worked off. -/
def wztonx_parse (env : Env) (fuel : Nat) (inp : List Nat) : Except Err State := do
  let st1 ← wztonx_open env inp
  let st2 ← directories_loop env fuel { st1 with directories := st1.directories ++ [0] }
  imgs_loop env fuel st2

/-- The loop `for (auto const & n : nodes_to_sort) sort_nodes(n.first, n.second)`. -/
def sort_all : List (Nat × Nat) → State → Except Err State
  | [], st => .ok st
  | r :: rest, st => do
    let st1 ← sort_nodes r.1 r.2 st
    sort_all rest st1

/-- The part of `wztonx` up to the line "Node cleanup finished". -/
def wztonx_nodes (env : Env) (fuel : Nat) (inp : List Nat) : Except Err State := do
  let st1 ← wztonx_parse env fuel inp
  let st2 ← resolve_uols fuel 0 st1
  sort_all st2.nodes_to_sort st2

/-! ## The writer (namespace `out` and the end of `wztonx`)

The sizes that enter the offsets are sizes of vectors held in memory, so the sums
stay below `2^64` and `size_t` arithmetic does not wrap. -/

/-- The `k` little-endian bytes of the value `v` of a `k`-byte integer type. -/
def le_bytes : Nat → Nat → List Nat
  | 0, _ => []
  | k + 1, v => (v % 256) :: le_bytes k (v / 256)

/-- The variables `out::base` (the mapped output file) and `out::offset`. -/
structure Out where
  base : List Nat
  offset : Nat
  deriving DecidableEq, Repr

/-- The function `out::open(p, size)`: a new file mapped with `size` bytes, which read
as zero. This is the Windows branch, where the mapping extends the file to `size` bytes;
the other branch maps `size` bytes as well but leaves the length of the file to the
operating system. -/
def out_open (size : Nat) : Out := { base := List.replicate size 0, offset := 0 }

/-- The function `out::seek(n)`; no check is made. -/
def out_seek (n : Nat) (o : Out) : Out := { o with offset := n }

/-- The functions `out::write<T>(v)` and `out::write(buf, size)` for the bytes `bs`. -/
def out_write (bs : List Nat) (o : Out) : Except Err Out :=
  if o.offset + bs.length ≤ o.base.length then
    .ok { base := o.base.take o.offset ++ bs ++ o.base.drop (o.offset + bs.length),
          offset := o.offset + bs.length }
  else .error Err.undefined_behaviour

/-- The value of an enumerator of `node::type`. -/
def node_type.code : node_type → Nat
  | node_type.none => 0
  | node_type.integer => 1
  | node_type.real => 2
  | node_type.string => 3
  | node_type.vector => 4
  | node_type.bitmap => 5
  | node_type.audio => 6
  | node_type.uol => 7

/-- The 20 bytes of the packed `struct node` in memory. -/
def node_bytes (n : node) : List Nat :=
  le_bytes 4 n.name ++ le_bytes 4 n.children ++ le_bytes 2 n.num ++
    le_bytes 2 n.data_type.code ++ le_bytes 8 n.data

/-- The memory `nodes.data()` of `nodes.size() * 20` bytes. -/
def nodes_bytes : List node → List Nat
  | [] => []
  | n :: rest => node_bytes n ++ nodes_bytes rest

/-- The statement `x += 0x10 - (x & 0xf)`. -/
def align (x : Nat) : Nat := x + (0x10 - (x &&& 0xf))

/-- The four offsets that `wztonx` computes. -/
structure offsets where
  node_offset : Nat
  string_table_offset : Nat
  string_offset : Nat
  bitmap_table_offset : Nat
  deriving DecidableEq, Repr

/-- The offset computation of `wztonx` for `nodes.size()` and `strings`. -/
def wztonx_offsets (nodes_size : Nat) (strings : List (List Nat)) : offsets :=
  let node_offset := align 52
  let string_table_offset := align (node_offset + nodes_size * 20)
  let string_offset := align (string_table_offset + strings.length * 8)
  let bitmap_table_offset :=
    align (strings.foldl (fun acc s => acc + s.length) (string_offset + strings.length * 2))
  { node_offset := node_offset, string_table_offset := string_table_offset,
    string_offset := string_offset, bitmap_table_offset := bitmap_table_offset }

/-- The loop that writes the string offset table, `next_str` being its variable. -/
def write_string_table : List (List Nat) → Nat → Out → Except Err Out
  | [], _, o => .ok o
  | s :: rest, next_str, o => do
    let o1 ← out_write (le_bytes 8 next_str) o
    write_string_table rest (next_str + (s.length + 2)) o1

/-- The loop that writes the string blob. -/
def write_strings : List (List Nat) → Out → Except Err Out
  | [], o => .ok o
  | s :: rest, o => do
    let o1 ← out_write (le_bytes 2 s.length) o
    let o2 ← out_write s o1
    write_strings rest o2

/-- The header that `wztonx` writes at offset 0. -/
def write_header (nodes_size strings_size : Nat) (l : offsets) (o : Out) : Except Err Out := do
  let o1 ← out_write (le_bytes 4 0x34474B50) o
  let o2 ← out_write (le_bytes 4 nodes_size) o1
  let o3 ← out_write (le_bytes 8 l.node_offset) o2
  let o4 ← out_write (le_bytes 4 strings_size) o3
  let o5 ← out_write (le_bytes 8 l.string_table_offset) o4
  let o6 ← out_write (le_bytes 4 0) o5
  let o7 ← out_write (le_bytes 8 0) o6
  let o8 ← out_write (le_bytes 4 0) o7
  out_write (le_bytes 8 0) o8

/-- The part of `wztonx` from the offset computation to the line "Wrote strings". -/
def wztonx_write (st : State) : Except Err Out := do
  let l := wztonx_offsets st.nodes.length st.strings
  let o ← write_header st.nodes.length st.strings.length l
    (out_seek 0 (out_open l.bitmap_table_offset))
  let o1 ← out_write (nodes_bytes st.nodes) (out_seek l.node_offset o)
  let o2 ← write_string_table st.strings l.string_offset (out_seek l.string_table_offset o1)
  write_strings st.strings (out_seek l.string_offset o2)

/-- The function `wztonx` up to the line "Wrote strings". -/
def wztonx (env : Env) (fuel : Nat) (inp : List Nat) : Except Err Out := do
  let st ← wztonx_nodes env fuel inp
  wztonx_write st

/-! ## Specification-side definitions -/

/-- The name string of a node; the empty string when the name is no valid ID. -/
def node_name (strings : List (List Nat)) (n : node) : List Nat :=
  (strings[n.name]?).getD []

/-- The pieces of a byte string cut at every slash. -/
def split_slash : List Nat → List (List Nat)
  | [] => [[]]
  | c :: rest =>
    if c = 47 then [] :: split_slash rest
    else
      match split_slash rest with
      | seg :: segs => (c :: seg) :: segs
      | [] => [[c]]

/-- The path described for a link string: the string is cut at every slash and the
pieces are folded over the ancestor names, a piece `..` removing the last element
and every other piece being appended. -/
def uol_path_spec (s : List Nat) (resolve_path : List (List Nat)) : List (List Nat) :=
  (split_slash s).foldl (fun p seg => if seg = [46, 46] then p.dropLast else p ++ [seg])
    resolve_path

/-- Every child range ends inside the node table. -/
def ranges_in_table (nodes : List node) : Prop :=
  ∀ n ∈ nodes, n.children + n.num ≤ nodes.length

instance (nodes : List node) : Decidable (ranges_in_table nodes) := by
  unfold ranges_in_table; infer_instance

/-- The part of a byte string before its first zero byte. -/
def c_str (s : List Nat) : List Nat := s.takeWhile (fun c => c ≠ 0)

/-- The order the comparison lambda of `sort_nodes` decides. -/
def name_lt (s1 s2 : List Nat) : Prop :=
  c_str s1 < c_str s2 ∨ (c_str s1 = c_str s2 ∧ s1.length < s2.length)

/-- All nodes of a list have a name that is a valid string ID. -/
def names_valid (strings : List (List Nat)) (l : List node) : Prop :=
  ∀ n ∈ l, n.name < strings.length

/-- The order of `name_lt` on the names of two nodes. -/
def node_lt (strings : List (List Nat)) (a b : node) : Prop :=
  name_lt (node_name strings a) (node_name strings b)

/-- The nodes of the range `(first, count)`. -/
def node_range (first count : Nat) (nodes : List node) : List node :=
  (nodes.drop first).take count

/-- The child ranges of a node table: the pairs `(children, num)`. -/
def shape (nodes : List node) : List (Nat × Nat) :=
  nodes.map (fun n => (n.children, n.num))

/-- How the parser changes the child ranges of the node table: default nodes are
appended, or the range of a node `p` is set to start at the end of the table, with a
16-bit count, and `c` default nodes are appended. -/
inductive shape_grows : List (Nat × Nat) → List (Nat × Nat) → Prop
  | refl (a : List (Nat × Nat)) : shape_grows a a
  | append (a : List (Nat × Nat)) (k : Nat) : shape_grows a (a ++ List.replicate k (0, 0))
  | assign (a : List (Nat × Nat)) (p c : Nat) : p < a.length →
      shape_grows a (a.set p (a.length % 2 ^ 32, c % 65536) ++ List.replicate c (0, 0))
  | trans {a b c : List (Nat × Nat)} : shape_grows a b → shape_grows b c → shape_grows a c

/-- Every range of a list of ranges ends inside the list. -/
def shape_in_table (sh : List (Nat × Nat)) : Prop :=
  ∀ r ∈ sh, r.1 + r.2 ≤ sh.length

/-- No index lies in the ranges at two different positions of a list of ranges. -/
def shape_disjoint (sh : List (Nat × Nat)) : Prop :=
  ∀ (i j : Nat) (ri rj : Nat × Nat) (k : Nat), sh[i]? = some ri → sh[j]? = some rj → i ≠ j →
    ri.1 ≤ k → k < ri.1 + ri.2 → rj.1 ≤ k → k < rj.1 + rj.2 → False

/-- No node index lies in the child range of two different nodes. -/
def ranges_disjoint (nodes : List node) : Prop :=
  ∀ (i j : Nat) (ni nj : node) (k : Nat), nodes[i]? = some ni → nodes[j]? = some nj → i ≠ j →
    ni.children ≤ k → k < ni.children + ni.num →
    nj.children ≤ k → k < nj.children + nj.num → False

/-- Only the input cursor differs between two states. -/
def reads (st st' : State) : Prop :=
  ∃ o, st' = { st with in_offset := o }

/-- The step from `st` to `st'` moves the input cursor and interns at most one string,
with `id` the string ID that is returned: either nothing is interned and `id` is 0,
or `id` and the new tables come from one call of `add_string`. -/
def interns (st : State) (id : Nat) (st' : State) : Prop :=
  ∃ o, (st' = { st with in_offset := o } ∧ id = 0) ∨
    ∃ data, (id, st') = add_string data { st with in_offset := o }

/-- The nodes that are not UOL nodes in `a` keep everything but, possibly, their data
type in `b`, and are not UOL nodes in `b`. -/
def uol_frame (a b : List node) : Prop :=
  b.length = a.length ∧
  ∀ (i : Nat) (n : node), a[i]? = some n → n.data_type ≠ node_type.uol →
    ∃ n', b[i]? = some n' ∧ n'.name = n.name ∧ n'.children = n.children ∧ n'.num = n.num ∧
      n'.data = n.data ∧ n'.data_type ≠ node_type.uol


/-- String 0 is the empty string and every ID kept in `string_map` is the index of an
interned string. -/
def tables_ok (st : State) : Prop :=
  st.strings[0]? = some [] ∧ ∀ p ∈ st.string_map, p.2 < st.strings.length

/-- Every name ID, and every payload ID of a node of type `string` or `uol`, is below
`L`. -/
def ids_ok (L : Nat) (nodes : List node) : Prop :=
  ∀ n ∈ nodes, n.name < L ∧
    (n.data_type = node_type.string ∨ n.data_type = node_type.uol → n.data % 2 ^ 32 < L)

/-- The state of the IDs while the node at index `c` is being filled in: its data type is
`t` and its payload is not yet set; all other IDs are below `L`. -/
def ids_typed (c : Nat) (t : node_type) (L : Nat) (nodes : List node) : Prop :=
  ∀ (i : Nat) (n : node), nodes[i]? = some n → n.name < L ∧
    (i = c → n.data_type = t) ∧
    (i ≠ c → n.data_type = node_type.string ∨ n.data_type = node_type.uol →
      n.data % 2 ^ 32 < L)

/-- String 0 is the empty string, and every string ID in `string_map` and in the node
table (names, and payloads of nodes of type `string` or `uol`) is smaller than the
number of interned strings. -/
def strings_ok (st : State) : Prop :=
  tables_ok st ∧ ids_ok st.strings.length st.nodes

/-- The invariant `strings_ok` while the node at index `c` is being filled in. -/
def typed_ok (c : Nat) (t : node_type) (st : State) : Prop :=
  tables_ok st ∧ ids_typed c t st.strings.length st.nodes

instance (st : State) : Decidable (tables_ok st) := by
  unfold tables_ok; infer_instance

instance (L : Nat) (nodes : List node) : Decidable (ids_ok L nodes) := by
  unfold ids_ok; infer_instance

instance (st : State) : Decidable (strings_ok st) := by
  unfold strings_ok; infer_instance

/-- The padding of the specification: `pad16(x) = x + ((16 - (x & 15)) & 15)`. -/
def pad16 (x : Nat) : Nat := x + ((16 - (x &&& 15)) &&& 15)

/-- The sum of `2 + len_i` over a list of strings. -/
def blob_size (strings : List (List Nat)) : Nat :=
  (strings.map (fun s => 2 + s.length)).sum

/-- The offsets of the specification for `n` nodes and the interned strings. -/
def spec_offsets (n : Nat) (strings : List (List Nat)) : offsets :=
  { node_offset := pad16 52,
    string_table_offset := pad16 (pad16 52 + 20 * n),
    string_offset := pad16 (pad16 (pad16 52 + 20 * n) + 8 * strings.length),
    bitmap_table_offset :=
      pad16 (pad16 (pad16 (pad16 52 + 20 * n) + 8 * strings.length) + blob_size strings) }

/-- The length prefix of the encrypted string at position `off`, as an unsigned byte;
0 beyond the input. -/
def enc_len (base : List Nat) (off : Nat) : Nat := base.getD off 0

/-- The count of the encrypted string at position `off`: with the prefix 127 or -128
(the byte 0x80) the following little-endian 32-bit integer reduced modulo `2^16`, else
the absolute value of the signed prefix. -/
def enc_count (base : List Nat) (off : Nat) : Nat :=
  if enc_len base off = 127 ∨ enc_len base off = 128 then
    le_value ((base.drop (off + 1)).take 4) % 65536
  else if enc_len base off < 128 then enc_len base off
  else 256 - enc_len base off

/-- The position of the payload of the encrypted string at position `off`: behind the
prefix and, with the prefix 127 or -128, the 32-bit count. -/
def enc_payload (base : List Nat) (off : Nat) : Nat :=
  if enc_len base off = 127 ∨ enc_len base off = 128 then off + 1 + 4 else off + 1

/-- The position behind the encrypted string at position `off`: the payload has one
byte per count for a negative prefix and two for a positive prefix. -/
def enc_end (base : List Nat) (off : Nat) : Nat :=
  if enc_len base off < 128 then enc_payload base off + 2 * enc_count base off
  else enc_payload base off + enc_count base off

/-- The payload bytes of the byte string at position `off`. -/
def enc_bytes (base : List Nat) (off : Nat) : List Nat :=
  (base.drop (enc_payload base off)).take (enc_count base off)

/-- The state in which `deduce_key` leaves `st` when it selects the key of index `k`:
the cursor is behind the oracle string. -/
def key_selected (st : State) (k : Nat) : State :=
  in_skip (enc_count st.in_base st.in_offset)
    { st with in_offset := enc_payload st.in_base st.in_offset, cur_key := some k }

/-- The next multiple of 16 strictly above `x`. -/
def pad_next (x : Nat) : Nat := 16 * (x / 16 + 1)

/-- An output file of `size` bytes whose first bytes are `pre`, the rest being zero,
with the cursor behind `pre`. -/
def fill (size : Nat) (pre : List Nat) : Out :=
  { base := pre ++ List.replicate (size - pre.length) 0, offset := pre.length }

/-- The 52 bytes of the header of the specification. -/
def header_bytes (node_count string_count : Nat) (l : offsets) : List Nat :=
  le_bytes 4 0x34474B50 ++ le_bytes 4 node_count ++ le_bytes 8 l.node_offset ++
    le_bytes 4 string_count ++ le_bytes 8 l.string_table_offset ++
    le_bytes 4 0 ++ le_bytes 8 0 ++ le_bytes 4 0 ++ le_bytes 8 0

/-- The string offset table: one `u64` per string, the first being `pos`. -/
def table_bytes : List (List Nat) → Nat → List Nat
  | [], _ => []
  | s :: rest, pos => le_bytes 8 pos ++ table_bytes rest (pos + (2 + s.length))

/-- The string blob: a `(u16 length, bytes)` record per string. -/
def blob_bytes : List (List Nat) → List Nat
  | [] => []
  | s :: rest => (le_bytes 2 s.length ++ s) ++ blob_bytes rest

/-- The bytes of the output file up to the end of the string blob. -/
def nx_bytes (st : State) : List Nat :=
  let l := wztonx_offsets st.nodes.length st.strings
  header_bytes st.nodes.length st.strings.length l ++
    List.replicate (l.node_offset - 52) 0 ++
    nodes_bytes st.nodes ++
    List.replicate (l.string_table_offset - (l.node_offset + st.nodes.length * 20)) 0 ++
    table_bytes st.strings l.string_offset ++
    List.replicate (l.string_offset - (l.string_table_offset + st.strings.length * 8)) 0 ++
    blob_bytes st.strings

/-! ## Worked inputs

The archives below are written for key tables that are zero everywhere, so that an
encrypted byte is the plain byte xored with the running mask. -/

/-- Key tables that are zero everywhere; the library conversions are not used. -/
def env_zero : Env :=
  { key_bms := fun _ => 0, key_gms := fun _ => 0, key_kms := fun _ => 0,
    convert := fun ws => ws, float_to_double := fun v => v }

/-- An archive whose root directory has no entry; the byte string `a` that follows serves
`deduce_key`. -/
def wz_empty : List Nat :=
  [80, 75, 71, 49, 0, 0, 0, 0, 0, 0, 0, 0, 16, 0, 0, 0, 0, 0, 0, 0, 255, 203]

/-- An input that holds the compressed integer 5 and then the compressed integer -128
followed by the 32-bit integer 65537 = 0x00010001. -/
def st_cint : State := State.init [5, 128, 1, 0, 1, 0]

/-- An input that holds the byte string with prefix -128 and the following 32-bit integer
65537 = 0x00010001, then one payload byte; the first key is selected. -/
def st_long : State := { State.init [128, 1, 0, 1, 0, 203] with cur_key := some 0 }

/-- An input that holds the byte string with prefix -2 and payload `ab` under the zero
keys; the first key is selected. -/
def st_ascii : State := { State.init [254, 203, 201] with cur_key := some 0 }

/-- An input that holds the wide string with prefix 2 and the code units `a`, `b` under
the zero keys; the first key is selected. -/
def st_wide : State := { State.init [2, 203, 170, 201, 170] with cur_key := some 0 }

/-- An environment whose third key decodes the byte 0xCB to the control character 1, the
other two keys being zero. -/
def env_last_bad : Env := { env_zero with key_kms := fun _ => 0x60 }

/-- An environment none of whose keys decodes the byte 0xAA to a printable character. -/
def env_none : Env := { env_zero with key_bms := fun _ => 0, key_gms := fun _ => 1,
                                        key_kms := fun _ => 2 }

/-- An input that holds the oracle string with prefix -1 and the payload byte 0xCB, which
the zero key decodes to `a`. -/
def st_oracle : State := State.init [255, 203]

/-- An input that holds the oracle string with prefix -1 and the payload byte 0xAA, which
the zero key decodes to the zero byte. -/
def st_oracle_bad : State := State.init [255, 170]

/-- An archive with one image `a` holding, in this order, `y` = UOL "z", `z` = UOL "x" and
`x` = integer 7. -/
def wz_chain : List Nat :=
  [80, 75, 71, 49, 0, 0, 0, 0, 0, 0, 0, 0, 16, 0, 0, 0, 0, 0, 1, 4, 255, 203, 45, 0, 0, 0, 0, 0,
   0, 255, 193, 0, 0, 3, 0, 255, 211, 9, 9, 0, 0, 0, 0, 253, 255, 228, 224, 0, 0, 255, 208, 0,
   255, 208, 9, 9, 0, 0, 0, 0, 253, 255, 228, 224, 0, 0, 255, 210, 0, 255, 210, 3, 7]

/-- An archive with one image `a` holding `x` = integer 7 and `y` = UOL "x". -/
def wz_simple : List Nat :=
  [80, 75, 71, 49, 0, 0, 0, 0, 0, 0, 0, 0, 16, 0, 0, 0, 0, 0, 1, 4, 255, 203, 28, 0, 0, 0, 0, 0,
   0, 255, 193, 0, 0, 2, 0, 255, 210, 3, 7, 0, 255, 211, 9, 9, 0, 0, 0, 0, 253, 255, 228, 224,
   0, 0, 255, 210]

/-- An archive with one image `a` holding `link` = UOL "nonexistent". -/
def wz_missing : List Nat :=
  [80, 75, 71, 49, 0, 0, 0, 0, 0, 0, 0, 0, 16, 0, 0, 0, 0, 0, 1, 4, 255, 203, 36, 0, 0, 0, 0, 0,
   0, 255, 193, 0, 0, 1, 0, 252, 198, 194, 194, 198, 9, 19, 0, 0, 0, 0, 253, 255, 228, 224, 0,
   0, 245, 196, 196, 194, 200, 214, 198, 195, 197, 215, 221, 192]

/-- An archive with one image `a` holding `x` = integer 7 and `link` = UOL "x/foo". -/
def wz_clobber : List Nat :=
  [80, 75, 71, 49, 0, 0, 0, 0, 0, 0, 0, 0, 16, 0, 0, 0, 0, 0, 1, 4, 255, 203, 35, 0, 0, 0, 0, 0,
   0, 255, 193, 0, 0, 2, 0, 255, 210, 3, 7, 0, 252, 198, 194, 194, 198, 9, 13, 0, 0, 0, 0, 253,
   255, 228, 224, 0, 0, 251, 210, 132, 202, 194, 193]

/-- An archive with one image `a` holding the property `b`, with child `link` = UOL "../x",
and `x` = integer 9. -/
def wz_dotdot : List Nat :=
  [80, 75, 71, 49, 0, 0, 0, 0, 0, 0, 0, 0, 16, 0, 0, 0, 0, 0, 1, 4, 255, 203, 55, 0, 0, 0, 0, 0,
   0, 255, 193, 0, 0, 2, 0, 255, 200, 9, 36, 0, 0, 0, 0, 248, 250, 217, 195, 221, 203, 221, 196,
   200, 0, 0, 1, 0, 252, 198, 194, 194, 198, 9, 12, 0, 0, 0, 0, 253, 255, 228, 224, 0, 0, 252,
   132, 133, 131, 213, 0, 255, 210, 3, 9]

/-- An archive with one image `a` holding the property `b`, which holds the property `c` with
child `link` = UOL "../..", and `x` = integer 9. -/
def wz_enddot : List Nat :=
  [80, 75, 71, 49, 0, 0, 0, 0, 0, 0, 0, 0, 16, 0, 0, 0, 0, 0, 1, 4, 255, 203, 77, 0, 0, 0, 0, 0,
   0, 255, 193, 0, 0, 2, 0, 255, 200, 9, 58, 0, 0, 0, 0, 248, 250, 217, 195, 221, 203, 221, 196,
   200, 0, 0, 1, 0, 255, 201, 9, 37, 0, 0, 0, 0, 248, 250, 217, 195, 221, 203, 221, 196, 200, 0,
   0, 1, 0, 252, 198, 194, 194, 198, 9, 13, 0, 0, 0, 0, 253, 255, 228, 224, 0, 0, 251, 132, 133,
   131, 131, 128, 0, 255, 210, 3, 9]

/-- An archive with one image `a` holding the property `x`, with child `c` = integer 1, and
`y` = UOL "x". -/
def wz_share : List Nat :=
  [80, 75, 71, 49, 0, 0, 0, 0, 0, 0, 0, 0, 16, 0, 0, 0, 0, 0, 1, 4, 255, 203, 49, 0, 0, 0, 0, 0,
   0, 255, 193, 0, 0, 2, 0, 255, 210, 9, 18, 0, 0, 0, 0, 248, 250, 217, 195, 221, 203, 221, 196,
   200, 0, 0, 1, 0, 255, 201, 3, 1, 0, 255, 211, 9, 9, 0, 0, 0, 0, 253, 255, 228, 224, 0, 0,
   255, 210]

/-- The node table of `wz_simple` at the time `resolve_uols` reaches the link `y`:
root, image `a`, `x` = integer 7 and `y` = UOL "x", with `a` on the path stack. -/
def st_simple : State :=
  { State.init [] with
    nodes := [⟨0, 1, 1, node_type.none, 0⟩, ⟨1, 2, 2, node_type.none, 0⟩,
              ⟨2, 0, 0, node_type.integer, 7⟩, ⟨3, 0, 0, node_type.uol, 2⟩]
    strings := [[], [97], [120], [121], [85, 79, 76]]
    resolve_path := [[97]] }

/-- A table of two nodes whose names `a\0c` and `a\0b\0` differ after a zero byte. -/
def st_nul : State :=
  { State.init [] with
    nodes := [⟨1, 0, 0, node_type.none, 0⟩, ⟨2, 0, 0, node_type.none, 0⟩]
    strings := [[], [97, 0, 99], [97, 0, 98, 0]] }

/-- A table of two nodes whose names `a\0b` and `a\0c` differ after a zero byte and have
the same size. -/
def st_nul_same_size : State :=
  { State.init [] with
    nodes := [⟨1, 0, 0, node_type.none, 0⟩, ⟨2, 0, 0, node_type.none, 0⟩]
    strings := [[], [97, 0, 98], [97, 0, 99]] }

/-- An archive with one image `a` holding two integers named `a\0c` and `a\0b\0`. -/
def wz_nul : List Nat :=
  [80, 75, 71, 49, 0, 0, 0, 0, 0, 0, 0, 0, 16, 0, 0, 0, 0, 0, 1, 4, 255, 203, 21, 0, 0, 0, 0, 0,
   0, 255, 193, 0, 0, 2, 0, 253, 203, 171, 207, 3, 1, 0, 252, 203, 171, 206, 173, 3, 2]

/-- The value of a returned result; `d` stands in for an error. -/
def ok_or {α : Type} (d : α) (r : Except Err α) : α :=
  match r with
  | Except.ok a => a
  | Except.error _ => d

/-- The state of a returned result; the initial state stands in for an error. -/
def ok_state (r : Except Err State) : State := ok_or (State.init []) r

/-- The state of `wztonx` on `wz_empty` at the line "Node cleanup finished". -/
def st_empty : State := ok_state (wztonx_nodes env_zero 3 wz_empty)

/-- The state of `wztonx` on `wz_simple` at the line "Node cleanup finished": four nodes
and five strings. -/
def st_final_simple : State := ok_state (wztonx_nodes env_zero 20 wz_simple)

/-- The state of `wztonx` on `wz_share` when the empty string has been interned. -/
def st_open_share : State := ok_state (wztonx_open env_zero wz_share)

/-- The state of `wztonx` on `wz_share` after `directory(0)`. -/
def st_dir_share : State := ok_state (directory env_zero 0 st_open_share)

/-- The state of `wztonx` on `wz_share` after `sub_property` for its image (node 1, image
base 28), which `img` calls with the cursor at 33. -/
def st_sub_share : State := ok_state (sub_property env_zero 20 1 28 (in_seek 33 st_dir_share))

/-- A state of `wztonx` on `wz_share` inside `sub_property` for the image: the two
children are allocated and the cursor is at the extended property of the first. -/
def st_ext_share : State :=
  { st_dir_share with
    nodes := st_dir_share.nodes ++ [node.default, node.default]
    in_offset := 42 }

/-- The state after `extended_property(2, 28)` from `st_ext_share`. -/
def st_ext_done : State := ok_state (extended_property env_zero 20 2 28 st_ext_share)

/-- The result of `read_prop_string(28)` with the cursor at the name of the first child
of the image of `wz_share`. -/
def prop_share : Nat × State :=
  ok_or (0, State.init []) (read_prop_string env_zero 28 (in_seek 34 st_dir_share))

/-- The result of `read_enc_string()` with the cursor at the encrypted name of the first
child of the image of `wz_share`. -/
def enc_share : Nat × State :=
  ok_or (0, State.init []) (read_enc_string env_zero (in_seek 35 st_dir_share))

/-- The state of `wztonx` on `wz_share` when both queues are worked off. -/
def st_parsed_share : State := ok_state (wztonx_parse env_zero 20 wz_share)

/-- The state of `wztonx` on `wz_share` after `resolve_uols(0)`. -/
def st_resolved_share : State := ok_state (resolve_uols 20 0 st_parsed_share)

/-- The state of `wztonx` on `wz_share` after `sort_nodes(2, 2)`. -/
def st_sorted_share : State := ok_state (sort_nodes 2 2 st_resolved_share)

/-- The node table of `wz_share` after `resolve_uols(0)`: the link `y` (index 3) has
taken over the child range of the property `x` (index 2). -/
def share_resolved : List node :=
  [⟨0, 1, 1, node_type.none, 0⟩, ⟨1, 2, 2, node_type.none, 0⟩, ⟨2, 4, 1, node_type.none, 0⟩,
   ⟨5, 4, 1, node_type.none, 0⟩, ⟨4, 0, 0, node_type.integer, 1⟩]

/-! ## Worked inputs for the image parser and the resolver -/

/-- An input that holds the property string with tag 0x01 and the relative offset 6, an
unrelated byte, and at position 6 the byte string `ab` with prefix -2; the first key is
selected. -/
def st_indirect : State :=
  { State.init [1, 6, 0, 0, 0, 99, 254, 203, 201] with cur_key := some 0 }

/-- An archive with one image `a` holding the child `c`, an extended property with the
type name `Prop` and one child `x` = integer 7. -/
def wz_prop : List Nat :=
  [80, 75, 71, 49, 0, 0, 0, 0, 0, 0, 0, 0, 16, 0, 0, 0, 0, 0, 1, 4, 255, 203, 28, 0, 0, 0, 0, 0,
   0, 255, 193, 0, 0, 1, 0, 255, 201, 9, 14, 0, 0, 0, 0, 252, 250, 217, 195, 221, 0, 0, 1, 0,
   255, 210, 3, 7]

/-- An archive with one image `a` holding the child `c`, an extended property with the
empty type name (prefix 0) and one child `x` = integer 7. -/
def wz_noname : List Nat :=
  [80, 75, 71, 49, 0, 0, 0, 0, 0, 0, 0, 0, 16, 0, 0, 0, 0, 0, 1, 4, 255, 203, 24, 0, 0, 0, 0, 0,
   0, 255, 193, 0, 0, 1, 0, 255, 201, 9, 10, 0, 0, 0, 0, 0, 0, 0, 1, 0, 255, 210, 3, 7]

/-- An archive with one image `a` holding the child `p` of the extended type
`Shape2D#Convex2D` with two elements, the vectors (1, 2) and (3, 4). -/
def wz_convex : List Nat :=
  [80, 75, 71, 49, 0, 0, 0, 0, 0, 0, 0, 0, 16, 0, 0, 0, 0, 0, 1, 4, 255, 203, 73, 0, 0, 0, 0, 0,
   0, 255, 193, 0, 0, 1, 0, 255, 218, 9, 59, 0, 0, 0, 0, 240, 249, 195, 205, 221, 203, 157, 244,
   146, 241, 220, 218, 195, 211, 207, 138, 253, 2, 0, 240, 249, 195, 205, 221, 203, 157, 244,
   146, 228, 214, 215, 193, 217, 197, 138, 253, 1, 2, 0, 240, 249, 195, 205, 221, 203, 157, 244,
   146, 228, 214, 215, 193, 217, 197, 138, 253, 3, 4]

/-- An archive with one image `a` holding the child `s` of the extended type `Sound_DX8`
with a payload of five bytes, and `x` = integer 7. -/
def wz_sound : List Nat :=
  [80, 75, 71, 49, 0, 0, 0, 0, 0, 0, 0, 0, 16, 0, 0, 0, 0, 0, 1, 4, 255, 203, 35, 0, 0, 0, 0, 0,
   0, 255, 193, 0, 0, 2, 0, 255, 217, 9, 16, 0, 0, 0, 0, 247, 249, 196, 217, 195, 202, 240, 244,
   233, 138, 1, 2, 3, 4, 5, 0, 255, 210, 3, 7]

/-- The state of `wztonx` on `wz_sound` after `directory(0)`. -/
def st_dir_sound : State :=
  ok_state (wztonx_open env_zero wz_sound >>= directory env_zero 0)

/-- The state of `wztonx` on `wz_sound` inside `sub_property` for the image (node 1, image
base 28): the two children are allocated and the cursor is at the first of them. -/
def st_child_sound : State :=
  let s := set_range 1 2 2 (in_seek 34 st_dir_sound)
  { s with nodes := s.nodes ++ List.replicate 2 node.default }

/-- The state of `wztonx` on `wz_clobber` when `resolve_uols` reaches the link (node 3):
the name of the image `a` is on the path stack. -/
def st_link_clobber : State :=
  { ok_state (wztonx_parse env_zero 20 wz_clobber) with resolve_path := [[97]] }

/-- A node table with the root and one child, a link whose string consists of 65535
slashes. -/
def st_slashes : State :=
  { State.init [] with
    nodes := [⟨0, 1, 1, node_type.none, 0⟩, ⟨2, 0, 0, node_type.uol, 1⟩]
    strings := [[], List.replicate 65535 47, [108]] }

/-- The state of `wztonx` on `wz_sound` when the name of the first child is read. -/
def st_name_sound : State :=
  (ok_or (0, st_child_sound) (read_prop_string env_zero 28 st_child_sound)).2

/-- The state in which `extended_property` returns for the first child of `wz_sound`:
the type name `Sound_DX8` is read and the payload is not. -/
def st_ext_sound : State :=
  ok_state (extended_property env_zero 20 2 28
    { set_name 2 2 st_name_sound with in_offset := st_name_sound.in_offset + 5 })

/-- An input that holds the byte string with prefix -128, the following 32-bit integer
65537 = 0x00010001 and then 65537 payload bytes 0xCB; the first key is selected. -/
def st_cut : State :=
  { State.init ([128, 1, 0, 1, 0, 203] ++ List.replicate 65536 203) with cur_key := some 0 }

/-- An input that holds the oracle string with prefix -128, the following 32-bit integer
65537 and then 65537 payload bytes, of which the zero key decodes the first to `a` and
the second to the control character 1. -/
def st_oracle_cut : State :=
  State.init ([128, 1, 0, 1, 0, 203, 170] ++ List.replicate 65535 203)

/-- A table in which the root has the one child at index 1, named `b`, and index 2 holds
a node named `a`: the child range (1, 1) of the root is a part of the range (1, 2). -/
def st_part : State :=
  { State.init [] with
    nodes := [⟨0, 1, 1, node_type.none, 0⟩, ⟨1, 0, 0, node_type.none, 0⟩,
              ⟨2, 0, 0, node_type.none, 0⟩]
    strings := [[], [98], [97]] }

/-! ## Theorems -/

section basics

theorem bind_ok_eq {α β : Type} (a : α) (f : α → Except Err β) :
    (Except.ok a >>= f) = f a := rfl

theorem bind_error_eq {α β : Type} (e : Err) (f : α → Except Err β) :
    (Except.error e >>= f) = Except.error e := rfl

theorem bind_eq_ok {α β : Type} {x : Except Err α} {f : α → Except Err β} {b : β}
    (h : (x >>= f) = Except.ok b) : ∃ a, x = Except.ok a ∧ f a = Except.ok b := by
  cases x with
  | error e => simp [bind_error_eq] at h
  | ok a => exact ⟨a, rfl, h⟩

end basics

/-! ### UOL resolution -/

/-- C1 (the code at failing inputs): in `wz_chain` the link `y` points at the link `z`,
which comes after it. The parser builds the table shown first; after `resolve_uols(0)`
the node `y` (index 2) still has data type `uol`, now with the payload of `z`. In
`wz_missing` the link (index 2) has no target and keeps data type `uol` as well. -/
theorem resolve_uols_leaves_uol_node :
    (wztonx_parse env_zero 20 wz_chain).map (fun st => st.nodes) =
      Except.ok [⟨0, 1, 1, node_type.none, 0⟩, ⟨1, 2, 3, node_type.none, 0⟩,
                 ⟨2, 0, 0, node_type.uol, 4⟩, ⟨4, 0, 0, node_type.uol, 5⟩,
                 ⟨5, 0, 0, node_type.integer, 7⟩] ∧
    (wztonx_parse env_zero 20 wz_chain >>= resolve_uols 20 0).map (fun st => st.nodes) =
      Except.ok [⟨0, 1, 1, node_type.none, 0⟩, ⟨1, 2, 3, node_type.none, 0⟩,
                 ⟨2, 0, 0, node_type.uol, 5⟩, ⟨4, 0, 0, node_type.integer, 7⟩,
                 ⟨5, 0, 0, node_type.integer, 7⟩] ∧
    (wztonx_parse env_zero 20 wz_missing >>= resolve_uols 20 0).map
        (fun st => st.nodes.map (fun n => n.data_type)) =
      Except.ok [node_type.none, node_type.none, node_type.uol] := by
  refine ⟨?_, ?_, ?_⟩ <;> decide

/-- C2 (the code at a failing input): in `wz_missing` the link (index 2) names a child
that does not exist; after `resolve_uols(0)` it still has data type `uol`. In
`wz_clobber` the walk of the link (index 3) gets stuck at `x` (index 2); afterwards
the link is still `uol` and it is `x` whose data type has become `none`. -/
theorem resolve_uols_downgrades_wrong_node :
    (wztonx_parse env_zero 20 wz_missing >>= resolve_uols 20 0).map (fun st => st.nodes) =
      Except.ok [⟨0, 1, 1, node_type.none, 0⟩, ⟨1, 2, 1, node_type.none, 0⟩,
                 ⟨2, 0, 0, node_type.uol, 4⟩] ∧
    (wztonx_parse env_zero 20 wz_clobber).map (fun st => st.nodes) =
      Except.ok [⟨0, 1, 1, node_type.none, 0⟩, ⟨1, 2, 2, node_type.none, 0⟩,
                 ⟨2, 0, 0, node_type.integer, 7⟩, ⟨3, 0, 0, node_type.uol, 5⟩] ∧
    (wztonx_parse env_zero 20 wz_clobber >>= resolve_uols 20 0).map (fun st => st.nodes) =
      Except.ok [⟨0, 1, 1, node_type.none, 0⟩, ⟨1, 2, 2, node_type.none, 0⟩,
                 ⟨2, 0, 0, node_type.none, 7⟩, ⟨3, 0, 0, node_type.uol, 5⟩] := by
  refine ⟨?_, ?_, ?_⟩ <;> decide

/-- C4 (the code at failing inputs): for the link string `../..` below the ancestors
`a`, `b`, `c` the code walks `a`, `b`, `..`, where cutting at every slash and folding
gives `a`; for the link string `a//b` the code walks `a`, `/b`, where cutting at
every slash gives `a`, the empty string, `b`. In `wz_enddot` the link (index 5) with
string `../..` therefore stays unresolved although its target `a` exists. For the
link string `../x` below `a`, `b` both give `a`, `x`. -/
theorem uol_path_differs_from_spec :
    uol_path [46, 46, 47, 46, 46] [[97], [98], [99]] = Except.ok [[97], [98], [46, 46]] ∧
    uol_path_spec [46, 46, 47, 46, 46] [[97], [98], [99]] = [[97]] ∧
    uol_path [97, 47, 47, 98] [] = Except.ok [[97], [47, 98]] ∧
    uol_path_spec [97, 47, 47, 98] [] = [[97], [], [98]] ∧
    (wztonx_parse env_zero 20 wz_enddot >>= resolve_uols 20 0).map (fun st => st.nodes[5]?) =
      Except.ok (some ⟨5, 0, 0, node_type.uol, 7⟩) ∧
    uol_path [46, 46, 47, 120] [[97], [98]] = Except.ok [[97], [120]] ∧
    uol_path_spec [46, 46, 47, 120] [[97], [98]] = [[97], [120]] := by
  refine ⟨?_, ?_, ?_, ?_, ?_, ?_, ?_⟩ <;> decide

/-! ### String table -/

/-- C7 (the code at a failing input): from the empty table the first `add_string` of
the empty string returns 0 and the second returns 1; the same holds for any first
string, here `abc`. After the call made by `wztonx`, an encrypted string with length
prefix `-128` and 32-bit count 0 is the empty string again and gets the ID 1. -/
theorem add_string_twice_differs :
    (add_string [] (State.init [])).1 = 0 ∧
    (add_string [] (add_string [] (State.init [])).2).1 = 1 ∧
    (add_string [97, 98, 99] (State.init [])).1 = 0 ∧
    (add_string [97, 98, 99] (add_string [97, 98, 99] (State.init [])).2).1 = 1 ∧
    (read_enc_string env_zero
      { (add_string [] (State.init [128, 0, 0, 0, 0])).2 with cur_key := some 2 }).map
        (fun r => (r.1, r.2.strings)) = Except.ok (1, [[], []]) := by
  refine ⟨?_, ?_, ?_, ?_, ?_⟩ <;> decide

/-! ### Sorting -/

theorem c_str_cons (a : Nat) (t : List Nat) :
    c_str (a :: t) = if a = 0 then [] else a :: c_str t := by
  by_cases h : a = 0 <;> simp [c_str, List.takeWhile, h]

theorem c_str_of_not_mem : ∀ (s : List Nat), 0 ∉ s → c_str s = s := by
  intro s
  induction s with
  | nil => intro _; rfl
  | cons a t ih =>
    intro h
    have ha : a ≠ 0 := fun h0 => h (by simp [h0])
    have ht : 0 ∉ t := fun h0 => h (by simp [h0])
    simp [c_str_cons, ha, ih ht]

theorem name_lt_irrefl (s : List Nat) : ¬ name_lt s s := by
  intro h
  rcases h with h | ⟨_, h⟩
  · exact lt_irrefl _ h
  · exact Nat.lt_irrefl _ h

theorem name_lt_asymm {s1 s2 : List Nat} (h : name_lt s1 s2) : ¬ name_lt s2 s1 := by
  intro h'
  rcases h with h | ⟨he, h⟩ <;> rcases h' with h' | ⟨he', h'⟩
  · exact lt_asymm h h'
  · rw [he'] at h; exact lt_irrefl _ h
  · rw [he] at h'; exact lt_irrefl _ h'
  · omega

theorem name_lt_trans {s1 s2 s3 : List Nat} (h : name_lt s1 s2) (h' : name_lt s2 s3) :
    name_lt s1 s3 := by
  rcases h with h | ⟨he, h⟩ <;> rcases h' with h' | ⟨he', h'⟩
  · exact Or.inl (lt_trans h h')
  · exact Or.inl (he' ▸ h)
  · exact Or.inl (he ▸ h')
  · exact Or.inr ⟨he.trans he', by omega⟩

/-- What the three outcomes of the comparison in `node_less` mean. -/
theorem strncmp_min_spec : ∀ (s1 s2 : List Nat),
    ((strncmp s1 s2 (min s1.length s2.length) < 0 ∨
        (strncmp s1 s2 (min s1.length s2.length) = 0 ∧ s1.length < s2.length)) →
      name_lt s1 s2) ∧
    ((strncmp s1 s2 (min s1.length s2.length) > 0 ∨
        (strncmp s1 s2 (min s1.length s2.length) = 0 ∧ s1.length > s2.length)) →
      name_lt s2 s1) ∧
    ((strncmp s1 s2 (min s1.length s2.length) = 0 ∧ s1.length = s2.length) →
      c_str s1 = c_str s2) := by
  intro s1
  induction s1 with
  | nil =>
    intro s2
    cases s2 with
    | nil => simp [strncmp, name_lt]
    | cons b t2 =>
      simp only [List.length_nil, List.length_cons, Nat.zero_min, strncmp]
      refine ⟨fun _ => ?_, fun h => ?_, fun h => ?_⟩
      · by_cases hb : b = 0
        · right; simp [c_str_cons, hb, c_str]
        · left; simp [c_str_cons, hb, c_str]; exact List.Lex.nil
      · simp at h
      · simp at h
  | cons a t1 ih =>
    intro s2
    cases s2 with
    | nil =>
      simp only [List.length_nil, List.length_cons, Nat.min_zero, strncmp]
      refine ⟨fun h => ?_, fun _ => ?_, fun h => ?_⟩
      · simp at h
      · by_cases ha : a = 0
        · right; simp [c_str_cons, ha, c_str]
        · left; simp [c_str_cons, ha, c_str]; exact List.Lex.nil
      · simp at h
    | cons b t2 =>
      have hmin : min (t1.length + 1) (t2.length + 1) = min t1.length t2.length + 1 := by
        omega
      simp only [List.length_cons, hmin, strncmp]
      by_cases hab : a = b
      · subst hab
        by_cases ha : a = 0
        · subst ha
          simp [c_str_cons, name_lt]
        · obtain ⟨i1, i2, i3⟩ := ih t2
          simp only [ne_eq, not_true_eq_false, if_false, ha, c_str_cons, name_lt,
            List.length_cons, List.cons.injEq, true_and, Nat.add_lt_add_iff_right,
            Nat.add_right_cancel_iff] at *
          refine ⟨fun h => ?_, fun h => ?_, fun h => ?_⟩
          · rcases i1 h with h1 | h1
            · left; exact List.Lex.cons h1
            · right; exact h1
          · rcases i2 h with h1 | h1
            · left; exact List.Lex.cons h1
            · right; exact h1
          · exact i3 h
      · simp only [ne_eq, hab, not_false_eq_true, if_true]
        have hne : (a : Int) - (b : Int) ≠ 0 := by omega
        refine ⟨fun h => ?_, fun h => ?_, fun h => ?_⟩
        · have hlt : a < b := by
            rcases h with h | h
            · omega
            · exact absurd h.1 hne
          left
          by_cases ha : a = 0
          · have hb : b ≠ 0 := by omega
            simp [c_str_cons, ha, hb]; exact List.Lex.nil
          · have hb : b ≠ 0 := by omega
            simp [c_str_cons, ha, hb]; exact List.Lex.rel hlt
        · have hlt : b < a := by
            rcases h with h | h
            · omega
            · exact absurd h.1 hne
          left
          by_cases hb : b = 0
          · have ha : a ≠ 0 := by omega
            simp [c_str_cons, ha, hb]; exact List.Lex.nil
          · have ha : a ≠ 0 := by omega
            simp [c_str_cons, ha, hb]; exact List.Lex.rel hlt
        · exact absurd h.1 hne

theorem node_name_eq {strings : List (List Nat)} {n : node} (h : n.name < strings.length) :
    strings[n.name]? = some (node_name strings n) := by
  simp [node_name, List.getElem?_eq_getElem h]

theorem node_less_spec (strings : List (List Nat)) (n1 n2 : node)
    (h1 : n1.name < strings.length) (h2 : n2.name < strings.length) :
    (node_lt strings n1 n2 → node_less strings false n1 n2 = Except.ok true) ∧
    (node_lt strings n2 n1 → node_less strings false n1 n2 = Except.ok false) ∧
    (¬ node_lt strings n1 n2 → ¬ node_lt strings n2 n1 →
      node_less strings false n1 n2 = Except.error Err.identical_strings) := by
  obtain ⟨i1, i2, i3⟩ := strncmp_min_spec (node_name strings n1) (node_name strings n2)
  have e1 := node_name_eq h1
  have e2 := node_name_eq h2
  unfold node_lt
  generalize node_name strings n1 = s1 at *
  generalize node_name strings n2 = s2 at *
  simp only [node_less, e1, e2, Bool.false_eq_true, if_false]
  by_cases c1 : strncmp s1 s2 (min s1.length s2.length) < 0
  · have := i1 (Or.inl c1)
    simp only [c1, if_true]
    exact ⟨fun _ => trivial, fun h => absurd this (name_lt_asymm h), fun h _ => absurd this h⟩
  · by_cases c2 : strncmp s1 s2 (min s1.length s2.length) > 0
    · have := i2 (Or.inl c2)
      simp only [c1, c2, if_true, if_false]
      exact ⟨fun h => absurd this (name_lt_asymm h), fun _ => trivial, fun _ h => absurd this h⟩
    · have c0 : strncmp s1 s2 (min s1.length s2.length) = 0 := by omega
      by_cases c3 : s1.length < s2.length
      · have := i1 (Or.inr ⟨c0, c3⟩)
        simp only [c1, c2, c3, if_true, if_false]
        exact ⟨fun _ => trivial, fun h => absurd this (name_lt_asymm h), fun h _ => absurd this h⟩
      · by_cases c4 : s1.length > s2.length
        · have := i2 (Or.inr ⟨c0, c4⟩)
          simp only [c1, c2, c3, c4, if_true, if_false]
          exact ⟨fun h => absurd this (name_lt_asymm h), fun _ => trivial,
            fun _ h => absurd this h⟩
        · have hl : s1.length = s2.length := by omega
          have hc := i3 ⟨c0, hl⟩
          simp only [c1, c2, c3, c4, if_false]
          have n12 : ¬ name_lt s1 s2 := by
            intro h
            rcases h with h | ⟨_, h⟩
            · rw [hc] at h; exact lt_irrefl _ h
            · omega
          have n21 : ¬ name_lt s2 s1 := by
            intro h
            rcases h with h | ⟨_, h⟩
            · rw [hc] at h; exact lt_irrefl _ h
            · omega
          exact ⟨fun h => absurd h n12, fun h => absurd h n21, fun _ _ => trivial⟩

theorem sort_insert_spec (strings : List (List Nat)) (x : node) (hx : x.name < strings.length) :
    ∀ (l : List node), names_valid strings l → l.Pairwise (node_lt strings) →
      ((∀ y ∈ l, node_lt strings x y ∨ node_lt strings y x) →
        ∃ r, sort_insert strings x l = Except.ok r ∧ r.Perm (x :: l) ∧
          r.Pairwise (node_lt strings)) ∧
      ((∃ y ∈ l, ¬ node_lt strings x y ∧ ¬ node_lt strings y x) →
        sort_insert strings x l = Except.error Err.identical_strings) := by
  intro l
  induction l with
  | nil =>
    intro _ _
    refine ⟨fun _ => ⟨[x], rfl, List.Perm.refl _, List.pairwise_singleton _ _⟩, ?_⟩
    rintro ⟨y, hy, _⟩
    cases hy
  | cons y ys ih =>
    intro hv hs
    have hy : y.name < strings.length := hv y (List.mem_cons_self _ _)
    have hvs : names_valid strings ys := fun n hn => hv n (List.mem_cons_of_mem _ hn)
    obtain ⟨hys, hss⟩ := List.pairwise_cons.mp hs
    obtain ⟨ih1, ih2⟩ := ih hvs hss
    obtain ⟨s1, s2, s3⟩ := node_less_spec strings x y hx hy
    refine ⟨fun hc => ?_, fun hc => ?_⟩
    · rcases hc y (List.mem_cons_self _ _) with hxy | hyx
      · refine ⟨x :: y :: ys, ?_, List.Perm.refl _, ?_⟩
        · simp [sort_insert, s1 hxy, bind_ok_eq]
        · refine List.pairwise_cons.mpr ⟨fun z hz => ?_, hs⟩
          rcases List.mem_cons.mp hz with hz | hz
          · subst hz; exact hxy
          · exact name_lt_trans hxy (hys z hz)
      · obtain ⟨r, hr, hp, hsr⟩ := ih1 (fun z hz => hc z (List.mem_cons_of_mem _ hz))
        refine ⟨y :: r, ?_, ?_, ?_⟩
        · simp [sort_insert, s2 hyx, bind_ok_eq, hr]
        · exact (List.Perm.cons y hp).trans (List.Perm.swap x y ys)
        · refine List.pairwise_cons.mpr ⟨fun z hz => ?_, hsr⟩
          rcases List.mem_cons.mp (hp.subset hz) with hz | hz
          · subst hz; exact hyx
          · exact hys z hz
    · obtain ⟨z, hz, hz1, hz2⟩ := hc
      rcases List.mem_cons.mp hz with hzy | hzy
      · subst hzy
        simp [sort_insert, s3 hz1 hz2, bind_error_eq]
      · by_cases hxy : node_lt strings x y
        · exact absurd (name_lt_trans hxy (hys z hzy)) hz1
        · by_cases hyx : node_lt strings y x
          · have := ih2 ⟨z, hzy, hz1, hz2⟩
            simp [sort_insert, s2 hyx, bind_ok_eq, this, bind_error_eq]
          · simp [sort_insert, s3 hxy hyx, bind_error_eq]

theorem std_sort_spec (strings : List (List Nat)) :
    ∀ (l : List node), names_valid strings l →
      (l.Pairwise (fun a b => node_lt strings a b ∨ node_lt strings b a) →
        ∃ r, std_sort strings l = Except.ok r ∧ r.Perm l ∧ r.Pairwise (node_lt strings)) ∧
      (¬ l.Pairwise (fun a b => node_lt strings a b ∨ node_lt strings b a) →
        std_sort strings l = Except.error Err.identical_strings) := by
  intro l
  induction l with
  | nil =>
    intro _
    exact ⟨fun _ => ⟨[], rfl, List.Perm.refl _, List.Pairwise.nil⟩,
      fun h => absurd List.Pairwise.nil h⟩
  | cons x xs ih =>
    intro hv
    have hx : x.name < strings.length := hv x (List.mem_cons_self _ _)
    have hvs : names_valid strings xs := fun n hn => hv n (List.mem_cons_of_mem _ hn)
    obtain ⟨ih1, ih2⟩ := ih hvs
    by_cases hp : xs.Pairwise (fun a b => node_lt strings a b ∨ node_lt strings b a)
    · obtain ⟨r, hr, hperm, hsorted⟩ := ih1 hp
      have hvr : names_valid strings r := fun n hn => hvs n (hperm.subset hn)
      obtain ⟨j1, j2⟩ := sort_insert_spec strings x hx r hvr hsorted
      refine ⟨fun h => ?_, fun h => ?_⟩
      · obtain ⟨hxs, _⟩ := List.pairwise_cons.mp h
        obtain ⟨r', hr', hp', hs'⟩ := j1 (fun y hy => hxs y (hperm.subset hy))
        refine ⟨r', ?_, hp'.trans (List.Perm.cons x hperm), hs'⟩
        simp [std_sort, hr, bind_ok_eq, hr']
      · have hex : ∃ y ∈ xs, ¬ node_lt strings x y ∧ ¬ node_lt strings y x := by
          by_contra hcon
          apply h
          refine List.pairwise_cons.mpr ⟨fun y hy => ?_, hp⟩
          by_contra hn
          exact hcon ⟨y, hy, fun h1 => hn (Or.inl h1), fun h2 => hn (Or.inr h2)⟩
        obtain ⟨y, hy, hy1, hy2⟩ := hex
        have := j2 ⟨y, hperm.symm.subset hy, hy1, hy2⟩
        simp [std_sort, hr, bind_ok_eq, this]
    · refine ⟨fun h => absurd (List.pairwise_cons.mp h).2 hp, fun _ => ?_⟩
      simp [std_sort, ih2 hp, bind_error_eq]

theorem node_range_getElem? (first count k : Nat) (nodes : List node) (hk : k < count) :
    (node_range first count nodes)[k]? = nodes[first + k]? := by
  simp [node_range, List.getElem?_take_of_lt hk, List.getElem?_drop]

theorem node_range_length (first count : Nat) (nodes : List node)
    (h : first + count ≤ nodes.length) : (node_range first count nodes).length = count := by
  simp [node_range]; omega

theorem sorted_range_getElem? (first count i : Nat) (nodes r : List node)
    (h : first + count ≤ nodes.length) (hr : r.length = count) (h1 : first ≤ i)
    (h2 : i < first + count) :
    (nodes.take first ++ r ++ nodes.drop (first + count))[i]? = r[i - first]? := by
  have hl : (nodes.take first).length = first := by simp; omega
  rw [List.append_assoc, List.getElem?_append_right (by omega), hl,
    List.getElem?_append_left (by omega)]

/-- C5 (amended): for a range inside the node table whose nodes have valid names that
are pairwise distinct and contain no zero byte, `sort_nodes(first, count)` returns,
and afterwards the names at any two positions `i < j` of the range are in strictly
increasing byte-wise lexicographic order. -/
theorem sort_nodes_sorted (first count : Nat) (st : State)
    (hrange : first + count ≤ st.nodes.length)
    (hvalid : ∀ n ∈ node_range first count st.nodes, n.name < st.strings.length)
    (hnul : ∀ n ∈ node_range first count st.nodes, 0 ∉ node_name st.strings n)
    (hdistinct : (node_range first count st.nodes).Pairwise
      (fun a b => node_name st.strings a ≠ node_name st.strings b)) :
    ∃ st', sort_nodes first count st = Except.ok st' ∧ st'.strings = st.strings ∧
      st'.nodes.length = st.nodes.length ∧
      ∀ i j ni nj, first ≤ i → i < j → j < first + count →
        st'.nodes[i]? = some ni → st'.nodes[j]? = some nj →
        node_name st'.strings ni < node_name st'.strings nj := by
  have hcomp : (node_range first count st.nodes).Pairwise
      (fun a b => node_lt st.strings a b ∨ node_lt st.strings b a) := by
    refine List.Pairwise.imp_of_mem ?_ hdistinct
    intro a b ha hb hne
    unfold node_lt name_lt
    rw [c_str_of_not_mem _ (hnul a ha), c_str_of_not_mem _ (hnul b hb)]
    rcases lt_trichotomy (node_name st.strings a) (node_name st.strings b) with h | h | h
    · exact Or.inl (Or.inl h)
    · exact absurd h hne
    · exact Or.inr (Or.inl h)
  obtain ⟨r, hr, hperm, hsorted⟩ := (std_sort_spec st.strings _ hvalid).1 hcomp
  have hlen : r.length = count := by
    rw [hperm.length_eq]; exact node_range_length _ _ _ hrange
  have hlt : r.Pairwise (fun a b => node_name st.strings a < node_name st.strings b) := by
    refine List.Pairwise.imp_of_mem ?_ hsorted
    intro a b ha hb hab
    unfold node_lt name_lt at hab
    rw [c_str_of_not_mem _ (hnul a (hperm.subset ha)),
      c_str_of_not_mem _ (hnul b (hperm.subset hb))] at hab
    rcases hab with h | ⟨he, h⟩
    · exact h
    · rw [he] at h; exact absurd h (Nat.lt_irrefl _)
  refine ⟨{ st with nodes := st.nodes.take first ++ r ++ st.nodes.drop (first + count) },
    ?_, rfl, ?_, ?_⟩
  · have hr' : std_sort st.strings (List.take count (List.drop first st.nodes)) =
        Except.ok r := hr
    simp [sort_nodes, hrange, hr', bind_ok_eq]
  · simp [hlen]; omega
  · intro i j ni nj h1 h2 h3 hi hj
    simp only at hi hj
    rw [sorted_range_getElem? first count i _ r hrange hlen h1 (by omega)] at hi
    rw [sorted_range_getElem? first count j _ r hrange hlen (by omega) h3] at hj
    obtain ⟨hi1, hi2⟩ := List.getElem?_eq_some_iff.mp hi
    obtain ⟨hj1, hj2⟩ := List.getElem?_eq_some_iff.mp hj
    have := List.pairwise_iff_getElem.mp hlt (i - first) (j - first) hi1 hj1 (by omega)
    rw [hi2, hj2] at this
    exact this

/-- C6: for a range inside the node table whose nodes have valid names, two of them at
different positions with byte-identical names, `sort_nodes(first, count)` raises the
error "Identical strings". -/
theorem sort_nodes_identical (first count : Nat) (st : State)
    (hrange : first + count ≤ st.nodes.length)
    (hvalid : ∀ n ∈ node_range first count st.nodes, n.name < st.strings.length)
    (hdup : ∃ i j ni nj, first ≤ i ∧ i < j ∧ j < first + count ∧
      st.nodes[i]? = some ni ∧ st.nodes[j]? = some nj ∧
      node_name st.strings ni = node_name st.strings nj) :
    sort_nodes first count st = Except.error Err.identical_strings := by
  obtain ⟨i, j, ni, nj, h1, h2, h3, hi, hj, hname⟩ := hdup
  have hnot : ¬ (node_range first count st.nodes).Pairwise
      (fun a b => node_lt st.strings a b ∨ node_lt st.strings b a) := by
    intro hp
    have hlen := node_range_length first count st.nodes hrange
    have ei : (node_range first count st.nodes)[i - first]? = some ni := by
      rw [node_range_getElem? _ _ _ _ (by omega)]
      rw [show first + (i - first) = i by omega]; exact hi
    have ej : (node_range first count st.nodes)[j - first]? = some nj := by
      rw [node_range_getElem? _ _ _ _ (by omega)]
      rw [show first + (j - first) = j by omega]; exact hj
    obtain ⟨hi1, hi2⟩ := List.getElem?_eq_some_iff.mp ei
    obtain ⟨hj1, hj2⟩ := List.getElem?_eq_some_iff.mp ej
    have := List.pairwise_iff_getElem.mp hp (i - first) (j - first) hi1 hj1 (by omega)
    rw [hi2, hj2] at this
    unfold node_lt at this
    rw [hname] at this
    rcases this with h | h <;> exact name_lt_irrefl _ h
  have he := (std_sort_spec st.strings _ hvalid).2 hnot
  have he' : std_sort st.strings (List.take count (List.drop first st.nodes)) =
      Except.error Err.identical_strings := he
  simp [sort_nodes, hrange, he', bind_error_eq]

theorem sort_nodes_sorted_witness :
    ∃ st', sort_nodes 2 2 st_simple = Except.ok st' ∧
      ∀ i j ni nj, 2 ≤ i → i < j → j < 2 + 2 →
        st'.nodes[i]? = some ni → st'.nodes[j]? = some nj →
        node_name st'.strings ni < node_name st'.strings nj := by
  obtain ⟨st', h1, _, _, h2⟩ :=
    sort_nodes_sorted 2 2 st_simple (by decide) (by decide) (by decide) (by decide)
  exact ⟨st', h1, h2⟩

/-- C5 (counterexample): the two names of `st_nul` are distinct, `sort_nodes(0, 2)`
returns and leaves `a\0c` before `a\0b\0`, which is not the byte-wise lexicographic
order; the parser builds such a range from `wz_nul` and the whole clean-up leaves it in
that order. The two names of `st_nul_same_size` are distinct as well, and
`sort_nodes(0, 2)` raises "Identical strings". -/
theorem sort_nodes_zero_byte_counterexample :
    (node_range 0 2 st_nul.nodes).Pairwise
      (fun a b => node_name st_nul.strings a ≠ node_name st_nul.strings b) ∧
    sort_nodes 0 2 st_nul = Except.ok st_nul ∧
    (st_nul.nodes.map (node_name st_nul.strings)) = [[97, 0, 99], [97, 0, 98, 0]] ∧
    ¬ (([97, 0, 99] : List Nat) < [97, 0, 98, 0]) ∧
    (wztonx_nodes env_zero 20 wz_nul).map
        (fun st => (st.nodes.drop 2).map (node_name st.strings)) =
      Except.ok [[97, 0, 99], [97, 0, 98, 0]] ∧
    (node_range 0 2 st_nul_same_size.nodes).Pairwise
      (fun a b => node_name st_nul_same_size.strings a ≠
        node_name st_nul_same_size.strings b) ∧
    sort_nodes 0 2 st_nul_same_size = Except.error Err.identical_strings := by
  refine ⟨?_, ?_, ?_, ?_, ?_, ?_, ?_⟩ <;> decide

theorem sort_nodes_identical_witness :
    sort_nodes 0 2
      { State.init [] with
        nodes := [⟨1, 0, 0, node_type.none, 0⟩, ⟨1, 0, 0, node_type.integer, 5⟩]
        strings := [[], [97]] } = Except.error Err.identical_strings :=
  sort_nodes_identical 0 2 _ (by decide) (by decide)
    ⟨0, 1, ⟨1, 0, 0, node_type.none, 0⟩, ⟨1, 0, 0, node_type.integer, 5⟩,
      by decide, by decide, by decide, by decide, by decide, by decide⟩

/-! ### Child ranges -/

theorem shape_length (nodes : List node) : (shape nodes).length = nodes.length := by
  simp [shape]

theorem shape_in_table_iff (nodes : List node) :
    shape_in_table (shape nodes) ↔ ranges_in_table nodes := by
  simp [shape_in_table, ranges_in_table, shape]

theorem shape_disjoint_iff (nodes : List node) :
    shape_disjoint (shape nodes) ↔ ranges_disjoint nodes := by
  unfold shape_disjoint ranges_disjoint
  constructor
  · intro h i j ni nj k hi hj
    exact h i j (ni.children, ni.num) (nj.children, nj.num) k
      (by simp [shape, hi]) (by simp [shape, hj])
  · intro h i j ri rj k hi hj
    simp only [shape, List.getElem?_map, Option.map_eq_some'] at hi hj
    obtain ⟨ni, hi, rfl⟩ := hi
    obtain ⟨nj, hj, rfl⟩ := hj
    exact h i j ni nj k hi hj

theorem shape_grows_length {a b : List (Nat × Nat)} (h : shape_grows a b) :
    a.length ≤ b.length := by
  induction h with
  | refl a => exact Nat.le_refl _
  | append a k => simp
  | assign a p c _ => simp
  | trans _ _ ih1 ih2 => exact Nat.le_trans ih1 ih2

theorem shape_grows_in_table {a b : List (Nat × Nat)} (h : shape_grows a b) :
    shape_in_table a → shape_in_table b := by
  induction h with
  | refl a => exact id
  | append a k =>
    intro h r hr
    rcases List.mem_append.mp hr with hr | hr
    · have := h r hr; simp; omega
    · rw [List.eq_of_mem_replicate hr]; simp
  | assign a p c hp =>
    intro h r hr
    rcases List.mem_append.mp hr with hr | hr
    · rcases List.mem_or_eq_of_mem_set hr with hr | hr
      · have := h r hr; simp; omega
      · subst hr
        simp only [List.length_append, List.length_set, List.length_replicate]
        have h1 : a.length % 2 ^ 32 ≤ a.length := Nat.mod_le _ _
        have h2 : c % 65536 ≤ c := Nat.mod_le _ _
        omega
    · rw [List.eq_of_mem_replicate hr]; simp
  | trans _ _ ih1 ih2 => exact fun h => ih2 (ih1 h)

theorem shape_grows_disjoint {a b : List (Nat × Nat)} (h : shape_grows a b) :
    b.length < 2 ^ 32 → shape_in_table a → shape_disjoint a → shape_disjoint b := by
  induction h with
  | refl a => exact fun _ _ h => h
  | append a k =>
    unfold shape_disjoint
    intro _ _ hd i j ri rj x hi hj hij h1 h2 h3 h4
    by_cases hia : i < a.length
    · by_cases hja : j < a.length
      · rw [List.getElem?_append_left hia] at hi
        rw [List.getElem?_append_left hja] at hj
        exact hd i j ri rj x hi hj hij h1 h2 h3 h4
      · rw [List.getElem?_append_right (by omega)] at hj
        have := List.getElem?_mem hj
        rw [List.eq_of_mem_replicate this] at h3 h4
        simp at h3 h4
    · rw [List.getElem?_append_right (by omega)] at hi
      have := List.getElem?_mem hi
      rw [List.eq_of_mem_replicate this] at h1 h2
      simp at h1 h2
  | assign a p c hp =>
    unfold shape_disjoint
    intro hb hin hd i j ri rj x hi hj hij h1 h2 h3 h4
    have hlen : a.length < 2 ^ 32 := by
      simp only [List.length_append, List.length_set, List.length_replicate] at hb; omega
    have hmod : a.length % 2 ^ 32 = a.length := Nat.mod_eq_of_lt hlen
    have key : ∀ (i : Nat) (ri : Nat × Nat),
        (a.set p (a.length % 2 ^ 32, c % 65536) ++ List.replicate c (0, 0))[i]? = some ri →
        (i ≠ p ∧ a[i]? = some ri) ∨ (i = p ∧ ri = (a.length, c % 65536)) ∨ ri = (0, 0) := by
      intro i ri hi
      by_cases hia : i < a.length
      · rw [List.getElem?_append_left (by simpa using hia)] at hi
        by_cases hip : i = p
        · subst hip
          rw [List.getElem?_set_self hia] at hi
          right; left
          simp only [Option.some.injEq] at hi
          rw [hmod] at hi
          exact ⟨rfl, hi.symm⟩
        · rw [List.getElem?_set_ne (fun h => hip h.symm)] at hi
          exact Or.inl ⟨hip, hi⟩
      · rw [List.getElem?_append_right (by simp; omega)] at hi
        exact Or.inr (Or.inr (List.eq_of_mem_replicate (List.getElem?_mem hi)))
    rcases key i ri hi with ⟨_, hi'⟩ | ⟨hip, rfl⟩ | rfl
    · rcases key j rj hj with ⟨_, hj'⟩ | ⟨hjp, rfl⟩ | rfl
      · exact hd i j ri rj x hi' hj' hij h1 h2 h3 h4
      · have := hin ri (List.getElem?_mem hi')
        simp at h3; omega
      · simp at h3 h4
    · rcases key j rj hj with ⟨_, hj'⟩ | ⟨hjp, rfl⟩ | rfl
      · have := hin rj (List.getElem?_mem hj')
        simp at h1; omega
      · omega
      · simp at h3 h4
    · simp at h1 h2
  | trans h1 h2 ih1 ih2 =>
    intro hc hin hd
    have hbc := shape_grows_length h2
    exact ih2 hc (shape_grows_in_table h1 hin) (ih1 (by omega) hin hd)

theorem reads_refl (st : State) : reads st st := ⟨st.in_offset, rfl⟩

theorem reads_trans {a b c : State} (h1 : reads a b) (h2 : reads b c) : reads a c := by
  obtain ⟨o1, rfl⟩ := h1
  obtain ⟨o2, rfl⟩ := h2
  exact ⟨o2, rfl⟩

theorem reads_skip (n : Nat) (st : State) : reads st (in_skip n st) := ⟨_, rfl⟩

theorem reads_seek (n : Nat) (st : State) : reads st (in_seek n st) := ⟨_, rfl⟩

theorem in_read_reads {k : Nat} {st st' : State} {v : Nat}
    (h : in_read k st = Except.ok (v, st')) : reads st st' := by
  unfold in_read at h
  split at h
  · cases h; exact ⟨_, rfl⟩
  · cases h

theorem read_cint_reads {st st' : State} {v : Int}
    (h : read_cint st = Except.ok (v, st')) : reads st st' := by
  unfold read_cint at h
  obtain ⟨⟨a, st1⟩, h1, h2⟩ := bind_eq_ok h
  have e1 := in_read_reads h1
  simp only at h2
  split at h2
  · cases h2; exact e1
  · obtain ⟨⟨w, st2⟩, h3, h4⟩ := bind_eq_ok h2
    cases h4
    exact reads_trans e1 (in_read_reads h3)

theorem interns_of_reads {a b c : State} {id : Nat} (h1 : reads a b) (h2 : interns b id c) :
    interns a id c := by
  obtain ⟨o1, rfl⟩ := h1
  obtain ⟨o2, h2⟩ := h2
  exact ⟨o2, h2⟩

theorem add_string_eq (data : List Nat) (st : State) :
    add_string data st =
      if string_map_get st.string_map (fnv1a data) ≠ 0 then
        (string_map_get st.string_map (fnv1a data), st)
      else
        (st.strings.length % 2 ^ 32,
          { st with string_map := (fnv1a data, st.strings.length % 2 ^ 32) :: st.string_map,
                    strings := st.strings ++ [data] }) := rfl

theorem interns_reads {a b c : State} {id : Nat} (h1 : interns a id b) (h2 : reads b c) :
    interns a id c := by
  obtain ⟨o1, h1⟩ := h1
  obtain ⟨o2, rfl⟩ := h2
  refine ⟨o2, ?_⟩
  rcases h1 with ⟨rfl, hid⟩ | ⟨data, h1⟩
  · exact Or.inl ⟨rfl, hid⟩
  · right
    refine ⟨data, ?_⟩
    rw [add_string_eq] at h1 ⊢
    by_cases hc : string_map_get a.string_map (fnv1a data) ≠ 0
    · rw [if_pos hc] at h1
      rw [if_pos hc]
      obtain ⟨rfl, rfl⟩ := Prod.mk.inj h1
      rfl
    · rw [if_neg hc] at h1
      rw [if_neg hc]
      obtain ⟨rfl, rfl⟩ := Prod.mk.inj h1
      rfl

theorem ok_inj {α : Type} {a b : α} (h : (Except.ok a : Except Err α) = Except.ok b) :
    a = b := by
  injection h

theorem interns_add_string {data : List Nat} {st st' : State} {id : Nat}
    (h : add_string data st = (id, st')) : interns st id st' :=
  ⟨st.in_offset, Or.inr ⟨data, h.symm⟩⟩

theorem read_slen_reads {ext : Bool} {v : Int} {st st' : State} {slen : Nat}
    (h : read_slen ext v st = Except.ok (slen, st')) : reads st st' := by
  unfold read_slen at h
  split at h
  · obtain ⟨⟨w, s⟩, h1, h2⟩ := bind_eq_ok h
    cases h2
    exact in_read_reads h1
  · cases h; exact reads_refl _

theorem read_enc_string_interns {env : Env} {st st' : State} {id : Nat}
    (h : read_enc_string env st = Except.ok (id, st')) : interns st id st' := by
  unfold read_enc_string at h
  obtain ⟨⟨l, st1⟩, h1, h2⟩ := bind_eq_ok h
  have e1 := in_read_reads h1
  simp only at h2
  split at h2
  · obtain ⟨⟨slen, st2⟩, h3, h4⟩ := bind_eq_ok h2
    have e2 := read_slen_reads h3
    simp only at h4
    obtain ⟨ows, _, h6⟩ := bind_eq_ok h4
    split at h6
    · cases h6
    · split at h6
      · cases h6
      · exact interns_of_reads (reads_trans e1 (reads_trans e2 (reads_skip _ _)))
          (interns_add_string (ok_inj h6))
  · split at h2
    · obtain ⟨⟨slen, st2⟩, h3, h4⟩ := bind_eq_ok h2
      have e2 := read_slen_reads h3
      simp only at h4
      obtain ⟨os, _, h6⟩ := bind_eq_ok h4
      split at h6
      · cases h6
      · exact interns_of_reads (reads_trans e1 (reads_trans e2 (reads_skip _ _)))
          (interns_add_string (ok_inj h6))
    · cases h2
      obtain ⟨o, rfl⟩ := e1
      exact ⟨o, Or.inl ⟨rfl, rfl⟩⟩

theorem read_prop_string_interns {env : Env} {offset : Nat} {st st' : State} {id : Nat}
    (h : read_prop_string env offset st = Except.ok (id, st')) : interns st id st' := by
  unfold read_prop_string at h
  obtain ⟨⟨a, st1⟩, h1, h2⟩ := bind_eq_ok h
  have e1 := in_read_reads h1
  simp only at h2
  split at h2
  · exact interns_of_reads e1 (read_enc_string_interns h2)
  · split at h2
    · obtain ⟨⟨v, st2⟩, h3, h4⟩ := bind_eq_ok h2
      have e2 := in_read_reads h3
      simp only at h4
      obtain ⟨⟨s, st3⟩, h5, h6⟩ := bind_eq_ok h4
      cases h6
      exact interns_reads
        (interns_of_reads (reads_trans e1 (reads_trans e2 (reads_seek _ _)))
          (read_enc_string_interns h5)) (reads_seek _ _)
    · cases h2

theorem reads_nodes {st st' : State} (h : reads st st') : st'.nodes = st.nodes := by
  obtain ⟨o, rfl⟩ := h; rfl

theorem interns_nodes {st st' : State} {id : Nat} (h : interns st id st') :
    st'.nodes = st.nodes := by
  obtain ⟨o, h⟩ := h
  rcases h with ⟨rfl, _⟩ | ⟨data, h⟩
  · rfl
  · rw [add_string_eq] at h
    split at h <;> obtain ⟨_, rfl⟩ := Prod.mk.inj h <;> rfl

theorem deduce_key_nodes {env : Env} {st st' : State}
    (h : deduce_key env st = Except.ok st') :
    st'.nodes = st.nodes ∧ st'.strings = st.strings ∧ st'.string_map = st.string_map := by
  unfold deduce_key at h
  obtain ⟨⟨l, st1⟩, h1, h2⟩ := bind_eq_ok h
  obtain ⟨o1, rfl⟩ := in_read_reads h1
  simp only at h2
  split at h2
  · cases h2
  · obtain ⟨⟨slen, st2⟩, h3, h4⟩ := bind_eq_ok h2
    obtain ⟨o2, rfl⟩ := read_slen_reads h3
    simp only at h4
    obtain ⟨os, _, h6⟩ := bind_eq_ok h4
    split at h6
    · cases h6
    · cases h6
      exact ⟨rfl, rfl, rfl⟩

theorem shape_modify (f : node → node) (hf : ∀ n, (f n).children = n.children ∧ (f n).num = n.num)
    (i : Nat) : ∀ (nodes : List node), shape (nodes.modify f i) = shape nodes := by
  intro nodes
  apply List.ext_getElem?
  intro k
  simp only [shape, List.getElem?_map, List.getElem?_modify]
  cases h : nodes[k]? with
  | none => simp
  | some n =>
    by_cases hik : i = k
    · simp [hik, (hf n).1, (hf n).2]
    · simp [hik]

theorem shape_update_node (f : node → node)
    (hf : ∀ n, (f n).children = n.children ∧ (f n).num = n.num) (i : Nat) (st : State) :
    shape (update_node f i st).nodes = shape st.nodes :=
  shape_modify f hf i st.nodes

theorem shape_set_name (i v : Nat) (st : State) :
    shape (set_name i v st).nodes = shape st.nodes :=
  shape_update_node (fun n => { n with name := v }) (fun _ => ⟨rfl, rfl⟩) i st

theorem shape_set_data_type (i : Nat) (t : node_type) (st : State) :
    shape (set_data_type i t st).nodes = shape st.nodes :=
  shape_update_node (fun n => { n with data_type := t }) (fun _ => ⟨rfl, rfl⟩) i st

theorem shape_set_data (i : Nat) (f : Nat → Nat) (st : State) :
    shape (set_data i f st).nodes = shape st.nodes :=
  shape_update_node (fun n => { n with data := f n.data }) (fun _ => ⟨rfl, rfl⟩) i st

theorem shape_append (a b : List node) : shape (a ++ b) = shape a ++ shape b := by
  simp [shape]

theorem shape_replicate (k : Nat) : shape (List.replicate k node.default) =
    List.replicate k (0, 0) := by
  simp [shape, node.default]

theorem shape_set_range (p ni c : Nat) (st : State) :
    shape (set_range p ni c st).nodes = (shape st.nodes).set p (ni, c) := by
  unfold set_range update_node
  apply List.ext_getElem?
  intro k
  simp only [shape, List.getElem?_map, List.getElem?_modify, List.getElem?_set]
  cases h : st.nodes[k]? with
  | none =>
    by_cases hpk : p = k
    · subst hpk
      have : ¬ p < st.nodes.length := by
        intro hlt
        rw [List.getElem?_eq_getElem hlt] at h
        cases h
      simp [this]
    · simp [hpk]
  | some n =>
    have hlt : k < st.nodes.length := (List.getElem?_eq_some_iff.mp h).1
    by_cases hpk : p = k
    · subst hpk; simp [hlt]
    · simp [hpk]

theorem directory_switch_shape {env : Env} {back ty ty2 : Nat} {st st' : State}
    (h : directory_switch env back ty st = Except.ok (ty2, st')) :
    shape st'.nodes = shape st.nodes := by
  unfold directory_switch at h
  split at h
  · cases h
  · split at h
    · obtain ⟨⟨s, a1⟩, g1, g2⟩ := bind_eq_ok h
      dsimp only at g2
      obtain ⟨⟨t2, a3⟩, g3, g4⟩ := bind_eq_ok g2
      dsimp only at g4
      obtain ⟨⟨name, a4⟩, g5, g6⟩ := bind_eq_ok g4
      cases g6
      have n1 := reads_nodes (in_read_reads g1)
      have n3 := reads_nodes (in_read_reads g3)
      have n4 := interns_nodes (read_enc_string_interns g5)
      simp only [in_seek] at n3 n4 ⊢
      rw [shape_set_name, n4, n3, n1]
    · split at h
      · obtain ⟨⟨name, a1⟩, g1, g2⟩ := bind_eq_ok h
        cases g2
        have n1 := interns_nodes (read_enc_string_interns g1)
        rw [shape_set_name, n1]
      · cases h

theorem directory_enqueue_nodes {ty c : Nat} {size : Int} {st st' : State}
    (h : directory_enqueue ty c size st = Except.ok st') :
    st'.nodes = st.nodes ∧ st'.strings = st.strings ∧ st'.string_map = st.string_map := by
  unfold directory_enqueue at h
  split at h
  · cases h; exact ⟨rfl, rfl, rfl⟩
  · split at h
    · cases h; exact ⟨rfl, rfl, rfl⟩
    · cases h

theorem directory_loop_shape (env : Env) (ni : Nat) :
    ∀ (k i : Nat) (st st' : State), directory_loop env ni k i st = Except.ok st' →
      shape st'.nodes = shape st.nodes ++ List.replicate k (0, 0) := by
  intro k
  induction k with
  | zero =>
    intro i st st' h
    simp only [directory_loop] at h
    cases h
    simp
  | succ k ih =>
    intro i st st' h
    rw [directory_loop] at h
    obtain ⟨⟨ty, st1⟩, h1, h2⟩ := bind_eq_ok h
    have e1 := reads_nodes (in_read_reads h1)
    dsimp only at h2
    obtain ⟨⟨ty2, st2⟩, h3, h4⟩ := bind_eq_ok h2
    have e2 := directory_switch_shape h3
    dsimp only at h4
    obtain ⟨⟨size, st3⟩, h5, h6⟩ := bind_eq_ok h4
    have e3 := reads_nodes (read_cint_reads h5)
    dsimp only at h6
    split at h6
    · cases h6
    · obtain ⟨⟨x, st4⟩, h7, h8⟩ := bind_eq_ok h6
      have e4 := reads_nodes (read_cint_reads h7)
      dsimp only at h8
      obtain ⟨st5, h9, h10⟩ := bind_eq_ok h8
      have e5 := (directory_enqueue_nodes h9).1
      have e0 : shape st1.nodes = shape st.nodes ++ [(0, 0)] := by
        rw [e1]; simp [shape, node.default]
      have := ih _ _ _ h10
      simp only [in_skip] at e5
      rw [this, e5, e4, e3, e2, e0, List.append_assoc]
      rfl

theorem directory_shape {env : Env} {dir_node : Nat} {st st' : State}
    (h : directory env dir_node st = Except.ok st') :
    shape_grows (shape st.nodes) (shape st'.nodes) := by
  unfold directory at h
  split at h
  · rename_i hlt
    obtain ⟨⟨c, st1⟩, h1, h2⟩ := bind_eq_ok h
    have e1 := reads_nodes (read_cint_reads h1)
    dsimp only at h2
    obtain ⟨st3, h3, h4⟩ := bind_eq_ok h2
    cases h4
    have := directory_loop_shape _ _ _ _ _ _ h3
    dsimp only
    rw [this, shape_set_range, e1]
    have hl : st.nodes.length = (shape st.nodes).length := (shape_length _).symm
    rw [hl]
    exact shape_grows.assign _ _ _ (by rw [shape_length]; exact hlt)
  · cases h

theorem grows_of_shape_eq {a b : List node} (h : shape b = shape a) :
    shape_grows (shape a) (shape b) := by
  rw [h]; exact shape_grows.refl _

theorem grows_of_nodes_eq {a b : List node} (h : b = a) :
    shape_grows (shape a) (shape b) := by
  rw [h]; exact shape_grows.refl _

theorem grows_append (a : List node) (k : Nat) :
    shape_grows (shape a) (shape (a ++ List.replicate k node.default)) := by
  rw [shape_append, shape_replicate]; exact shape_grows.append _ _

theorem convex_loop_shape (call : State → Except Err State) (ni : Nat)
    (hcall : ∀ s s', call s = Except.ok s' → shape_grows (shape s.nodes) (shape s'.nodes)) :
    ∀ (k i : Nat) (st st' : State), convex_loop call ni k i st = Except.ok st' →
      shape_grows (shape st.nodes) (shape st'.nodes) := by
  intro k
  induction k with
  | zero =>
    intro i st st' h
    simp only [convex_loop] at h
    cases h
    exact shape_grows.refl _
  | succ k ih =>
    intro i st st' h
    rw [convex_loop] at h
    split at h
    · obtain ⟨st3, h1, h2⟩ := bind_eq_ok h
      have g1 := hcall _ _ h1
      have g2 := ih _ _ _ h2
      dsimp only at g1
      rw [shape_set_name, interns_nodes (interns_add_string rfl)] at g1
      exact shape_grows.trans g1 g2
    · cases h

theorem sub_property_child_shape (env : Env) (ext : State → Except Err State)
    (hext : ∀ s s', ext s = Except.ok s' → shape_grows (shape s.nodes) (shape s'.nodes))
    (offset c i : Nat) (st st' : State)
    (h : sub_property_child env ext offset c i st = Except.ok st') :
    shape_grows (shape st.nodes) (shape st'.nodes) := by
  unfold sub_property_child at h
  split at h
  · obtain ⟨⟨name, st1⟩, h1, h2⟩ := bind_eq_ok h
    have e1 := interns_nodes (read_prop_string_interns h1)
    dsimp only at h2
    obtain ⟨⟨ty, st3⟩, h3, h4⟩ := bind_eq_ok h2
    have e3 := reads_nodes (in_read_reads h3)
    dsimp only at h4
    have e : shape st3.nodes = shape st.nodes := by
      rw [e3, shape_set_name, e1]
    split at h4
    · cases h4
      exact grows_of_shape_eq (by rw [shape_set_data, shape_set_data_type, e])
    · split at h4
      · obtain ⟨⟨v, st4⟩, g1, g2⟩ := bind_eq_ok h4
        cases g2
        exact grows_of_shape_eq (by
          rw [shape_set_data, reads_nodes (in_read_reads g1), shape_set_data_type, e])
      · split at h4
        · obtain ⟨⟨v, st4⟩, g1, g2⟩ := bind_eq_ok h4
          cases g2
          exact grows_of_shape_eq (by
            rw [shape_set_data, reads_nodes (read_cint_reads g1), shape_set_data_type, e])
        · split at h4
          · obtain ⟨⟨b, st4⟩, g1, g2⟩ := bind_eq_ok h4
            dsimp only at g2
            split at g2
            · obtain ⟨⟨v, st5⟩, g3, g4⟩ := bind_eq_ok g2
              cases g4
              exact grows_of_shape_eq (by
                rw [shape_set_data, reads_nodes (in_read_reads g3),
                  reads_nodes (in_read_reads g1), shape_set_data_type, e])
            · cases g2
              exact grows_of_shape_eq (by
                rw [shape_set_data, reads_nodes (in_read_reads g1), shape_set_data_type, e])
          · split at h4
            · obtain ⟨⟨v, st4⟩, g1, g2⟩ := bind_eq_ok h4
              cases g2
              exact grows_of_shape_eq (by
                rw [shape_set_data, reads_nodes (in_read_reads g1), shape_set_data_type, e])
            · split at h4
              · obtain ⟨⟨v, st4⟩, g1, g2⟩ := bind_eq_ok h4
                cases g2
                exact grows_of_shape_eq (by
                  rw [shape_set_data, interns_nodes (read_prop_string_interns g1),
                    shape_set_data_type, e])
              · split at h4
                · obtain ⟨⟨v, st4⟩, g1, g2⟩ := bind_eq_ok h4
                  dsimp only at g2
                  obtain ⟨st5, g3, g4⟩ := bind_eq_ok g2
                  cases g4
                  have := hext _ _ g3
                  rw [reads_nodes (in_read_reads g1)] at this
                  simp only [in_seek]
                  rw [← e]
                  exact this
                · cases h4
  · cases h

theorem sub_property_loop_shape (env : Env) (ext : Nat → State → Except Err State)
    (hext : ∀ c s s', ext c s = Except.ok s' → shape_grows (shape s.nodes) (shape s'.nodes))
    (offset ni : Nat) :
    ∀ (k i : Nat) (st st' : State),
      sub_property_loop env ext offset ni k i st = Except.ok st' →
      shape_grows (shape st.nodes) (shape st'.nodes) := by
  intro k
  induction k with
  | zero =>
    intro i st st' h
    simp only [sub_property_loop] at h
    cases h
    exact shape_grows.refl _
  | succ k ih =>
    intro i st st' h
    rw [sub_property_loop] at h
    obtain ⟨st1, h1, h2⟩ := bind_eq_ok h
    exact shape_grows.trans
      (sub_property_child_shape env _ (hext _) _ _ _ _ _ h1) (ih _ _ _ h2)

theorem property_shape (env : Env) :
    ∀ (fuel : Nat) (c : prop_call) (st st' : State),
      property env fuel c st = Except.ok st' →
      shape_grows (shape st.nodes) (shape st'.nodes) := by
  intro fuel
  induction fuel with
  | zero =>
    intro c st st' h
    simp [property] at h
  | succ fuel ih =>
    intro c st st' h
    cases c with
    | extended_property prop_node offset =>
      rw [property] at h
      split at h
      · obtain ⟨⟨s, st1⟩, h1, h2⟩ := bind_eq_ok h
        have e1 := interns_nodes (read_prop_string_interns h1)
        dsimp only at h2
        split at h2
        · cases h2
        · rw [← e1]
          split at h2
          · have := ih _ _ _ h2
            exact this
          · split at h2
            · obtain ⟨⟨b, st2⟩, g1, g2⟩ := bind_eq_ok h2
              have e2 := reads_nodes (in_read_reads g1)
              dsimp only at g2
              split at g2
              · have := ih _ _ _ g2
                simp only [in_skip] at this e2
                rw [e2] at this
                exact this
              · cases g2
                simp only [in_skip] at e2
                exact grows_of_nodes_eq e2
            · split at h2
              · obtain ⟨⟨x, st3⟩, g1, g2⟩ := bind_eq_ok h2
                have e3 := reads_nodes (read_cint_reads g1)
                dsimp only at g2
                obtain ⟨⟨y, st5⟩, g3, g4⟩ := bind_eq_ok g2
                have e5 := reads_nodes (read_cint_reads g3)
                cases g4
                refine grows_of_shape_eq ?_
                rw [shape_set_data, e5, shape_set_data, e3, shape_set_data_type]
              · split at h2
                · obtain ⟨⟨c, st2⟩, g1, g2⟩ := bind_eq_ok h2
                  have e2 := reads_nodes (read_cint_reads g1)
                  dsimp only at g2
                  obtain ⟨st4, g3, g4⟩ := bind_eq_ok g2
                  cases g4
                  have := convex_loop_shape _ _ (fun s s' hs => ih _ s s' hs) _ _ _ _ g3
                  dsimp only at this ⊢
                  rw [← e2]
                  exact shape_grows.trans (grows_append _ _) this
                · split at h2
                  · cases h2
                    exact shape_grows.refl _
                  · split at h2
                    · obtain ⟨⟨v, st4⟩, g1, g2⟩ := bind_eq_ok h2
                      have e4 := interns_nodes (read_prop_string_interns g1)
                      cases g2
                      refine grows_of_shape_eq ?_
                      rw [shape_set_data, e4, shape_set_data_type]
                      rfl
                    · cases h2
      · cases h
    | sub_property prop_node offset =>
      rw [property] at h
      obtain ⟨⟨c, st1⟩, h1, h2⟩ := bind_eq_ok h
      have e1 := reads_nodes (read_cint_reads h1)
      dsimp only at h2
      split at h2
      · rename_i hlt
        obtain ⟨st4, g3, g4⟩ := bind_eq_ok h2
        cases g4
        have := sub_property_loop_shape env _ (fun c s s' hs => ih _ s s' hs) _ _ _ _ _ _ g3
        dsimp only at this ⊢
        refine shape_grows.trans ?_ this
        rw [shape_append, shape_replicate, shape_set_range, ← e1]
        have hl : st1.nodes.length = (shape st1.nodes).length := (shape_length _).symm
        rw [hl]
        exact shape_grows.assign _ _ _ (by rw [shape_length]; exact hlt)
      · cases h2

theorem resolve_push_nodes {u : Nat} {n : node} {st st' : State}
    (h : resolve_push u n st = Except.ok st') : st'.nodes = st.nodes := by
  unfold resolve_push at h
  split at h
  · split at h
    · cases h
    · cases h; rfl
  · cases h; rfl

theorem resolve_pop_nodes {u : Nat} {st st' : State}
    (h : resolve_pop u st = Except.ok st') : st'.nodes = st.nodes := by
  unfold resolve_pop at h
  split at h
  · split at h
    · cases h
    · cases h; rfl
  · cases h; rfl

theorem resolve_children_invariant (P : List node → Prop)
    (call : Nat → State → Except Err State)
    (hcall : ∀ c s s', call c s = Except.ok s' → P s.nodes → P s'.nodes) (u : Nat) :
    ∀ (k i : Nat) (st st' : State), resolve_children call u k i st = Except.ok st' →
      P st.nodes → P st'.nodes := by
  intro k
  induction k with
  | zero =>
    intro i st st' h
    simp [resolve_children] at h
  | succ k ih =>
    intro i st st' h hp
    rw [resolve_children] at h
    split at h
    · cases h
    · split at h
      · obtain ⟨st1, h1, h2⟩ := bind_eq_ok h
        exact ih _ _ _ h2 (hcall _ _ _ h1 hp)
      · cases h; exact hp

/-- An invariant of the node table that the two assignments of `resolve_uols` keep is
kept by `resolve_uols`. -/
theorem resolve_uols_invariant (P : List node → Prop)
    (hnone : ∀ (nodes : List node) (search : Nat) (m : node), P nodes →
      nodes[search]? = some m → P (nodes.set search { m with data_type := node_type.none }))
    (hcopy : ∀ (nodes : List node) (u t : Nat) (n nt : node), P nodes →
      nodes[u]? = some n → n.data_type = node_type.uol → nodes[t]? = some nt →
      P (nodes.set u { n with data_type := nt.data_type, children := nt.children,
                              num := nt.num, data := nt.data })) :
    ∀ (fuel u : Nat) (st st' : State), resolve_uols fuel u st = Except.ok st' →
      P st.nodes → P st'.nodes := by
  intro fuel
  induction fuel with
  | zero =>
    intro u st st' h
    simp [resolve_uols] at h
  | succ fuel ih =>
    intro u st st' h hp
    rw [resolve_uols] at h
    split at h
    · cases h
    · rename_i n hn
      split at h
      · rename_i huol
        split at h
        · cases h
        · obtain ⟨path, _, h2⟩ := bind_eq_ok h
          obtain ⟨r, _, h4⟩ := bind_eq_ok h2
          cases r with
          | not_found search =>
            dsimp only at h4
            split at h4
            · cases h4
            · rename_i m hm
              cases h4
              exact hnone _ _ _ hp hm
          | found search =>
            dsimp only at h4
            split at h4
            · cases h4
            · rename_i nt hnt
              cases h4
              exact hcopy _ _ _ _ _ hp hn huol hnt
      · obtain ⟨st1, h1, h2⟩ := bind_eq_ok h
        obtain ⟨st2, h3, h4⟩ := bind_eq_ok h2
        rw [resolve_pop_nodes h4]
        have hp1 : P st1.nodes := by rw [resolve_push_nodes h1]; exact hp
        exact resolve_children_invariant P _ (fun c s s' hs => ih c s s' hs) _ _ _ _ _ h3 hp1

theorem resolve_uols_in_table (fuel u : Nat) (st st' : State)
    (h : resolve_uols fuel u st = Except.ok st') (hp : ranges_in_table st.nodes) :
    ranges_in_table st'.nodes := by
  refine resolve_uols_invariant ranges_in_table ?_ ?_ fuel u st st' h hp
  · intro nodes search m hp hm n hn
    rw [List.length_set]
    rcases List.mem_or_eq_of_mem_set hn with hn | hn
    · exact hp n hn
    · subst hn; exact hp m (List.getElem?_mem hm)
  · intro nodes u t n nt hp _ _ hnt x hx
    rw [List.length_set]
    rcases List.mem_or_eq_of_mem_set hx with hx | hx
    · exact hp x hx
    · subst hx; exact hp nt (List.getElem?_mem hnt)

theorem resolve_uols_frame (fuel u : Nat) (st st' : State)
    (h : resolve_uols fuel u st = Except.ok st') : uol_frame st.nodes st'.nodes := by
  refine resolve_uols_invariant (uol_frame st.nodes) ?_ ?_ fuel u st st' h ?_
  · intro nodes search m ⟨hl, hp⟩ hm
    refine ⟨by rw [List.length_set]; exact hl, fun i n hi hne => ?_⟩
    obtain ⟨n', h1, h2, h3, h4, h5, h6⟩ := hp i n hi hne
    by_cases his : search = i
    · subst his
      rw [hm] at h1
      cases h1
      refine ⟨{ m with data_type := node_type.none }, ?_, h2, h3, h4, h5, by simp⟩
      rw [List.getElem?_set_self (List.getElem?_eq_some_iff.mp hm).1]
    · exact ⟨n', by rw [List.getElem?_set_ne his]; exact h1, h2, h3, h4, h5, h6⟩
  · intro nodes u t n nt ⟨hl, hp⟩ hn huol _
    refine ⟨by rw [List.length_set]; exact hl, fun i x hi hne => ?_⟩
    obtain ⟨n', h1, h2, h3, h4, h5, h6⟩ := hp i x hi hne
    by_cases his : u = i
    · subst his
      rw [hn] at h1
      cases h1
      exact absurd huol h6
    · exact ⟨n', by rw [List.getElem?_set_ne his]; exact h1, h2, h3, h4, h5, h6⟩
  · exact ⟨rfl, fun i n hi hne => ⟨n, hi, rfl, rfl, rfl, rfl, hne⟩⟩

theorem sort_insert_perm (strings : List (List Nat)) (x : node) :
    ∀ (l r : List node), sort_insert strings x l = Except.ok r → r.Perm (x :: l) := by
  intro l
  induction l with
  | nil =>
    intro r h
    simp only [sort_insert] at h
    cases h
    exact List.Perm.refl _
  | cons y ys ih =>
    intro r h
    rw [sort_insert] at h
    obtain ⟨b, _, h2⟩ := bind_eq_ok h
    split at h2
    · cases h2
      exact List.Perm.refl _
    · obtain ⟨r', h3, h4⟩ := bind_eq_ok h2
      cases h4
      exact (List.Perm.cons y (ih _ h3)).trans (List.Perm.swap x y ys)

theorem std_sort_perm (strings : List (List Nat)) :
    ∀ (l r : List node), std_sort strings l = Except.ok r → r.Perm l := by
  intro l
  induction l with
  | nil =>
    intro r h
    simp only [std_sort] at h
    cases h
    exact List.Perm.refl _
  | cons x xs ih =>
    intro r h
    rw [std_sort] at h
    obtain ⟨r', h1, h2⟩ := bind_eq_ok h
    exact (sort_insert_perm strings x _ _ h2).trans (List.Perm.cons x (ih _ h1))

theorem sort_nodes_perm {first count : Nat} {st st' : State}
    (h : sort_nodes first count st = Except.ok st') : st'.nodes.Perm st.nodes := by
  unfold sort_nodes at h
  split at h
  · obtain ⟨r, h1, h2⟩ := bind_eq_ok h
    cases h2
    have hp := std_sort_perm _ _ _ h1
    dsimp only
    have e : st.nodes = st.nodes.take first ++
        ((st.nodes.drop first).take count ++ st.nodes.drop (first + count)) := by
      rw [← List.drop_drop, List.take_append_drop, List.take_append_drop]
    conv => rhs; rw [e]
    rw [List.append_assoc]
    exact List.Perm.append_left _ (List.Perm.append_right _ hp)
  · cases h

theorem sort_nodes_in_table {first count : Nat} {st st' : State}
    (h : sort_nodes first count st = Except.ok st') (hp : ranges_in_table st.nodes) :
    ranges_in_table st'.nodes := by
  have hperm := sort_nodes_perm h
  intro n hn
  rw [hperm.length_eq]
  exact hp n (hperm.subset hn)

theorem reads_tables {st st' : State} (h : reads st st') :
    st'.nodes = st.nodes ∧ st'.strings = st.strings ∧ st'.string_map = st.string_map := by
  obtain ⟨o, rfl⟩ := h; exact ⟨rfl, rfl, rfl⟩

theorem wztonx_open_tables {env : Env} {inp : List Nat} {st : State}
    (h : wztonx_open env inp = Except.ok st) :
    st.nodes = [node.default] ∧ st.strings = [[]] ∧ st.string_map = [(fnv1a [], 0)] := by
  unfold wztonx_open at h
  obtain ⟨⟨magic, st1⟩, h1, h2⟩ := bind_eq_ok h
  obtain ⟨a1, b1, c1⟩ := reads_tables (in_read_reads h1)
  dsimp only at h2
  split at h2
  · cases h2
  · obtain ⟨⟨fs, st2⟩, h3, h4⟩ := bind_eq_ok h2
    obtain ⟨a2, b2, c2⟩ := reads_tables (in_read_reads h3)
    dsimp only at h4
    obtain ⟨⟨x, st4⟩, h5, h6⟩ := bind_eq_ok h4
    obtain ⟨a4, b4, c4⟩ := reads_tables (read_cint_reads h5)
    dsimp only at h6
    obtain ⟨st5, h7, h8⟩ := bind_eq_ok h6
    obtain ⟨a5, b5, c5⟩ := deduce_key_nodes h7
    cases h8
    have hn : st5.nodes = [node.default] := by
      rw [a5]; simp only [in_skip]; rw [a4]; simp only [in_seek]; rw [a2]
      simp only [in_skip]; rw [a1]; rfl
    have hs : st5.strings = [] := by
      rw [b5]; simp only [in_skip]; rw [b4]; simp only [in_seek]; rw [b2]
      simp only [in_skip]; rw [b1]; rfl
    have hm : st5.string_map = [] := by
      rw [c5]; simp only [in_skip]; rw [c4]; simp only [in_seek]; rw [c2]
      simp only [in_skip]; rw [c1]; rfl
    rw [add_string_eq]
    simp only [in_seek, hm, hs, hn, string_map_get, List.find?_nil, ne_eq, not_true_eq_false,
      if_false, List.length_nil, Nat.zero_mod, List.nil_append]
    exact ⟨trivial, trivial, trivial⟩

theorem img_shape {env : Env} {fuel img_node : Nat} {size : Int} {st st' : State}
    (h : img env fuel img_node size st = Except.ok st') :
    shape_grows (shape st.nodes) (shape st'.nodes) := by
  unfold img at h
  obtain ⟨st1, h1, h2⟩ := bind_eq_ok h
  obtain ⟨st2, h3, h4⟩ := bind_eq_ok h2
  cases h4
  have e1 := (deduce_key_nodes h1).1
  have := property_shape env _ _ _ _ h3
  simp only [in_skip, in_seek] at e1 this ⊢
  rw [e1] at this
  exact this

theorem directories_loop_shape (env : Env) :
    ∀ (fuel : Nat) (st st' : State), directories_loop env fuel st = Except.ok st' →
      shape_grows (shape st.nodes) (shape st'.nodes) := by
  intro fuel
  induction fuel with
  | zero => intro st st' h; simp [directories_loop] at h
  | succ fuel ih =>
    intro st st' h
    rw [directories_loop] at h
    split at h
    · cases h; exact shape_grows.refl _
    · obtain ⟨st1, h1, h2⟩ := bind_eq_ok h
      have g2 := ih _ _ h2
      exact shape_grows.trans (directory_shape h1) g2

theorem imgs_loop_shape (env : Env) :
    ∀ (fuel : Nat) (st st' : State), imgs_loop env fuel st = Except.ok st' →
      shape_grows (shape st.nodes) (shape st'.nodes) := by
  intro fuel
  induction fuel with
  | zero => intro st st' h; simp [imgs_loop] at h
  | succ fuel ih =>
    intro st st' h
    rw [imgs_loop] at h
    split at h
    · cases h; exact shape_grows.refl _
    · obtain ⟨st1, h1, h2⟩ := bind_eq_ok h
      have g2 := ih _ _ h2
      exact shape_grows.trans (img_shape h1) g2

theorem wztonx_parse_shape {env : Env} {fuel : Nat} {inp : List Nat} {st : State}
    (h : wztonx_parse env fuel inp = Except.ok st) :
    shape_grows (shape [node.default]) (shape st.nodes) := by
  unfold wztonx_parse at h
  obtain ⟨st1, h1, h2⟩ := bind_eq_ok h
  obtain ⟨st2, h3, h4⟩ := bind_eq_ok h2
  have e1 := (wztonx_open_tables h1).1
  have g1 := directories_loop_shape env _ _ _ h3
  have g2 := imgs_loop_shape env _ _ _ h4
  dsimp only at g1
  rw [e1] at g1
  exact shape_grows.trans g1 g2

/-- C8: the initial node table, which holds only the root, satisfies
`children + num ≤ |nodes|` for each of its nodes, and every successful call of
`directory`, `sub_property`, `extended_property`, `resolve_uols` and `sort_nodes` on a
table that satisfies it returns a table that satisfies it. -/
theorem ranges_in_table_preserved (env : Env) (fuel : Nat) (inp : List Nat) (st st' : State) :
    ranges_in_table (State.init inp).nodes ∧
    (ranges_in_table st.nodes →
      (∀ d, directory env d st = Except.ok st' → ranges_in_table st'.nodes) ∧
      (∀ p o, sub_property env fuel p o st = Except.ok st' → ranges_in_table st'.nodes) ∧
      (∀ p o, extended_property env fuel p o st = Except.ok st' →
        ranges_in_table st'.nodes) ∧
      (∀ u, resolve_uols fuel u st = Except.ok st' → ranges_in_table st'.nodes) ∧
      (∀ f c, sort_nodes f c st = Except.ok st' → ranges_in_table st'.nodes)) := by
  refine ⟨?_, fun hp => ⟨?_, ?_, ?_, ?_, ?_⟩⟩
  · intro n hn
    simp only [State.init, List.mem_singleton] at hn
    subst hn
    simp [State.init, node.default]
  · intro d h
    exact (shape_in_table_iff _).mp
      (shape_grows_in_table (directory_shape h) ((shape_in_table_iff _).mpr hp))
  · intro p o h
    exact (shape_in_table_iff _).mp
      (shape_grows_in_table (property_shape env _ _ _ _ h) ((shape_in_table_iff _).mpr hp))
  · intro p o h
    exact (shape_in_table_iff _).mp
      (shape_grows_in_table (property_shape env _ _ _ _ h) ((shape_in_table_iff _).mpr hp))
  · intro u h
    exact resolve_uols_in_table _ _ _ _ h hp
  · intro f c h
    exact sort_nodes_in_table h hp

theorem ranges_in_table_preserved_witness :
    (ranges_in_table st_open_share.nodes ∧
      directory env_zero 0 st_open_share = Except.ok st_dir_share ∧
      ranges_in_table st_dir_share.nodes) ∧
    (ranges_in_table (in_seek 33 st_dir_share).nodes ∧
      sub_property env_zero 20 1 28 (in_seek 33 st_dir_share) = Except.ok st_sub_share ∧
      ranges_in_table st_sub_share.nodes) ∧
    (ranges_in_table st_ext_share.nodes ∧
      extended_property env_zero 20 2 28 st_ext_share = Except.ok st_ext_done ∧
      ranges_in_table st_ext_done.nodes) ∧
    (ranges_in_table st_parsed_share.nodes ∧
      resolve_uols 20 0 st_parsed_share = Except.ok st_resolved_share ∧
      ranges_in_table st_resolved_share.nodes) ∧
    (ranges_in_table st_resolved_share.nodes ∧
      sort_nodes 2 2 st_resolved_share = Except.ok st_sorted_share ∧
      ranges_in_table st_sorted_share.nodes) :=
  ⟨⟨by decide, by decide,
      ((ranges_in_table_preserved env_zero 20 [] st_open_share st_dir_share).2
        (by decide)).1 0 (by decide)⟩,
    ⟨by decide, by decide,
      ((ranges_in_table_preserved env_zero 20 [] (in_seek 33 st_dir_share) st_sub_share).2
        (by decide)).2.1 1 28 (by decide)⟩,
    ⟨by decide, by decide,
      ((ranges_in_table_preserved env_zero 20 [] st_ext_share st_ext_done).2
        (by decide)).2.2.1 2 28 (by decide)⟩,
    ⟨by decide, by decide,
      ((ranges_in_table_preserved env_zero 20 [] st_parsed_share st_resolved_share).2
        (by decide)).2.2.2.1 0 (by decide)⟩,
    ⟨by decide, by decide,
      ((ranges_in_table_preserved env_zero 20 [] st_resolved_share st_sorted_share).2
        (by decide)).2.2.2.2 2 2 (by decide)⟩⟩

/-- C9 (amended): in the node table the parser builds, with fewer than `2^32` nodes, no
node index lies in the child range of two different nodes; and when `resolve_uols(0)`
returns, no node index lies in the child ranges of two different nodes that were not
UOL nodes before it. -/
theorem parsed_ranges_disjoint (env : Env) (fuel fuel' : Nat) (inp : List Nat) (st : State)
    (hparse : wztonx_parse env fuel inp = Except.ok st) (hsize : st.nodes.length < 2 ^ 32) :
    ranges_disjoint st.nodes ∧
    ∀ st', resolve_uols fuel' 0 st = Except.ok st' →
      ∀ (i j : Nat) (ni nj ni' nj' : node) (k : Nat), i ≠ j →
        st.nodes[i]? = some ni → st.nodes[j]? = some nj →
        ni.data_type ≠ node_type.uol → nj.data_type ≠ node_type.uol →
        st'.nodes[i]? = some ni' → st'.nodes[j]? = some nj' →
        ¬ (ni'.children ≤ k ∧ k < ni'.children + ni'.num ∧
           nj'.children ≤ k ∧ k < nj'.children + nj'.num) := by
  have hg := wztonx_parse_shape hparse
  have h0 : shape_in_table (shape [node.default]) := by
    intro r hr
    simp [shape, node.default] at hr
    subst hr
    simp [shape]
  have h1 : shape_disjoint (shape [node.default]) := by
    intro i j ri rj k hi hj hij
    have hi' : i < 1 := by
      have := (List.getElem?_eq_some_iff.mp hi).1
      simpa [shape] using this
    have hj' : j < 1 := by
      have := (List.getElem?_eq_some_iff.mp hj).1
      simpa [shape] using this
    omega
  have hd : ranges_disjoint st.nodes :=
    (shape_disjoint_iff _).mp
      (shape_grows_disjoint hg (by rw [shape_length]; exact hsize) h0 h1)
  refine ⟨hd, ?_⟩
  intro st' hres i j ni nj ni' nj' k hij hi hj hni hnj hi' hj' hk
  obtain ⟨_, hframe⟩ := resolve_uols_frame _ _ _ _ hres
  obtain ⟨mi, e1, _, c1, n1, _, _⟩ := hframe i ni hi hni
  obtain ⟨mj, e2, _, c2, n2, _, _⟩ := hframe j nj hj hnj
  rw [hi'] at e1
  rw [hj'] at e2
  cases e1
  cases e2
  rw [c1, n1, c2, n2] at hk
  exact hd i j ni nj k hi hj hij hk.1 hk.2.1 hk.2.2.1 hk.2.2.2

theorem parsed_ranges_disjoint_witness :
    wztonx_parse env_zero 20 wz_share = Except.ok st_parsed_share ∧
    st_parsed_share.nodes.length < 2 ^ 32 ∧
    ranges_disjoint st_parsed_share.nodes ∧
    resolve_uols 20 0 st_parsed_share = Except.ok st_resolved_share ∧
    st_parsed_share.nodes[1]? = some ⟨1, 2, 2, node_type.none, 0⟩ ∧
    st_parsed_share.nodes[2]? = some ⟨2, 4, 1, node_type.none, 0⟩ ∧
    st_resolved_share.nodes[1]? = some ⟨1, 2, 2, node_type.none, 0⟩ ∧
    st_resolved_share.nodes[2]? = some ⟨2, 4, 1, node_type.none, 0⟩ ∧
    ¬ (2 ≤ 4 ∧ 4 < 2 + 2 ∧ 4 ≤ 4 ∧ 4 < 4 + 1) :=
  ⟨by decide, by decide,
    (parsed_ranges_disjoint env_zero 20 20 wz_share st_parsed_share (by decide)
      (by decide)).1,
    by decide, by decide, by decide, by decide, by decide,
    (parsed_ranges_disjoint env_zero 20 20 wz_share st_parsed_share (by decide)
      (by decide)).2 st_resolved_share (by decide) 1 2 ⟨1, 2, 2, node_type.none, 0⟩
      ⟨2, 4, 1, node_type.none, 0⟩ ⟨1, 2, 2, node_type.none, 0⟩ ⟨2, 4, 1, node_type.none, 0⟩ 4
      (by decide) (by decide) (by decide) (by decide) (by decide) (by decide) (by decide)⟩

/-- C9 (counterexample): for `wz_share` the node table after parsing and
`resolve_uols(0)` is `share_resolved`, in which index 4 lies in the child range of
node 2 and in the child range of node 3. -/
theorem resolved_link_shares_range :
    (wztonx_parse env_zero 20 wz_share >>= resolve_uols 20 0).map (fun st => st.nodes) =
      Except.ok share_resolved ∧
    ¬ ranges_disjoint share_resolved := by
  refine ⟨by decide, fun h => ?_⟩
  exact h 2 3 ⟨2, 4, 1, node_type.none, 0⟩ ⟨5, 4, 1, node_type.none, 0⟩ 4 (by decide)
    (by decide) (by decide) (by decide) (by decide) (by decide) (by decide)

/-! ### String IDs -/

theorem string_map_get_mem (m : List (Nat × Nat)) (hash : Nat)
    (h : string_map_get m hash ≠ 0) : ∃ p ∈ m, p.2 = string_map_get m hash := by
  unfold string_map_get at h ⊢
  cases hf : m.find? (fun p => p.1 == hash) with
  | none => simp [hf] at h
  | some p => exact ⟨p, List.mem_of_find?_eq_some hf, rfl⟩

theorem tables_ok_pos {st : State} (h : tables_ok st) : 0 < st.strings.length :=
  (List.getElem?_eq_some_iff.mp h.1).1

theorem add_string_ok {data : List Nat} {st st' : State} {id : Nat}
    (h : add_string data st = (id, st')) (hok : tables_ok st) :
    tables_ok st' ∧ id < st'.strings.length ∧ st.strings.length ≤ st'.strings.length ∧
      st'.nodes = st.nodes := by
  rw [add_string_eq] at h
  split at h
  · rename_i hne
    obtain ⟨rfl, rfl⟩ := Prod.mk.inj h
    obtain ⟨p, hp, he⟩ := string_map_get_mem _ _ hne
    exact ⟨hok, he ▸ hok.2 p hp, Nat.le_refl _, rfl⟩
  · obtain ⟨rfl, rfl⟩ := Prod.mk.inj h
    have hpos := tables_ok_pos hok
    have hmod : st.strings.length % 2 ^ 32 ≤ st.strings.length := Nat.mod_le _ _
    refine ⟨⟨?_, ?_⟩, ?_, ?_, rfl⟩
    · dsimp only
      rw [List.getElem?_append_left hpos]
      exact hok.1
    · intro p hp
      dsimp only at hp ⊢
      rw [List.length_append, List.length_singleton]
      rcases List.mem_cons.mp hp with hp | hp
      · subst hp; dsimp only; omega
      · have := hok.2 p hp; omega
    · dsimp only
      rw [List.length_append, List.length_singleton]; omega
    · dsimp only
      rw [List.length_append, List.length_singleton]; omega

theorem interns_ok {st st' : State} {id : Nat} (h : interns st id st') (hok : tables_ok st) :
    tables_ok st' ∧ id < st'.strings.length ∧ st.strings.length ≤ st'.strings.length ∧
      st'.nodes = st.nodes := by
  obtain ⟨o, h⟩ := h
  rcases h with ⟨rfl, rfl⟩ | ⟨data, h⟩
  · exact ⟨hok, tables_ok_pos hok, Nat.le_refl _, rfl⟩
  · exact @add_string_ok data { st with in_offset := o } st' id h.symm hok

theorem reads_ok {st st' : State} (h : reads st st') (hok : tables_ok st) :
    tables_ok st' := by
  obtain ⟨o, rfl⟩ := h; exact hok

theorem reads_strings_length {st st' : State} (h : reads st st') :
    st'.strings.length = st.strings.length := by
  obtain ⟨o, rfl⟩ := h; rfl

theorem ids_ok_mono {L L' : Nat} {nodes : List node} (hL : L ≤ L') (h : ids_ok L nodes) :
    ids_ok L' nodes := by
  intro n hn
  obtain ⟨h1, h2⟩ := h n hn
  exact ⟨by omega, fun ht => by have := h2 ht; omega⟩

theorem ids_typed_mono {c : Nat} {t : node_type} {L L' : Nat} {nodes : List node}
    (hL : L ≤ L') (h : ids_typed c t L nodes) : ids_typed c t L' nodes := by
  intro i n hn
  obtain ⟨h1, h2, h3⟩ := h i n hn
  exact ⟨by omega, h2, fun hi ht => by have := h3 hi ht; omega⟩

theorem getElem?_modify_some {f : node → node} {c i : Nat} {nodes : List node} {n : node}
    (h : (nodes.modify f c)[i]? = some n) :
    ∃ m, nodes[i]? = some m ∧ n = if c = i then f m else m := by
  rw [List.getElem?_modify] at h
  cases hm : nodes[i]? with
  | none => simp [hm] at h
  | some m =>
    rw [hm] at h
    simp only [Option.map_eq_map, Option.map_some', Option.some.injEq] at h
    exact ⟨m, rfl, h.symm⟩

theorem mem_modify {f : node → node} {i : Nat} {nodes : List node} {n : node}
    (h : n ∈ nodes.modify f i) : n ∈ nodes ∨ ∃ m ∈ nodes, n = f m := by
  obtain ⟨k, hk⟩ := List.mem_iff_getElem?.mp h
  obtain ⟨m, hm, rfl⟩ := getElem?_modify_some hk
  by_cases hik : i = k
  · simp only [hik, if_true]
    exact Or.inr ⟨m, List.getElem?_mem hm, rfl⟩
  · simp only [hik, if_false]
    exact Or.inl (List.getElem?_mem hm)

theorem ids_ok_set_name {L c v : Nat} {st : State} (h : ids_ok L st.nodes) (hv : v < L) :
    ids_ok L (set_name c v st).nodes := by
  intro n hn
  rcases mem_modify hn with hn | ⟨m, hm, rfl⟩
  · exact h n hn
  · exact ⟨hv, (h m hm).2⟩

theorem ids_ok_set_range {L c a b : Nat} {st : State} (h : ids_ok L st.nodes) :
    ids_ok L (set_range c a b st).nodes := by
  intro n hn
  rcases mem_modify hn with hn | ⟨m, hm, rfl⟩
  · exact h n hn
  · exact h m hm

theorem ids_ok_append {L k : Nat} {nodes : List node} (hL : 0 < L) (h : ids_ok L nodes) :
    ids_ok L (nodes ++ List.replicate k node.default) := by
  intro n hn
  rcases List.mem_append.mp hn with hn | hn
  · exact h n hn
  · rw [List.eq_of_mem_replicate hn]
    exact ⟨hL, fun ht => by simp [node.default] at ht⟩

theorem ids_typed_set_data_type {L c : Nat} {t : node_type} {st : State}
    (h : ids_ok L st.nodes) : ids_typed c t L (set_data_type c t st).nodes := by
  intro i n hn
  obtain ⟨m, hm, rfl⟩ := getElem?_modify_some hn
  have hm' := h m (List.getElem?_mem hm)
  by_cases hci : c = i
  · rw [if_pos hci]
    exact ⟨hm'.1, fun _ => rfl, fun hne => absurd hci.symm hne⟩
  · rw [if_neg hci]
    exact ⟨hm'.1, fun hic => absurd hic.symm hci, fun _ => hm'.2⟩

theorem ids_typed_set_data {L c : Nat} {t : node_type} {f : Nat → Nat} {st : State}
    (h : ids_typed c t L st.nodes) : ids_typed c t L (set_data c f st).nodes := by
  intro i n hn
  obtain ⟨m, hm, rfl⟩ := getElem?_modify_some hn
  obtain ⟨h1, h2, h3⟩ := h i m hm
  by_cases hci : c = i
  · rw [if_pos hci]
    exact ⟨h1, fun hic => h2 hic, fun hne => absurd hci.symm hne⟩
  · rw [if_neg hci]
    exact ⟨h1, h2, h3⟩

theorem ids_ok_of_typed {L c : Nat} {t : node_type} {nodes : List node}
    (h : ids_typed c t L nodes) (h1 : t ≠ node_type.string) (h2 : t ≠ node_type.uol) :
    ids_ok L nodes := by
  intro n hn
  obtain ⟨i, hi⟩ := List.mem_iff_getElem?.mp hn
  obtain ⟨g1, g2, g3⟩ := h i n hi
  refine ⟨g1, fun ht => ?_⟩
  by_cases hic : i = c
  · rw [g2 hic] at ht
    rcases ht with ht | ht
    · exact absurd ht h1
    · exact absurd ht h2
  · exact g3 hic ht

theorem ids_ok_of_typed_set {L c v : Nat} {t : node_type} {st : State}
    (h : ids_typed c t L st.nodes) (hv : v < L) :
    ids_ok L (set_data c (fun d => set_low32 d v) st).nodes := by
  intro n hn
  obtain ⟨i, hi⟩ := List.mem_iff_getElem?.mp hn
  obtain ⟨m, hm, rfl⟩ := getElem?_modify_some hi
  obtain ⟨g1, g2, g3⟩ := h i m hm
  by_cases hci : c = i
  · rw [if_pos hci]
    refine ⟨g1, fun _ => ?_⟩
    dsimp only [set_low32]
    have : (m.data / 2 ^ 32 * 2 ^ 32 + v % 2 ^ 32) % 2 ^ 32 = v % 2 ^ 32 := by
      rw [Nat.add_comm, Nat.add_mul_mod_self_right, Nat.mod_mod]
    rw [this]
    exact Nat.lt_of_le_of_lt (Nat.mod_le _ _) hv
  · rw [if_neg hci]
    exact ⟨g1, g3 (fun hic => hci hic.symm)⟩

theorem reads_strings_ok {st st' : State} (h : reads st st') (hok : strings_ok st) :
    strings_ok st' := by
  obtain ⟨o, rfl⟩ := h; exact hok

theorem reads_typed_ok {c : Nat} {t : node_type} {st st' : State} (h : reads st st')
    (hok : typed_ok c t st) : typed_ok c t st' := by
  obtain ⟨o, rfl⟩ := h; exact hok

theorem interns_strings_ok {st st' : State} {id : Nat} (h : interns st id st')
    (hok : strings_ok st) : strings_ok st' ∧ id < st'.strings.length := by
  obtain ⟨h1, h2, h3, h4⟩ := interns_ok h hok.1
  exact ⟨⟨h1, by rw [h4]; exact ids_ok_mono h3 hok.2⟩, h2⟩

theorem interns_typed_ok {c : Nat} {t : node_type} {st st' : State} {id : Nat}
    (h : interns st id st') (hok : typed_ok c t st) :
    typed_ok c t st' ∧ id < st'.strings.length := by
  obtain ⟨h1, h2, h3, h4⟩ := interns_ok h hok.1
  exact ⟨⟨h1, by rw [h4]; exact ids_typed_mono h3 hok.2⟩, h2⟩

theorem strings_ok_seek (n : Nat) (st : State) (hok : strings_ok st) :
    strings_ok (in_seek n st) := hok

theorem strings_ok_skip (n : Nat) (st : State) (hok : strings_ok st) :
    strings_ok (in_skip n st) := hok

theorem set_name_ok {c v : Nat} {st : State} (hok : strings_ok st)
    (hv : v < st.strings.length) : strings_ok (set_name c v st) :=
  ⟨hok.1, ids_ok_set_name hok.2 hv⟩

theorem set_data_type_typed {c : Nat} {t : node_type} {st : State} (hok : strings_ok st) :
    typed_ok c t (set_data_type c t st) :=
  ⟨hok.1, ids_typed_set_data_type hok.2⟩

theorem set_data_typed {c : Nat} {t : node_type} {f : Nat → Nat} {st : State}
    (hok : typed_ok c t st) : typed_ok c t (set_data c f st) :=
  ⟨hok.1, ids_typed_set_data hok.2⟩

theorem strings_ok_of_typed {c : Nat} {t : node_type} {st : State} (hok : typed_ok c t st)
    (h1 : t ≠ node_type.string) (h2 : t ≠ node_type.uol) : strings_ok st :=
  ⟨hok.1, ids_ok_of_typed hok.2 h1 h2⟩

theorem set_low32_ok {c v : Nat} {t : node_type} {st : State} (hok : typed_ok c t st)
    (hv : v < st.strings.length) : strings_ok (set_data c (fun d => set_low32 d v) st) :=
  ⟨hok.1, ids_ok_of_typed_set hok.2 hv⟩

theorem append_default_ok {k : Nat} {st : State} (hok : strings_ok st) :
    strings_ok { st with nodes := st.nodes ++ List.replicate k node.default } :=
  ⟨hok.1, ids_ok_append (tables_ok_pos hok.1) hok.2⟩

theorem set_range_ok {c a b : Nat} {st : State} (hok : strings_ok st) :
    strings_ok (set_range c a b st) :=
  ⟨hok.1, ids_ok_set_range hok.2⟩

theorem directory_switch_ok {env : Env} {back ty ty2 : Nat} {st st' : State}
    (h : directory_switch env back ty st = Except.ok (ty2, st')) (hok : strings_ok st) :
    strings_ok st' := by
  unfold directory_switch at h
  split at h
  · cases h
  · split at h
    · obtain ⟨⟨s, a1⟩, g1, g2⟩ := bind_eq_ok h
      dsimp only at g2
      obtain ⟨⟨t2, a3⟩, g3, g4⟩ := bind_eq_ok g2
      dsimp only at g4
      obtain ⟨⟨name, a4⟩, g5, g6⟩ := bind_eq_ok g4
      cases g6
      have k1 := reads_strings_ok (in_read_reads g1) hok
      have k3 := reads_strings_ok (in_read_reads g3) (strings_ok_seek _ _ k1)
      obtain ⟨k4, hv⟩ := interns_strings_ok (read_enc_string_interns g5) k3
      exact strings_ok_seek _ _ (set_name_ok k4 hv)
    · split at h
      · obtain ⟨⟨name, a1⟩, g1, g2⟩ := bind_eq_ok h
        cases g2
        obtain ⟨k4, hv⟩ := interns_strings_ok (read_enc_string_interns g1) hok
        exact set_name_ok k4 hv
      · cases h

theorem directory_enqueue_ok {ty c : Nat} {size : Int} {st st' : State}
    (h : directory_enqueue ty c size st = Except.ok st') (hok : strings_ok st) :
    strings_ok st' := by
  unfold directory_enqueue at h
  split at h
  · cases h; exact hok
  · split at h
    · cases h; exact hok
    · cases h

theorem directory_loop_ok (env : Env) (ni : Nat) :
    ∀ (k i : Nat) (st st' : State), directory_loop env ni k i st = Except.ok st' →
      strings_ok st → strings_ok st' := by
  intro k
  induction k with
  | zero =>
    intro i st st' h hok
    simp only [directory_loop] at h
    cases h
    exact hok
  | succ k ih =>
    intro i st st' h hok
    rw [directory_loop] at h
    obtain ⟨⟨ty, st1⟩, h1, h2⟩ := bind_eq_ok h
    have k0 : strings_ok { st with nodes := st.nodes ++ [node.default] } :=
      @append_default_ok 1 st hok
    have k1 := reads_strings_ok (in_read_reads h1) k0
    dsimp only at h2
    obtain ⟨⟨ty2, st2⟩, h3, h4⟩ := bind_eq_ok h2
    have k2 := directory_switch_ok h3 k1
    dsimp only at h4
    obtain ⟨⟨size, st3⟩, h5, h6⟩ := bind_eq_ok h4
    have k3 := reads_strings_ok (read_cint_reads h5) k2
    dsimp only at h6
    split at h6
    · cases h6
    · obtain ⟨⟨x, st4⟩, h7, h8⟩ := bind_eq_ok h6
      have k4 := reads_strings_ok (read_cint_reads h7) k3
      dsimp only at h8
      obtain ⟨st5, h9, h10⟩ := bind_eq_ok h8
      have k5 := directory_enqueue_ok h9 (strings_ok_skip _ _ k4)
      exact ih _ _ _ h10 k5

theorem directory_ok {env : Env} {dir_node : Nat} {st st' : State}
    (h : directory env dir_node st = Except.ok st') (hok : strings_ok st) :
    strings_ok st' := by
  unfold directory at h
  split at h
  · obtain ⟨⟨c, st1⟩, h1, h2⟩ := bind_eq_ok h
    have k1 := reads_strings_ok (read_cint_reads h1) hok
    dsimp only at h2
    obtain ⟨st3, h3, h4⟩ := bind_eq_ok h2
    cases h4
    have := directory_loop_ok _ _ _ _ _ _ h3 (set_range_ok k1)
    exact this
  · cases h

theorem convex_loop_ok (call : State → Except Err State) (ni : Nat)
    (hcall : ∀ s s', call s = Except.ok s' → strings_ok s → strings_ok s') :
    ∀ (k i : Nat) (st st' : State), convex_loop call ni k i st = Except.ok st' →
      strings_ok st → strings_ok st' := by
  intro k
  induction k with
  | zero =>
    intro i st st' h hok
    simp only [convex_loop] at h
    cases h
    exact hok
  | succ k ih =>
    intro i st st' h hok
    rw [convex_loop] at h
    split at h
    · obtain ⟨st3, h1, h2⟩ := bind_eq_ok h
      obtain ⟨k1, hv⟩ := interns_strings_ok
        (@interns_add_string (to_string i) st _ _ rfl) hok
      exact ih _ _ _ h2 (hcall _ _ h1 (set_name_ok k1 hv))
    · cases h

theorem sub_property_child_ok (env : Env) (ext : State → Except Err State)
    (hext : ∀ s s', ext s = Except.ok s' → strings_ok s → strings_ok s')
    (offset c i : Nat) (st st' : State)
    (h : sub_property_child env ext offset c i st = Except.ok st') (hok : strings_ok st) :
    strings_ok st' := by
  unfold sub_property_child at h
  split at h
  · obtain ⟨⟨name, st1⟩, h1, h2⟩ := bind_eq_ok h
    obtain ⟨k1, hv⟩ := interns_strings_ok (read_prop_string_interns h1) hok
    dsimp only at h2
    obtain ⟨⟨ty, st3⟩, h3, h4⟩ := bind_eq_ok h2
    have k3 := reads_strings_ok (in_read_reads h3) (set_name_ok k1 hv)
    dsimp only at h4
    split at h4
    · cases h4
      exact strings_ok_of_typed (set_data_typed (set_data_type_typed k3))
        (by decide) (by decide)
    · split at h4
      · obtain ⟨⟨v, st4⟩, g1, g2⟩ := bind_eq_ok h4
        cases g2
        exact strings_ok_of_typed
          (set_data_typed (reads_typed_ok (in_read_reads g1) (set_data_type_typed k3)))
          (by decide) (by decide)
      · split at h4
        · obtain ⟨⟨v, st4⟩, g1, g2⟩ := bind_eq_ok h4
          cases g2
          exact strings_ok_of_typed
            (set_data_typed (reads_typed_ok (read_cint_reads g1) (set_data_type_typed k3)))
            (by decide) (by decide)
        · split at h4
          · obtain ⟨⟨b, st4⟩, g1, g2⟩ := bind_eq_ok h4
            have t4 := reads_typed_ok (in_read_reads g1)
              (@set_data_type_typed c node_type.real st3 k3)
            dsimp only at g2
            split at g2
            · obtain ⟨⟨v, st5⟩, g3, g4⟩ := bind_eq_ok g2
              cases g4
              exact strings_ok_of_typed
                (set_data_typed (reads_typed_ok (in_read_reads g3) t4))
                (by decide) (by decide)
            · cases g2
              exact strings_ok_of_typed (set_data_typed t4) (by decide) (by decide)
          · split at h4
            · obtain ⟨⟨v, st4⟩, g1, g2⟩ := bind_eq_ok h4
              cases g2
              exact strings_ok_of_typed
                (set_data_typed (reads_typed_ok (in_read_reads g1) (set_data_type_typed k3)))
                (by decide) (by decide)
            · split at h4
              · obtain ⟨⟨v, st4⟩, g1, g2⟩ := bind_eq_ok h4
                cases g2
                obtain ⟨t4, hv4⟩ := interns_typed_ok (read_prop_string_interns g1)
                  (@set_data_type_typed c node_type.string st3 k3)
                exact set_low32_ok t4 hv4
              · split at h4
                · obtain ⟨⟨v, st4⟩, g1, g2⟩ := bind_eq_ok h4
                  dsimp only at g2
                  obtain ⟨st5, g3, g4⟩ := bind_eq_ok g2
                  cases g4
                  exact strings_ok_seek _ _
                    (hext _ _ g3 (reads_strings_ok (in_read_reads g1) k3))
                · cases h4
  · cases h

theorem sub_property_loop_ok (env : Env) (ext : Nat → State → Except Err State)
    (hext : ∀ c s s', ext c s = Except.ok s' → strings_ok s → strings_ok s')
    (offset ni : Nat) :
    ∀ (k i : Nat) (st st' : State),
      sub_property_loop env ext offset ni k i st = Except.ok st' →
      strings_ok st → strings_ok st' := by
  intro k
  induction k with
  | zero =>
    intro i st st' h hok
    simp only [sub_property_loop] at h
    cases h
    exact hok
  | succ k ih =>
    intro i st st' h hok
    rw [sub_property_loop] at h
    obtain ⟨st1, h1, h2⟩ := bind_eq_ok h
    exact ih _ _ _ h2 (sub_property_child_ok env _ (hext _) _ _ _ _ _ h1 hok)

theorem property_ok (env : Env) :
    ∀ (fuel : Nat) (c : prop_call) (st st' : State),
      property env fuel c st = Except.ok st' → strings_ok st → strings_ok st' := by
  intro fuel
  induction fuel with
  | zero =>
    intro c st st' h
    simp [property] at h
  | succ fuel ih =>
    intro c st st' h hok
    cases c with
    | extended_property prop_node offset =>
      rw [property] at h
      split at h
      · obtain ⟨⟨s, st1⟩, h1, h2⟩ := bind_eq_ok h
        obtain ⟨k1, _⟩ := interns_strings_ok (read_prop_string_interns h1) hok
        dsimp only at h2
        split at h2
        · cases h2
        · split at h2
          · exact ih _ _ _ h2 (strings_ok_skip _ _ k1)
          · split at h2
            · obtain ⟨⟨b, st2⟩, g1, g2⟩ := bind_eq_ok h2
              have k2 := reads_strings_ok (in_read_reads g1) (strings_ok_skip _ _ k1)
              dsimp only at g2
              split at g2
              · exact ih _ _ _ g2 (strings_ok_skip _ _ k2)
              · cases g2
                exact k2
            · split at h2
              · obtain ⟨⟨x, st3⟩, g1, g2⟩ := bind_eq_ok h2
                have t3 := reads_typed_ok (read_cint_reads g1)
                  (@set_data_type_typed prop_node node_type.vector st1 k1)
                dsimp only at g2
                obtain ⟨⟨y, st5⟩, g3, g4⟩ := bind_eq_ok g2
                cases g4
                exact strings_ok_of_typed
                  (set_data_typed (reads_typed_ok (read_cint_reads g3) (set_data_typed t3)))
                  (by decide) (by decide)
              · split at h2
                · obtain ⟨⟨c, st2⟩, g1, g2⟩ := bind_eq_ok h2
                  have k2 := reads_strings_ok (read_cint_reads g1) k1
                  dsimp only at g2
                  obtain ⟨st4, g3, g4⟩ := bind_eq_ok g2
                  cases g4
                  have := convex_loop_ok _ _ (fun s s' hs => ih _ s s' hs) _ _ _ _ g3
                    (append_default_ok k2)
                  exact this
                · split at h2
                  · cases h2
                    exact k1
                  · split at h2
                    · obtain ⟨⟨v, st4⟩, g1, g2⟩ := bind_eq_ok h2
                      cases g2
                      obtain ⟨t4, hv4⟩ := interns_typed_ok (read_prop_string_interns g1)
                        (@set_data_type_typed prop_node node_type.uol _
                          (strings_ok_skip 1 st1 k1))
                      exact set_low32_ok t4 hv4
                    · cases h2
      · cases h
    | sub_property prop_node offset =>
      rw [property] at h
      obtain ⟨⟨c, st1⟩, h1, h2⟩ := bind_eq_ok h
      have k1 := reads_strings_ok (read_cint_reads h1) hok
      dsimp only at h2
      split at h2
      · obtain ⟨st4, g3, g4⟩ := bind_eq_ok h2
        cases g4
        have := sub_property_loop_ok env _ (fun c s s' hs => ih _ s s' hs) _ _ _ _ _ _ g3
          (append_default_ok (set_range_ok k1))
        exact this
      · cases h2

/-- C10: the state in which `wztonx` has interned the empty string satisfies
`strings_ok`: string 0 is the empty string and every string ID in `string_map` and in
the nodes is smaller than the number of interned strings. From a state that satisfies
it, `add_string`, `read_enc_string` and `read_prop_string` return an ID smaller than the
number of interned strings, and they and every successful call of `directory`,
`sub_property` and `extended_property` end in a state that satisfies it. -/
theorem string_ids_valid (env : Env) (fuel : Nat) (inp : List Nat) (st st' : State) :
    (∀ st0, wztonx_open env inp = Except.ok st0 → strings_ok st0) ∧
    (strings_ok st →
      (∀ data id, add_string data st = (id, st') →
        id < st'.strings.length ∧ strings_ok st') ∧
      (∀ id, read_enc_string env st = Except.ok (id, st') →
        id < st'.strings.length ∧ strings_ok st') ∧
      (∀ o id, read_prop_string env o st = Except.ok (id, st') →
        id < st'.strings.length ∧ strings_ok st') ∧
      (∀ d, directory env d st = Except.ok st' → strings_ok st') ∧
      (∀ p o, sub_property env fuel p o st = Except.ok st' → strings_ok st') ∧
      (∀ p o, extended_property env fuel p o st = Except.ok st' → strings_ok st')) := by
  refine ⟨?_, fun hok => ⟨?_, ?_, ?_, ?_, ?_, ?_⟩⟩
  · intro st0 h
    obtain ⟨h1, h2, h3⟩ := wztonx_open_tables h
    refine ⟨⟨?_, ?_⟩, ?_⟩
    · rw [h2]; rfl
    · intro p hp
      rw [h3] at hp
      rw [h2]
      simp only [List.mem_singleton] at hp
      subst hp
      simp
    · intro n hn
      rw [h1] at hn
      rw [h2]
      simp only [List.mem_singleton] at hn
      subst hn
      simp [node.default]
  · intro data id h
    obtain ⟨k, hv⟩ := interns_strings_ok (interns_add_string h) hok
    exact ⟨hv, k⟩
  · intro id h
    obtain ⟨k, hv⟩ := interns_strings_ok (read_enc_string_interns h) hok
    exact ⟨hv, k⟩
  · intro o id h
    obtain ⟨k, hv⟩ := interns_strings_ok (read_prop_string_interns h) hok
    exact ⟨hv, k⟩
  · intro d h
    exact directory_ok h hok
  · intro p o h
    exact property_ok env _ _ _ _ h hok
  · intro p o h
    exact property_ok env _ _ _ _ h hok

theorem string_ids_valid_witness :
    (wztonx_open env_zero wz_share = Except.ok st_open_share ∧ strings_ok st_open_share) ∧
    (strings_ok st_dir_share ∧
      (add_string [120] st_dir_share).1 < (add_string [120] st_dir_share).2.strings.length ∧
      strings_ok (add_string [120] st_dir_share).2) ∧
    (strings_ok (in_seek 35 st_dir_share) ∧
      read_enc_string env_zero (in_seek 35 st_dir_share) = Except.ok enc_share ∧
      enc_share.1 < enc_share.2.strings.length ∧ strings_ok enc_share.2) ∧
    (strings_ok (in_seek 34 st_dir_share) ∧
      read_prop_string env_zero 28 (in_seek 34 st_dir_share) = Except.ok prop_share ∧
      prop_share.1 < prop_share.2.strings.length ∧ strings_ok prop_share.2) ∧
    (strings_ok st_open_share ∧
      directory env_zero 0 st_open_share = Except.ok st_dir_share ∧
      strings_ok st_dir_share) ∧
    (strings_ok (in_seek 33 st_dir_share) ∧
      sub_property env_zero 20 1 28 (in_seek 33 st_dir_share) = Except.ok st_sub_share ∧
      strings_ok st_sub_share) ∧
    (strings_ok st_ext_share ∧
      extended_property env_zero 20 2 28 st_ext_share = Except.ok st_ext_done ∧
      strings_ok st_ext_done) :=
  ⟨⟨by decide,
      (string_ids_valid env_zero 20 wz_share st_open_share st_open_share).1 st_open_share
        (by decide)⟩,
    ⟨by decide,
      ((string_ids_valid env_zero 20 [] st_dir_share (add_string [120] st_dir_share).2).2
        (by decide)).1 [120] (add_string [120] st_dir_share).1 rfl⟩,
    ⟨by decide, by decide,
      ((string_ids_valid env_zero 20 [] (in_seek 35 st_dir_share) enc_share.2).2
        (by decide)).2.1 enc_share.1 (by decide)⟩,
    ⟨by decide, by decide,
      ((string_ids_valid env_zero 20 [] (in_seek 34 st_dir_share) prop_share.2).2
        (by decide)).2.2.1 28 prop_share.1 (by decide)⟩,
    ⟨by decide, by decide,
      ((string_ids_valid env_zero 20 [] st_open_share st_dir_share).2
        (by decide)).2.2.2.1 0 (by decide)⟩,
    ⟨by decide, by decide,
      ((string_ids_valid env_zero 20 [] (in_seek 33 st_dir_share) st_sub_share).2
        (by decide)).2.2.2.2.1 1 28 (by decide)⟩,
    ⟨by decide, by decide,
      ((string_ids_valid env_zero 20 [] st_ext_share st_ext_done).2
        (by decide)).2.2.2.2.2 2 28 (by decide)⟩⟩

/-! ### Interning a string again -/

theorem string_map_get_cons (m : List (Nat × Nat)) (h h' id : Nat) :
    string_map_get ((h', id) :: m) h = if h' = h then id else string_map_get m h := by
  unfold string_map_get
  by_cases e : h' = h
  · simp [List.find?, e]
  · have hb : (h' == h) = false := by simpa using e
    simp [List.find?, e, hb]

/-- A string ID that `string_map` holds and that is not 0 is returned by every later
call of `add_string` with bytes of the same hash. -/
theorem add_string_keeps (data' : List Nat) (st : State) (hash id : Nat)
    (hid : id ≠ 0) (h : string_map_get st.string_map hash = id) :
    string_map_get (add_string data' st).2.string_map hash = id := by
  rw [add_string_eq]
  split
  · exact h
  · rename_i hz
    dsimp only
    rw [string_map_get_cons]
    split
    · rename_i e
      rw [e, h] at hz
      exact absurd hid hz
    · exact h

theorem add_strings_keep (others : List (List Nat)) :
    ∀ (st : State) (hash id : Nat), id ≠ 0 → string_map_get st.string_map hash = id →
      string_map_get (others.foldl (fun s d => (add_string d s).2) st).string_map hash = id := by
  induction others with
  | nil => intro st hash id _ h; exact h
  | cons d ds ih =>
    intro st hash id hid h
    exact ih _ hash id hid (add_string_keeps d st hash id hid h)

/-- Once the table holds a string, and while it holds fewer than `2^32`, `add_string`
returns a non-zero ID, and interning the same bytes again, after any other calls of
`add_string`, returns the same ID. -/
theorem add_string_again (data : List Nat) (others : List (List Nat)) (st : State)
    (h0 : 0 < st.strings.length) (hsize : st.strings.length < 2 ^ 32) :
    (add_string data st).1 ≠ 0 ∧
    (add_string data
      (others.foldl (fun s d => (add_string d s).2) (add_string data st).2)).1 =
      (add_string data st).1 := by
  have hne : (add_string data st).1 ≠ 0 := by
    rw [add_string_eq]
    split
    · rename_i h; exact h
    · dsimp only
      rw [Nat.mod_eq_of_lt hsize]
      omega
  have hget : string_map_get (add_string data st).2.string_map (fnv1a data) =
      (add_string data st).1 := by
    rw [add_string_eq]
    split
    · rfl
    · dsimp only
      rw [string_map_get_cons]
      simp
  have hkeep := add_strings_keep others _ (fnv1a data) _ hne hget
  refine ⟨hne, ?_⟩
  rw [add_string_eq
    data (others.foldl (fun s d => (add_string d s).2) (add_string data st).2)]
  rw [hkeep]
  simp [hne]

/-! ### The writer -/

theorem le_bytes_length (k v : Nat) : (le_bytes k v).length = k := by
  induction k generalizing v with
  | zero => rfl
  | succ k ih => simp [le_bytes, ih]

theorem nodes_bytes_length (ns : List node) : (nodes_bytes ns).length = ns.length * 20 := by
  induction ns with
  | nil => rfl
  | cons n rest ih =>
    simp only [nodes_bytes, node_bytes, List.length_append, le_bytes_length, ih,
      List.length_cons]
    omega

theorem table_bytes_length (ss : List (List Nat)) (pos : Nat) :
    (table_bytes ss pos).length = ss.length * 8 := by
  induction ss generalizing pos with
  | nil => rfl
  | cons s rest ih =>
    simp only [table_bytes, List.length_append, le_bytes_length, ih, List.length_cons]
    omega

theorem blob_bytes_length (ss : List (List Nat)) : (blob_bytes ss).length = blob_size ss := by
  induction ss with
  | nil => rfl
  | cons s rest ih =>
    simp only [blob_bytes, blob_size, List.length_append, le_bytes_length, List.map_cons,
      List.sum_cons] at ih ⊢
    omega

theorem blob_size_append (xs ys : List (List Nat)) :
    blob_size (xs ++ ys) = blob_size xs + blob_size ys := by
  simp [blob_size]

theorem foldl_size (ss : List (List Nat)) (init : Nat) :
    ss.foldl (fun acc s => acc + s.length) init + ss.length * 2 = init + blob_size ss := by
  induction ss generalizing init with
  | nil => simp [blob_size]
  | cons s rest ih =>
    have := ih (init + s.length)
    simp only [List.foldl_cons, List.length_cons, blob_size, List.map_cons,
      List.sum_cons] at this ⊢
    omega

theorem and_15 (x : Nat) : x &&& 15 = x % 16 := Nat.and_pow_two_sub_one_eq_mod x 4

theorem align_eq (x : Nat) : align x = pad_next x := by
  unfold align pad_next
  rw [show (0xf : Nat) = 15 from rfl, and_15]
  omega

theorem pad16_eq (x : Nat) : pad16 x = if x % 16 = 0 then x else pad_next x := by
  unfold pad16 pad_next
  rw [and_15, and_15]
  split <;> omega

theorem out_write_fill (size : Nat) (pre bs : List Nat) (h : pre.length + bs.length ≤ size) :
    out_write bs (fill size pre) = Except.ok (fill size (pre ++ bs)) := by
  unfold out_write fill
  simp only [List.length_append, List.length_replicate]
  rw [if_pos (by omega)]
  simp only [List.take_left, List.drop_append, List.drop_replicate, Nat.sub_sub]

theorem out_seek_fill (size p : Nat) (pre : List Nat) (h1 : pre.length ≤ p) (h2 : p ≤ size) :
    out_seek p (fill size pre) = fill size (pre ++ List.replicate (p - pre.length) 0) := by
  unfold out_seek fill
  simp only [List.length_append, List.length_replicate, List.append_assoc,
    List.append_replicate_replicate]
  have e1 : p - pre.length + (size - (pre.length + (p - pre.length))) = size - pre.length := by
    omega
  have e2 : pre.length + (p - pre.length) = p := by omega
  rw [e1, e2]

theorem out_open_fill (size : Nat) : out_seek 0 (out_open size) = fill size [] := rfl


theorem header_bytes_length (n s : Nat) (l : offsets) : (header_bytes n s l).length = 52 := by
  simp only [header_bytes, List.length_append, le_bytes_length]

theorem write_header_fill (n s size : Nat) (l : offsets) (h : 52 ≤ size) :
    write_header n s l (fill size []) = Except.ok (fill size (header_bytes n s l)) := by
  unfold write_header header_bytes
  rw [out_write_fill size [] _ (by simp only [le_bytes_length, List.length_nil]; omega),
    bind_ok_eq]
  rw [out_write_fill size _ _
    (by simp only [le_bytes_length, List.length_append, List.length_nil]; omega), bind_ok_eq]
  rw [out_write_fill size _ _
    (by simp only [le_bytes_length, List.length_append, List.length_nil]; omega), bind_ok_eq]
  rw [out_write_fill size _ _
    (by simp only [le_bytes_length, List.length_append, List.length_nil]; omega), bind_ok_eq]
  rw [out_write_fill size _ _
    (by simp only [le_bytes_length, List.length_append, List.length_nil]; omega), bind_ok_eq]
  rw [out_write_fill size _ _
    (by simp only [le_bytes_length, List.length_append, List.length_nil]; omega), bind_ok_eq]
  rw [out_write_fill size _ _
    (by simp only [le_bytes_length, List.length_append, List.length_nil]; omega), bind_ok_eq]
  rw [out_write_fill size _ _
    (by simp only [le_bytes_length, List.length_append, List.length_nil]; omega), bind_ok_eq]
  rw [out_write_fill size _ _
    (by simp only [le_bytes_length, List.length_append, List.length_nil]; omega)]
  rfl

theorem write_string_table_fill (size : Nat) (ss : List (List Nat)) (pos : Nat)
    (pre : List Nat) (h : pre.length + ss.length * 8 ≤ size) :
    write_string_table ss pos (fill size pre) =
      Except.ok (fill size (pre ++ table_bytes ss pos)) := by
  induction ss generalizing pos pre with
  | nil => simp [write_string_table, table_bytes]
  | cons s rest ih =>
    simp only [List.length_cons] at h
    unfold write_string_table
    rw [out_write_fill size pre _ (by rw [le_bytes_length]; omega), bind_ok_eq]
    rw [ih _ _ (by rw [List.length_append, le_bytes_length]; omega)]
    simp only [table_bytes, List.append_assoc, Nat.add_comm s.length 2]

theorem write_strings_fill (size : Nat) (ss : List (List Nat)) (pre : List Nat)
    (h : pre.length + blob_size ss ≤ size) :
    write_strings ss (fill size pre) = Except.ok (fill size (pre ++ blob_bytes ss)) := by
  induction ss generalizing pre with
  | nil => simp [write_strings, blob_bytes]
  | cons s rest ih =>
    have hb : blob_size (s :: rest) = 2 + s.length + blob_size rest := by
      simp only [blob_size, List.map_cons, List.sum_cons]
    rw [hb] at h
    unfold write_strings
    rw [out_write_fill size pre _ (by rw [le_bytes_length]; omega), bind_ok_eq]
    rw [out_write_fill size _ _ (by rw [List.length_append, le_bytes_length]; omega),
      bind_ok_eq]
    rw [ih _ (by simp only [List.length_append, le_bytes_length]; omega)]
    simp only [blob_bytes, List.append_assoc]

theorem pad_next_gt (x : Nat) : x < pad_next x := by
  unfold pad_next; omega

theorem pad_next_dvd (x : Nat) : 16 ∣ pad_next x := ⟨x / 16 + 1, rfl⟩

/-- The offsets of the code in closed form. -/
theorem wztonx_offsets_eq (n : Nat) (ss : List (List Nat)) :
    wztonx_offsets n ss =
      { node_offset := 64,
        string_table_offset := pad_next (64 + n * 20),
        string_offset := pad_next (pad_next (64 + n * 20) + ss.length * 8),
        bitmap_table_offset :=
          pad_next (pad_next (pad_next (64 + n * 20) + ss.length * 8) + blob_size ss) } := by
  unfold wztonx_offsets
  simp only [align_eq]
  have e : pad_next 52 = 64 := by decide
  rw [e]
  have f := foldl_size ss (pad_next (pad_next (64 + n * 20) + ss.length * 8) + ss.length * 2)
  have g : List.foldl (fun acc s => acc + s.length)
      (pad_next (pad_next (64 + n * 20) + ss.length * 8) + ss.length * 2) ss =
      pad_next (pad_next (64 + n * 20) + ss.length * 8) + blob_size ss := by omega
  rw [g]

/-- The writer returns, and the output file is `nx_bytes` followed by zero bytes up to
the computed size. -/
theorem wztonx_write_eq (st : State) :
    wztonx_write st = Except.ok
      (fill (wztonx_offsets st.nodes.length st.strings).bitmap_table_offset (nx_bytes st)) := by
  unfold wztonx_write nx_bytes
  simp only [out_open_fill]
  have ho := wztonx_offsets_eq st.nodes.length st.strings
  generalize wztonx_offsets st.nodes.length st.strings = l at ho ⊢
  have h1 : l.node_offset = 64 := by rw [ho]
  have h2 : l.node_offset + st.nodes.length * 20 < l.string_table_offset := by
    rw [ho]; exact pad_next_gt _
  have h3 : l.string_table_offset + st.strings.length * 8 < l.string_offset := by
    rw [ho]; exact pad_next_gt _
  have h4 : l.string_offset + blob_size st.strings < l.bitmap_table_offset := by
    rw [ho]; exact pad_next_gt _
  rw [write_header_fill _ _ _ _ (by omega), bind_ok_eq]
  rw [out_seek_fill _ _ _ (by rw [header_bytes_length]; omega) (by omega)]
  rw [out_write_fill _ _ _ (by
    simp only [List.length_append, header_bytes_length, List.length_replicate,
      nodes_bytes_length]; omega), bind_ok_eq]
  rw [out_seek_fill _ _ _ (by
    simp only [List.length_append, header_bytes_length, List.length_replicate,
      nodes_bytes_length]; omega) (by omega)]
  rw [write_string_table_fill _ _ _ _ (by
    simp only [List.length_append, header_bytes_length, List.length_replicate,
      nodes_bytes_length]; omega), bind_ok_eq]
  rw [out_seek_fill _ _ _ (by
    simp only [List.length_append, header_bytes_length, List.length_replicate,
      nodes_bytes_length, table_bytes_length]; omega) (by omega)]
  rw [write_strings_fill _ _ _ (by
    simp only [List.length_append, header_bytes_length, List.length_replicate,
      nodes_bytes_length, table_bytes_length]; omega)]
  simp only [List.length_append, header_bytes_length, List.length_replicate,
      nodes_bytes_length, table_bytes_length]
  have e1 : 52 + (l.node_offset - 52) + st.nodes.length * 20 = l.node_offset + st.nodes.length * 20 := by omega
  have e2 : 52 + (l.node_offset - 52) + st.nodes.length * 20 +
      (l.string_table_offset - (52 + (l.node_offset - 52) + st.nodes.length * 20)) +
      st.strings.length * 8 = l.string_table_offset + st.strings.length * 8 := by omega
  rw [e2, e1]

theorem pad_next_pad16 (x : Nat) :
    pad_next x = if x % 16 = 0 then pad16 x + 16 else pad16 x := by
  rw [pad16_eq]
  unfold pad_next
  split <;> omega

/-- C11 (counterexample): the archive `wz_simple` yields four nodes and five strings.
The code computes the offsets 64, 160, 208 and the file size 240, the formulas of the
claim give 64, 144, 192 and 208: after the 4 node records the position 64 + 80 = 144 is
a multiple of 16, to which `pad16` adds nothing and the code adds 16. -/
theorem offsets_differ_from_pad16 :
    wztonx_nodes env_zero 20 wz_simple = Except.ok st_final_simple ∧
    st_final_simple.nodes.length = 4 ∧
    st_final_simple.strings = [[], [97], [120], [121], [85, 79, 76]] ∧
    wztonx_offsets st_final_simple.nodes.length st_final_simple.strings =
      ⟨64, 160, 208, 240⟩ ∧
    spec_offsets st_final_simple.nodes.length st_final_simple.strings =
      ⟨64, 144, 192, 208⟩ ∧
    pad16 144 = 144 ∧ align 144 = 160 := by
  refine ⟨?_, ?_, ?_, ?_, ?_, ?_, ?_⟩ <;> decide

/-- C11 (amended): for every node count `n` and every list of interned strings the
offsets of the writer are node_offset = pad(52) = 64, string_table_offset =
pad(node_offset + 20·n), string_offset = pad(string_table_offset + 8·|strings|) and
file size = pad(string_offset + Σ(2 + len_i)), where pad(x) = x + (16 - (x & 15)) is the
next multiple of 16 strictly above `x`: it is `pad16 x` when `x` is not a multiple of
16, and `pad16 x + 16` when it is. -/
theorem offsets_pad_next (n : Nat) (strings : List (List Nat)) :
    wztonx_offsets n strings =
      { node_offset := pad_next 52,
        string_table_offset := pad_next (pad_next 52 + 20 * n),
        string_offset := pad_next (pad_next (pad_next 52 + 20 * n) + 8 * strings.length),
        bitmap_table_offset :=
          pad_next (pad_next (pad_next (pad_next 52 + 20 * n) + 8 * strings.length) +
            blob_size strings) } ∧
    (∀ x, pad_next x = x + (16 - (x &&& 15))) ∧
    (∀ x, pad_next x = if x % 16 = 0 then pad16 x + 16 else pad16 x) := by
  refine ⟨?_, ?_, pad_next_pad16⟩
  · rw [wztonx_offsets_eq, show pad_next 52 = 64 from by decide, Nat.mul_comm 20 n,
      Nat.mul_comm 8 strings.length]
  · intro x
    rw [← align_eq]
    rfl

/-- C12: for every node count and every list of interned strings the offsets
`node_offset`, `string_table_offset` and `string_offset` that the writer computes are
multiples of 16 and node_offset < string_table_offset < string_offset. -/
theorem offsets_aligned_increasing (n : Nat) (strings : List (List Nat)) :
    16 ∣ (wztonx_offsets n strings).node_offset ∧
    16 ∣ (wztonx_offsets n strings).string_table_offset ∧
    16 ∣ (wztonx_offsets n strings).string_offset ∧
    (wztonx_offsets n strings).node_offset < (wztonx_offsets n strings).string_table_offset ∧
    (wztonx_offsets n strings).string_table_offset <
      (wztonx_offsets n strings).string_offset := by
  rw [wztonx_offsets_eq]
  dsimp only
  refine ⟨⟨4, rfl⟩, pad_next_dvd _, pad_next_dvd _, ?_, ?_⟩
  · have := pad_next_gt (64 + n * 20)
    omega
  · have := pad_next_gt (pad_next (64 + n * 20) + strings.length * 8)
    omega

theorem drop_take_mid (A B C : List Nat) (a b : Nat) (ha : A.length = a)
    (hb : B.length = b) : ((A ++ B ++ C).drop a).take b = B := by
  rw [List.append_assoc, List.drop_left' ha, List.take_left' hb]

theorem table_bytes_append (xs ys : List (List Nat)) (pos : Nat) :
    table_bytes (xs ++ ys) pos = table_bytes xs pos ++ table_bytes ys (pos + blob_size xs) := by
  induction xs generalizing pos with
  | nil => simp [table_bytes, blob_size]
  | cons x rest ih =>
    have hb : blob_size (x :: rest) = 2 + x.length + blob_size rest := by
      simp only [blob_size, List.map_cons, List.sum_cons]
    show table_bytes (x :: (rest ++ ys)) pos = _
    simp only [table_bytes, ih, List.append_assoc, hb, Nat.add_assoc]

theorem blob_bytes_append (xs ys : List (List Nat)) :
    blob_bytes (xs ++ ys) = blob_bytes xs ++ blob_bytes ys := by
  induction xs with
  | nil => simp [blob_bytes]
  | cons x rest ih =>
    show blob_bytes (x :: (rest ++ ys)) = _
    simp only [blob_bytes, ih, List.append_assoc]

theorem split_at (ss : List (List Nat)) (i : Nat) (s : List Nat) (h : ss[i]? = some s) :
    ss = ss.take i ++ s :: ss.drop (i + 1) ∧ (ss.take i).length = i := by
  obtain ⟨hi, hs⟩ := List.getElem?_eq_some_iff.mp h
  refine ⟨?_, ?_⟩
  · rw [← hs, ← List.drop_eq_getElem_cons hi, List.take_append_drop]
  · rw [List.length_take]; omega

/-- The entry `i` of the string offset table. -/
theorem table_bytes_entry (ss : List (List Nat)) (i : Nat) (s : List Nat) (pos : Nat)
    (h : ss[i]? = some s) :
    ∃ A C, table_bytes ss pos = A ++ le_bytes 8 (pos + blob_size (ss.take i)) ++ C ∧
      A.length = 8 * i := by
  obtain ⟨h1, h2⟩ := split_at ss i s h
  refine ⟨table_bytes (ss.take i) pos,
    table_bytes (ss.drop (i + 1)) (pos + blob_size (ss.take i) + (2 + s.length)), ?_, ?_⟩
  · nth_rewrite 1 [h1]
    rw [table_bytes_append, table_bytes, List.append_assoc]
  · rw [table_bytes_length, h2, Nat.mul_comm]

/-- The record `i` of the string blob. -/
theorem blob_bytes_record (ss : List (List Nat)) (i : Nat) (s : List Nat)
    (h : ss[i]? = some s) :
    ∃ A C, blob_bytes ss = A ++ (le_bytes 2 s.length ++ s) ++ C ∧
      A.length = blob_size (ss.take i) ∧
      blob_size (ss.take i) + (2 + s.length) ≤ blob_size ss := by
  obtain ⟨h1, _⟩ := split_at ss i s h
  refine ⟨blob_bytes (ss.take i), blob_bytes (ss.drop (i + 1)), ?_, ?_, ?_⟩
  · nth_rewrite 1 [h1]
    rw [blob_bytes_append, blob_bytes]
    simp only [List.append_assoc]
  · rw [blob_bytes_length]
  · nth_rewrite 2 [h1]
    rw [blob_size_append]
    simp only [blob_size, List.map_cons, List.sum_cons]
    omega

/-- C13: for every table of interned strings and every index `i` of a string `s`, the
writer returns, and in the output file the `i`-th 8-byte entry of the string offset
table (at `string_table_offset + 8·i`) is the little-endian `u64` of the position
`string_offset + Σ_{j<i}(2 + len_j)`; at that position the file holds the record of
string `i`, the `u16` length followed by the bytes of `s`; and the record ends at or
before the computed file size, which is the size of the output file. -/
theorem string_table_points_at_records (st : State) (i : Nat) (s : List Nat)
    (h : st.strings[i]? = some s) :
    ∃ o, wztonx_write st = Except.ok o ∧
      (o.base.drop ((wztonx_offsets st.nodes.length st.strings).string_table_offset + 8 * i)).take 8
        = le_bytes 8 ((wztonx_offsets st.nodes.length st.strings).string_offset +
            blob_size (st.strings.take i)) ∧
      (o.base.drop ((wztonx_offsets st.nodes.length st.strings).string_offset +
            blob_size (st.strings.take i))).take (2 + s.length)
        = le_bytes 2 s.length ++ s ∧
      (wztonx_offsets st.nodes.length st.strings).string_offset +
          blob_size (st.strings.take i) + (2 + s.length) ≤
        (wztonx_offsets st.nodes.length st.strings).bitmap_table_offset ∧
      o.base.length = (wztonx_offsets st.nodes.length st.strings).bitmap_table_offset := by
  refine ⟨_, wztonx_write_eq st, ?_⟩
  have ho := wztonx_offsets_eq st.nodes.length st.strings
  unfold fill nx_bytes
  dsimp only
  generalize wztonx_offsets st.nodes.length st.strings = l at ho ⊢
  have h1 : l.node_offset = 64 := by rw [ho]
  have h2 : l.node_offset + st.nodes.length * 20 < l.string_table_offset := by
    rw [ho]; exact pad_next_gt _
  have h3 : l.string_table_offset + st.strings.length * 8 < l.string_offset := by
    rw [ho]; exact pad_next_gt _
  have h4 : l.string_offset + blob_size st.strings < l.bitmap_table_offset := by
    rw [ho]; exact pad_next_gt _
  obtain ⟨A, C, hT, hA⟩ := table_bytes_entry st.strings i s l.string_offset h
  obtain ⟨A', C', hB, hA', hle⟩ := blob_bytes_record st.strings i s h
  have ht := table_bytes_length st.strings l.string_offset
  have hH := header_bytes_length st.nodes.length st.strings.length l
  have hN := nodes_bytes_length st.nodes
  have hb := blob_bytes_length st.strings
  generalize header_bytes st.nodes.length st.strings.length l = H at hH ⊢
  generalize nodes_bytes st.nodes = N at hN ⊢
  have htA : A.length + 8 + C.length = st.strings.length * 8 := by
    rw [← ht, hT]
    simp only [List.length_append, le_bytes_length]
  have hbA : A'.length + (2 + s.length) + C'.length = blob_size st.strings := by
    rw [← hb, hB]
    simp only [List.length_append, le_bytes_length]
  rw [hT, hB]
  refine ⟨?_, ?_, by omega, ?_⟩
  · have e : ∀ E R : List Nat,
        H ++ List.replicate (l.node_offset - 52) 0 ++ N ++
          List.replicate (l.string_table_offset - (l.node_offset + st.nodes.length * 20)) 0 ++
          (A ++ E ++ C) ++
          List.replicate (l.string_offset - (l.string_table_offset + st.strings.length * 8)) 0 ++
          (A' ++ R ++ C') ++ List.replicate
            (l.bitmap_table_offset - (H ++ List.replicate (l.node_offset - 52) 0 ++ N ++
              List.replicate (l.string_table_offset - (l.node_offset + st.nodes.length * 20)) 0 ++
              (A ++ E ++ C) ++
              List.replicate (l.string_offset - (l.string_table_offset + st.strings.length * 8)) 0 ++
              (A' ++ R ++ C')).length) 0 =
        (H ++ List.replicate (l.node_offset - 52) 0 ++ N ++
          List.replicate (l.string_table_offset - (l.node_offset + st.nodes.length * 20)) 0 ++
          A) ++ E ++ (C ++
          List.replicate (l.string_offset - (l.string_table_offset + st.strings.length * 8)) 0 ++
          (A' ++ R ++ C') ++ List.replicate
            (l.bitmap_table_offset - (H ++ List.replicate (l.node_offset - 52) 0 ++ N ++
              List.replicate (l.string_table_offset - (l.node_offset + st.nodes.length * 20)) 0 ++
              (A ++ E ++ C) ++
              List.replicate (l.string_offset - (l.string_table_offset + st.strings.length * 8)) 0 ++
              (A' ++ R ++ C')).length) 0) := by
      intro E R
      simp only [List.append_assoc]
    rw [e]
    exact drop_take_mid _ _ _ _ _
      (by simp only [List.length_append, List.length_replicate, hH, hN]; omega)
      (le_bytes_length _ _)
  · have e : ∀ E R : List Nat,
        H ++ List.replicate (l.node_offset - 52) 0 ++ N ++
          List.replicate (l.string_table_offset - (l.node_offset + st.nodes.length * 20)) 0 ++
          (A ++ E ++ C) ++
          List.replicate (l.string_offset - (l.string_table_offset + st.strings.length * 8)) 0 ++
          (A' ++ R ++ C') ++ List.replicate
            (l.bitmap_table_offset - (H ++ List.replicate (l.node_offset - 52) 0 ++ N ++
              List.replicate (l.string_table_offset - (l.node_offset + st.nodes.length * 20)) 0 ++
              (A ++ E ++ C) ++
              List.replicate (l.string_offset - (l.string_table_offset + st.strings.length * 8)) 0 ++
              (A' ++ R ++ C')).length) 0 =
        (H ++ List.replicate (l.node_offset - 52) 0 ++ N ++
          List.replicate (l.string_table_offset - (l.node_offset + st.nodes.length * 20)) 0 ++
          (A ++ E ++ C) ++
          List.replicate (l.string_offset - (l.string_table_offset + st.strings.length * 8)) 0 ++
          A') ++ R ++ (C' ++ List.replicate
            (l.bitmap_table_offset - (H ++ List.replicate (l.node_offset - 52) 0 ++ N ++
              List.replicate (l.string_table_offset - (l.node_offset + st.nodes.length * 20)) 0 ++
              (A ++ E ++ C) ++
              List.replicate (l.string_offset - (l.string_table_offset + st.strings.length * 8)) 0 ++
              (A' ++ R ++ C')).length) 0) := by
      intro E R
      simp only [List.append_assoc]
    rw [e]
    exact drop_take_mid _ _ _ _ _
      (by simp only [List.length_append, List.length_replicate, hH, hN, le_bytes_length];
          omega)
      (by simp only [List.length_append, le_bytes_length])
  · simp only [List.length_append, List.length_replicate, hH, hN, le_bytes_length]
    omega

theorem string_table_points_at_records_witness :
    st_final_simple.strings[4]? = some [85, 79, 76] ∧
    ∃ o, wztonx_write st_final_simple = Except.ok o ∧
      (o.base.drop 192).take 8 = [219, 0, 0, 0, 0, 0, 0, 0] ∧
      (o.base.drop 219).take 5 = [3, 0, 85, 79, 76] ∧
      o.base.length = 240 := by
  obtain ⟨o, h1, h2, h3, _, h5⟩ :=
    string_table_points_at_records st_final_simple 4 [85, 79, 76] (by decide)
  have e : wztonx_offsets st_final_simple.nodes.length st_final_simple.strings =
      ⟨64, 160, 208, 240⟩ := by decide
  have f : blob_size (st_final_simple.strings.take 4) = 11 := by decide
  rw [e, f] at h2 h3
  rw [e] at h5
  exact ⟨by decide, o, h1, h2, h3, h5⟩

/-- The bytes `le_bytes k v` are the little-endian digits of `v` modulo `2^(8k)`. -/
theorem le_value_le_bytes (k v : Nat) : le_value (le_bytes k v) = v % 256 ^ k := by
  induction k generalizing v with
  | zero => simp [le_bytes, le_value, Nat.mod_one]
  | succ k ih =>
    simp only [le_bytes, le_value, ih]
    rw [Nat.pow_succ, Nat.mul_comm (256 ^ k) 256, Nat.mod_mul]

/-- C14: for every node table and string table the writer returns, and the first 52
bytes of the output file are, in little-endian byte order, the `u32` magic 0x34474B50,
the `u32` node count, the `u64` node offset, the `u32` string count, the `u64` string
table offset, and `u32` 0, `u64` 0, `u32` 0, `u64` 0 for bitmaps and audio; the header
ends before the node offset. -/
theorem header_written (st : State) :
    ∃ o, wztonx_write st = Except.ok o ∧
      o.base.take 52 =
        le_bytes 4 0x34474B50 ++ le_bytes 4 st.nodes.length ++
        le_bytes 8 (wztonx_offsets st.nodes.length st.strings).node_offset ++
        le_bytes 4 st.strings.length ++
        le_bytes 8 (wztonx_offsets st.nodes.length st.strings).string_table_offset ++
        le_bytes 4 0 ++ le_bytes 8 0 ++ le_bytes 4 0 ++ le_bytes 8 0 ∧
      (le_bytes 4 0x34474B50 ++ le_bytes 4 st.nodes.length ++
        le_bytes 8 (wztonx_offsets st.nodes.length st.strings).node_offset ++
        le_bytes 4 st.strings.length ++
        le_bytes 8 (wztonx_offsets st.nodes.length st.strings).string_table_offset ++
        le_bytes 4 0 ++ le_bytes 8 0 ++ le_bytes 4 0 ++ le_bytes 8 0).length = 52 ∧
      52 < (wztonx_offsets st.nodes.length st.strings).node_offset := by
  refine ⟨_, wztonx_write_eq st, ?_, ?_, ?_⟩
  · change (fill _ (nx_bytes st)).base.take 52 =
      header_bytes st.nodes.length st.strings.length
        (wztonx_offsets st.nodes.length st.strings)
    unfold fill nx_bytes
    dsimp only
    simp only [List.append_assoc]
    exact List.take_left' (header_bytes_length _ _ _)
  · simp only [List.length_append, le_bytes_length]
  · rw [wztonx_offsets_eq]
    show 52 < 64
    decide

theorem fill_take_header (st : State) (size : Nat) :
    (fill size (nx_bytes st)).base.take 52 =
      header_bytes st.nodes.length st.strings.length
        (wztonx_offsets st.nodes.length st.strings) := by
  unfold fill nx_bytes
  dsimp only
  simp only [List.append_assoc]
  exact List.take_left' (header_bytes_length _ _ _)

theorem fill_length (size : Nat) (pre : List Nat) (h : pre.length ≤ size) :
    (fill size pre).base.length = size := by
  unfold fill
  simp only [List.length_append, List.length_replicate]
  omega

theorem nx_bytes_length (st : State) :
    (nx_bytes st).length ≤ (wztonx_offsets st.nodes.length st.strings).bitmap_table_offset := by
  have ho := wztonx_offsets_eq st.nodes.length st.strings
  unfold nx_bytes
  dsimp only
  generalize wztonx_offsets st.nodes.length st.strings = l at ho ⊢
  have h1 : l.node_offset = 64 := by rw [ho]
  have h2 : l.node_offset + st.nodes.length * 20 < l.string_table_offset := by
    rw [ho]; exact pad_next_gt _
  have h3 : l.string_table_offset + st.strings.length * 8 < l.string_offset := by
    rw [ho]; exact pad_next_gt _
  have h4 : l.string_offset + blob_size st.strings < l.bitmap_table_offset := by
    rw [ho]; exact pad_next_gt _
  simp only [List.length_append, List.length_replicate, header_bytes_length,
    nodes_bytes_length, table_bytes_length, blob_bytes_length]
  omega

theorem take_drop_within (L : List Nat) (a b c : Nat) (h : a + b ≤ c) :
    (L.drop a).take b = ((L.take c).drop a).take b := by
  rw [List.take_drop, List.take_drop, List.take_take, Nat.min_eq_left h]

/-- C15 (counterexample): on the empty archive `wz_empty` the code arrives at a node
table that holds only the root and a string table that holds only the empty string, and
it computes the offsets 64, 96, 112 and the file size 128. The formulas of the
specification give 128 as well: 112 is where the string blob starts, and the record of
the empty string takes two more bytes before the last padding. -/
theorem empty_archive_size_is_not_112 :
    wztonx_nodes env_zero 3 wz_empty = Except.ok st_empty ∧
    st_empty.nodes.length = 1 ∧ st_empty.strings = [[]] ∧
    wztonx_offsets st_empty.nodes.length st_empty.strings = ⟨64, 96, 112, 128⟩ ∧
    (wztonx_offsets st_empty.nodes.length st_empty.strings).bitmap_table_offset ≠ 112 ∧
    spec_offsets 1 [[]] = ⟨64, 96, 112, 128⟩ := by
  refine ⟨?_, ?_, ?_, ?_, ?_, ?_⟩ <;> decide

/-- C15 (amended): when the node table holds only the root and the string table only
the empty string, the writer returns, the header carries the node count 1 (bytes 4..7)
and the string count 1 (bytes 16..19), the string blob starts at 112, and the file size
that the writer computes, which is the size of the output file, is 128 bytes. -/
theorem empty_archive_layout (st : State) (hn : st.nodes.length = 1)
    (hs : st.strings = [[]]) :
    ∃ o, wztonx_write st = Except.ok o ∧
      (o.base.drop 4).take 4 = le_bytes 4 1 ∧
      (o.base.drop 16).take 4 = le_bytes 4 1 ∧
      (wztonx_offsets st.nodes.length st.strings).string_offset = 112 ∧
      (wztonx_offsets st.nodes.length st.strings).bitmap_table_offset = 128 ∧
      o.base.length = 128 := by
  have e : wztonx_offsets st.nodes.length st.strings = ⟨64, 96, 112, 128⟩ := by
    rw [hn, hs]; decide
  have hH := fill_take_header st (wztonx_offsets st.nodes.length st.strings).bitmap_table_offset
  have hL := fill_length _ _ (nx_bytes_length st)
  rw [e] at hH hL
  rw [hn, hs] at hH
  refine ⟨_, wztonx_write_eq st, ?_, ?_, by rw [e], by rw [e], ?_⟩
  · rw [take_drop_within _ 4 4 52 (by decide), e, hH]
    decide
  · rw [take_drop_within _ 16 4 52 (by decide), e, hH]
    decide
  · rw [e, hL]

theorem empty_archive_layout_witness :
    st_empty.nodes.length = 1 ∧ st_empty.strings = [[]] ∧
    ∃ o, wztonx_write st_empty = Except.ok o ∧
      (o.base.drop 4).take 4 = le_bytes 4 1 ∧
      (o.base.drop 16).take 4 = le_bytes 4 1 ∧
      (wztonx_offsets st_empty.nodes.length st_empty.strings).string_offset = 112 ∧
      (wztonx_offsets st_empty.nodes.length st_empty.strings).bitmap_table_offset = 128 ∧
      o.base.length = 128 :=
  ⟨by decide, by decide, empty_archive_layout st_empty (by decide) (by decide)⟩

/-! ### The input cursor -/

theorem in_read_ok (k : Nat) (st : State) (h : st.in_offset + k ≤ st.in_base.length) :
    in_read k st = Except.ok (le_value ((st.in_base.drop st.in_offset).take k),
      { st with in_offset := st.in_offset + k }) := by
  unfold in_read
  rw [if_pos h]

theorem in_read_beyond (k : Nat) (st : State) (h : st.in_base.length < st.in_offset + k) :
    in_read k st = Except.error Err.undefined_behaviour := by
  unfold in_read
  rw [if_neg (by omega)]

theorem take_one_drop (l : List Nat) (i b : Nat) (h : l[i]? = some b) :
    (l.drop i).take 1 = [b] := by
  obtain ⟨hi, hb⟩ := List.getElem?_eq_some_iff.mp h
  rw [List.drop_eq_getElem_cons hi, hb]
  rfl

theorem in_read_one (st : State) (b : Nat) (h : st.in_base[st.in_offset]? = some b) :
    in_read 1 st = Except.ok (b, { st with in_offset := st.in_offset + 1 }) := by
  obtain ⟨hi, _⟩ := List.getElem?_eq_some_iff.mp h
  rw [in_read_ok 1 st (by omega), take_one_drop _ _ _ h]
  simp [le_value]

theorem to_signed_8_ne (b : Nat) : to_signed 8 b ≠ -128 ↔ b ≠ 128 := by
  unfold to_signed
  split <;> omega

/-- C16: let `b` be the byte at the cursor. When `b` is not 0x80 (the byte -128),
`read_cint` returns the sign-extended `b` and advances the cursor by 1. When it is, and
four more bytes are left, `read_cint` returns the signed reading of the little-endian
32-bit integer in these four bytes and advances the cursor by 5. -/
theorem read_cint_spec (st : State) (b : Nat) (hb : st.in_base[st.in_offset]? = some b) :
    (b ≠ 128 →
      read_cint st = Except.ok (to_signed 8 b, { st with in_offset := st.in_offset + 1 })) ∧
    (b = 128 → st.in_offset + 5 ≤ st.in_base.length →
      read_cint st = Except.ok
        (to_signed 32 (le_value ((st.in_base.drop (st.in_offset + 1)).take 4)),
          { st with in_offset := st.in_offset + 5 })) := by
  unfold read_cint
  rw [in_read_one st b hb, bind_ok_eq]
  dsimp only
  refine ⟨fun h => ?_, fun h h5 => ?_⟩
  · rw [if_pos ((to_signed_8_ne b).mpr h)]
  · rw [if_neg (by rw [to_signed_8_ne]; omega)]
    rw [in_read_ok 4 _ (by dsimp only; omega), bind_ok_eq]

theorem read_cint_spec_witness :
    (st_cint.in_base[st_cint.in_offset]? = some 5 ∧ 5 ≠ 128 ∧
      read_cint st_cint = Except.ok (5, in_seek 1 st_cint)) ∧
    ((in_seek 1 st_cint).in_base[(in_seek 1 st_cint).in_offset]? = some 128 ∧
      (in_seek 1 st_cint).in_offset + 5 ≤ (in_seek 1 st_cint).in_base.length ∧
      read_cint (in_seek 1 st_cint) = Except.ok (65537, in_seek 6 st_cint)) :=
  ⟨⟨by decide, by decide, (read_cint_spec st_cint 5 (by decide)).1 (by decide)⟩,
    ⟨by decide, by decide,
      (read_cint_spec (in_seek 1 st_cint) 128 (by decide)).2 rfl (by decide)⟩⟩

theorem in_read_within {k : Nat} {st st' : State} {v : Nat}
    (h : in_read k st = Except.ok (v, st')) :
    st'.in_base = st.in_base ∧ st'.in_offset = st.in_offset + k ∧
      st'.in_offset ≤ st'.in_base.length := by
  unfold in_read at h
  split at h
  · cases h; exact ⟨rfl, rfl, by assumption⟩
  · cases h

theorem read_cint_within {st st' : State} {v : Int}
    (h : read_cint st = Except.ok (v, st')) : st'.in_offset ≤ st'.in_base.length := by
  unfold read_cint at h
  obtain ⟨⟨a, st1⟩, h1, h2⟩ := bind_eq_ok h
  have e1 := in_read_within h1
  simp only at h2
  split at h2
  · cases h2; exact e1.2.2
  · obtain ⟨⟨w, st2⟩, h3, h4⟩ := bind_eq_ok h2
    cases h4
    exact (in_read_within h3).2.2

/-- C17 (counterexample): on an input of 6 bytes `in::seek(100)` and `in::skip(100)`
return, and leave the cursor at 100, which is outside the mapped region; no operation
of the cursor has a check or an error of its own, and a read at that position has no
defined behaviour. -/
theorem seek_leaves_region :
    st_cint.in_base.length = 6 ∧
    (in_seek 100 st_cint).in_offset = 100 ∧
    (in_skip 100 st_cint).in_offset = 100 ∧
    in_read 1 (in_seek 100 st_cint) = Except.error Err.undefined_behaviour ∧
    read_cint (in_skip 100 st_cint) = Except.error Err.undefined_behaviour := by
  refine ⟨?_, ?_, ?_, ?_, ?_⟩ <;> decide

/-- C17 (amended): `in::seek` and `in::skip` check nothing and always return, the cursor
being `n`, respectively the old cursor plus `n`, as 64-bit values, inside the mapped
region or not. `in::read<T>` and `in::read_cint` check nothing either: a read of `k`
bytes that lie inside the mapped region returns and leaves the cursor `k` further, at or
before the end of the input; whenever `read_cint` returns, the cursor is at or before
the end of the input; a read of bytes beyond the end has no defined behaviour, and no
fatal error is raised. -/
theorem cursor_is_unchecked (st : State) (n k : Nat)
    (h : st.in_offset + k ≤ st.in_base.length) :
    (in_seek n st).in_offset = n % 2 ^ 64 ∧
    (in_skip n st).in_offset = (st.in_offset + n) % 2 ^ 64 ∧
    (∃ v st', in_read k st = Except.ok (v, st') ∧ st'.in_offset = st.in_offset + k ∧
      st'.in_base = st.in_base ∧ st'.in_offset ≤ st'.in_base.length) ∧
    (∀ v st', read_cint st = Except.ok (v, st') → st'.in_offset ≤ st'.in_base.length) ∧
    (∀ j, st.in_base.length < st.in_offset + j →
      in_read j st = Except.error Err.undefined_behaviour) ∧
    (∀ e, read_cint st = Except.error e → e = Err.undefined_behaviour) := by
  refine ⟨rfl, rfl, ⟨_, _, in_read_ok k st h, rfl, rfl, h⟩,
    fun v st' hr => read_cint_within hr, fun j hj => in_read_beyond j st hj, ?_⟩
  intro e he
  unfold read_cint at he
  unfold in_read at he
  split at he
  · simp only [bind_ok_eq] at he
    split at he
    · cases he
    · split at he
      · cases he
      · cases he; rfl
  · cases he; rfl

theorem cursor_is_unchecked_witness :
    st_cint.in_offset + 1 ≤ st_cint.in_base.length ∧
    (in_seek 100 st_cint).in_offset = 100 % 2 ^ 64 ∧
    ∃ v st', in_read 1 st_cint = Except.ok (v, st') ∧ st'.in_offset = st_cint.in_offset + 1 ∧
      st'.in_base = st_cint.in_base ∧ st'.in_offset ≤ st'.in_base.length :=
  ⟨by decide, (cursor_is_unchecked st_cint 100 1 (by decide)).1,
    (cursor_is_unchecked st_cint 100 1 (by decide)).2.2.1⟩

/-! ### Encrypted strings -/

theorem to_signed_8_beq_neg (l : Nat) : (to_signed 8 l == -128) = decide (l = 128) := by
  rw [Bool.eq_iff_iff, beq_iff_eq, decide_eq_true_iff]
  unfold to_signed
  split <;> omega

theorem to_signed_8_beq_pos (l : Nat) (h : l < 256) :
    (to_signed 8 l == 127) = decide (l = 127) := by
  rw [Bool.eq_iff_iff, beq_iff_eq, decide_eq_true_iff]
  unfold to_signed
  split <;> omega

theorem to_unsigned_16_signed_32 (w : Nat) : to_unsigned 16 (to_signed 32 w) = w % 65536 := by
  unfold to_unsigned to_signed
  split <;> omega

theorem to_unsigned_16_neg (l : Nat) (h1 : 128 ≤ l) (h2 : l < 256) :
    to_unsigned 16 (-(to_signed 8 l)) = 256 - l := by
  unfold to_unsigned to_signed
  split <;> omega

theorem to_unsigned_16_pos (l : Nat) (h2 : l < 128) :
    to_unsigned 16 (to_signed 8 l) = l := by
  unfold to_unsigned to_signed
  split <;> omega

theorem in_bytes_ok (o k : Nat) (st : State) (h : o + k ≤ st.in_base.length) :
    in_bytes o k st = Except.ok ((st.in_base.drop o).take k) := by
  unfold in_bytes
  by_cases hk : k = 0
  · subst hk; rfl
  · rw [if_neg hk, if_pos h]

theorem decode_bytes_length (key : Nat → Nat) (os : List Nat) :
    (decode_bytes key os).length = os.length := by
  simp [decode_bytes]

theorem decode_bytes_getElem? (key : Nat → Nat) (os : List Nat) (i : Nat) :
    (decode_bytes key os)[i]? =
      os[i]?.map (fun b => b ^^^ key i ^^^ ((0xAA + i) % 256)) := by
  unfold decode_bytes
  rw [List.getElem?_map, List.getElem?_enum]
  cases os[i]? <;> rfl

theorem getD_eq_some (l : List Nat) (i : Nat) (h : l.getD i 0 ≠ 0) :
    l[i]? = some (l.getD i 0) := by
  rw [List.getD_eq_getElem?_getD] at h ⊢
  cases hx : l[i]? with
  | none => rw [hx] at h; simp at h
  | some b => simp

/-- The count and the position of the payload that `read_slen` yields behind the prefix
`l` of the encrypted string at the cursor. -/
theorem read_slen_enc (st : State) (neg : Bool)
    (hl : enc_len st.in_base st.in_offset ≠ 0)
    (hlt : enc_len st.in_base st.in_offset < 256)
    (hneg : neg = decide (128 ≤ enc_len st.in_base st.in_offset))
    (hfit : enc_payload st.in_base st.in_offset ≤ st.in_base.length) :
    in_read 1 st = Except.ok (enc_len st.in_base st.in_offset,
      { st with in_offset := st.in_offset + 1 }) ∧
    read_slen
      (if neg then to_signed 8 (enc_len st.in_base st.in_offset) == -128
        else to_signed 8 (enc_len st.in_base st.in_offset) == 127)
      (if neg then -(to_signed 8 (enc_len st.in_base st.in_offset))
        else to_signed 8 (enc_len st.in_base st.in_offset))
      { st with in_offset := st.in_offset + 1 } =
      Except.ok (enc_count st.in_base st.in_offset,
        { st with in_offset := enc_payload st.in_base st.in_offset }) := by
  have hg := getD_eq_some st.in_base st.in_offset hl
  unfold read_slen enc_count enc_payload enc_len at *
  generalize st.in_base.getD st.in_offset 0 = l at *
  refine ⟨in_read_one st l hg, ?_⟩
  rw [to_signed_8_beq_neg, to_signed_8_beq_pos l hlt]
  by_cases hn : 128 ≤ l
  · simp only [hneg, hn, decide_True, if_true]
    by_cases he : l = 128
    · subst he
      simp only [decide_True, if_true, or_true] at hfit ⊢
      rw [in_read_ok 4 _ (by dsimp only; omega), bind_ok_eq, to_unsigned_16_signed_32]
    · have h3 : ¬ (l = 127 ∨ l = 128) := by omega
      simp only [if_neg h3] at hfit ⊢
      simp only [he, decide_False, if_false, Bool.false_eq_true] at hfit ⊢
      rw [to_unsigned_16_neg l hn hlt, if_neg (by omega)]
  · simp only [hneg, hn, decide_False, if_false, Bool.false_eq_true]
    by_cases he : l = 127
    · subst he
      simp only [decide_True, if_true, true_or] at hfit ⊢
      rw [in_read_ok 4 _ (by dsimp only; omega), bind_ok_eq, to_unsigned_16_signed_32]
    · have h3 : ¬ (l = 127 ∨ l = 128) := by omega
      simp only [if_neg h3] at hfit ⊢
      simp only [he, decide_False, if_false, Bool.false_eq_true] at hfit ⊢
      rw [to_unsigned_16_pos l (by omega), if_pos (by omega)]

theorem to_signed_8_sign (l : Nat) (hlt : l < 256) :
    (to_signed 8 l > 0 ↔ l ≠ 0 ∧ l < 128) ∧ (to_signed 8 l < 0 ↔ 128 ≤ l) := by
  unfold to_signed
  split <;> omega

/-- The branch `len < 0` of `read_enc_string`. -/
theorem read_enc_string_neg (env : Env) (st : State) (key : Nat → Nat)
    (hneg : 128 ≤ enc_len st.in_base st.in_offset)
    (hlt : enc_len st.in_base st.in_offset < 256)
    (hfit : enc_payload st.in_base st.in_offset + enc_count st.in_base st.in_offset ≤
      st.in_base.length)
    (hkey : (keys env)[st.cur_key.getD 3]? = some key) :
    read_enc_string env st = Except.ok
      (add_string
        (decode_bytes key ((st.in_base.drop (enc_payload st.in_base st.in_offset)).take
          (enc_count st.in_base st.in_offset)))
        (in_skip (enc_count st.in_base st.in_offset)
          { st with in_offset := enc_payload st.in_base st.in_offset })) := by
  obtain ⟨r1, r2⟩ := read_slen_enc st true (by omega) hlt (by simp [hneg]) (by omega)
  simp only [if_true] at r2
  obtain ⟨s1, s2⟩ := to_signed_8_sign _ hlt
  unfold read_enc_string
  rw [r1, bind_ok_eq]
  dsimp only
  rw [if_neg (by rw [s1]; omega), if_pos (s2.mpr hneg), r2, bind_ok_eq]
  dsimp only
  rw [in_bytes_ok _ _ { st with in_offset := enc_payload st.in_base st.in_offset } hfit,
    bind_ok_eq]
  dsimp only [in_skip]
  rw [hkey]

/-- The branch `len > 0` of `read_enc_string`. -/
theorem read_enc_string_pos (env : Env) (st : State) (key : Nat → Nat)
    (hpos : enc_len st.in_base st.in_offset ≠ 0)
    (hlt : enc_len st.in_base st.in_offset < 128)
    (hfit : enc_payload st.in_base st.in_offset + 2 * enc_count st.in_base st.in_offset ≤
      st.in_base.length)
    (hwide : enc_count st.in_base st.in_offset ≤ 0x8000)
    (hkey : (keys env)[st.cur_key.getD 3]? = some key) :
    ∃ data, read_enc_string env st = Except.ok
      (add_string data
        (in_skip (enc_count st.in_base st.in_offset * 2)
          { st with in_offset := enc_payload st.in_base st.in_offset })) := by
  obtain ⟨r1, r2⟩ := read_slen_enc st false hpos (by omega) (by simp; omega) (by omega)
  simp only [if_false, Bool.false_eq_true] at r2
  obtain ⟨s1, s2⟩ := to_signed_8_sign (enc_len st.in_base st.in_offset) (by omega)
  unfold read_enc_string
  rw [r1, bind_ok_eq]
  dsimp only
  rw [if_pos (s1.mpr ⟨hpos, hlt⟩), r2, bind_ok_eq]
  dsimp only
  rw [in_bytes_ok _ _ { st with in_offset := enc_payload st.in_base st.in_offset } hfit,
    bind_ok_eq]
  dsimp only [in_skip]
  rw [if_neg (by omega), hkey]
  exact ⟨_, rfl⟩

theorem add_string_in_offset (data : List Nat) (st : State) :
    (add_string data st).2.in_offset = st.in_offset := by
  rw [add_string_eq]
  split <;> rfl

/-- The byte count of a string with a negative prefix, as the code has it. -/
theorem enc_count_neg (base : List Nat) (off : Nat) (hneg : 128 ≤ enc_len base off) :
    enc_count base off =
      if enc_len base off = 128 then le_value ((base.drop (off + 1)).take 4) % 2 ^ 16
      else 256 - enc_len base off := by
  unfold enc_count
  by_cases h : enc_len base off = 128
  · rw [if_pos (Or.inr h), if_pos h]
    rfl
  · rw [if_neg (by omega), if_neg (by omega), if_neg h]

/-- C18 (amended): let the prefix of the encrypted string at the cursor be negative (a
byte from 0x80 to 0xFF) and let `n` be the 32-bit integer behind the prefix reduced
modulo 2^16 when the prefix is -128, and the absolute value of the prefix otherwise; let
the `n` payload bytes lie inside the input and a key be selected. Then `read_enc_string`
returns, and what it interns with `add_string` is the string of exactly `n` bytes whose
byte at position `i` is `b_i XOR key[i] XOR ((0xAA + i) mod 256)`, with `b_i` the `i`-th
payload byte; the cursor is left behind the `n` payload bytes. -/
theorem read_enc_string_ascii (env : Env) (st : State) (key : Nat → Nat)
    (hneg : 128 ≤ enc_len st.in_base st.in_offset)
    (hlt : enc_len st.in_base st.in_offset < 256)
    (hfit : enc_payload st.in_base st.in_offset + enc_count st.in_base st.in_offset ≤
      st.in_base.length)
    (hkey : (keys env)[st.cur_key.getD 3]? = some key) :
    enc_count st.in_base st.in_offset =
      (if enc_len st.in_base st.in_offset = 128 then
        le_value ((st.in_base.drop (st.in_offset + 1)).take 4) % 2 ^ 16
      else 256 - enc_len st.in_base st.in_offset) ∧
    ∃ data, read_enc_string env st = Except.ok
        (add_string data (in_skip (enc_count st.in_base st.in_offset)
          { st with in_offset := enc_payload st.in_base st.in_offset })) ∧
      data.length = enc_count st.in_base st.in_offset ∧
      ∀ i b, i < enc_count st.in_base st.in_offset →
        st.in_base[enc_payload st.in_base st.in_offset + i]? = some b →
        data[i]? = some (b ^^^ key i ^^^ ((0xAA + i) % 256)) := by
  refine ⟨enc_count_neg _ _ hneg, _, read_enc_string_neg env st key hneg hlt hfit hkey, ?_, ?_⟩
  · rw [decode_bytes_length, List.length_take, List.length_drop]
    omega
  · intro i b hi hb
    rw [decode_bytes_getElem?, List.getElem?_take_of_lt hi, List.getElem?_drop, hb]
    rfl

theorem read_enc_string_ascii_witness :
    ((128 ≤ enc_len st_ascii.in_base st_ascii.in_offset ∧
      enc_payload st_ascii.in_base st_ascii.in_offset +
        enc_count st_ascii.in_base st_ascii.in_offset ≤ st_ascii.in_base.length ∧
      enc_count st_ascii.in_base st_ascii.in_offset = 2) ∧
    ∃ data, read_enc_string env_zero st_ascii = Except.ok
        (add_string data (in_skip (enc_count st_ascii.in_base st_ascii.in_offset)
          { st_ascii with in_offset := enc_payload st_ascii.in_base st_ascii.in_offset })) ∧
      data.length = enc_count st_ascii.in_base st_ascii.in_offset ∧
      ∀ i b, i < enc_count st_ascii.in_base st_ascii.in_offset →
        st_ascii.in_base[enc_payload st_ascii.in_base st_ascii.in_offset + i]? = some b →
        data[i]? = some (b ^^^ env_zero.key_bms i ^^^ ((0xAA + i) % 256))) ∧
    ((enc_len st_long.in_base st_long.in_offset = 128 ∧
      le_value ((st_long.in_base.drop (st_long.in_offset + 1)).take 4) = 65537 ∧
      enc_count st_long.in_base st_long.in_offset = 1) ∧
    ∃ data, read_enc_string env_zero st_long = Except.ok
        (add_string data (in_skip (enc_count st_long.in_base st_long.in_offset)
          { st_long with in_offset := enc_payload st_long.in_base st_long.in_offset })) ∧
      data.length = enc_count st_long.in_base st_long.in_offset ∧
      ∀ i b, i < enc_count st_long.in_base st_long.in_offset →
        st_long.in_base[enc_payload st_long.in_base st_long.in_offset + i]? = some b →
        data[i]? = some (b ^^^ env_zero.key_bms i ^^^ ((0xAA + i) % 256))) :=
  ⟨⟨⟨by decide, by decide, by decide⟩,
      (read_enc_string_ascii env_zero st_ascii env_zero.key_bms (by decide) (by decide)
        (by decide) rfl).2⟩,
    ⟨⟨by decide, by decide, by decide⟩,
      (read_enc_string_ascii env_zero st_long env_zero.key_bms (by decide) (by decide)
        (by decide) rfl).2⟩⟩

/-- C19 (counterexample): the input of `st_long` holds the prefix -128, the 32-bit
integer 65537 and one payload byte. `read_enc_string` returns with the count 1: it
interns the one-byte string `a` and leaves the cursor at 6 = 1 + 4 + 1, where the claim
has the count 65537 and the advance 1 + 4 + 65537. -/
theorem extended_count_is_truncated :
    st_long.in_base = [128, 1, 0, 1, 0, 203] ∧
    le_value ((st_long.in_base.drop 1).take 4) = 65537 ∧
    read_enc_string env_zero st_long =
      Except.ok (add_string [97] (in_seek 6 st_long)) ∧
    (ok_or (0, st_long) (read_enc_string env_zero st_long)).2.in_offset = 6 ∧
    (ok_or (0, st_long) (read_enc_string env_zero st_long)).2.strings = [[97]] := by
  refine ⟨?_, ?_, ?_, ?_, ?_⟩ <;> decide

/-- C19 (amended): let the encrypted string at the cursor have a non-zero prefix, lie
inside the input with its payload, have at most 0x8000 code units when the prefix is
positive, and let a key be selected. Then `read_enc_string` returns and leaves the cursor
at `enc_end`: the count is the following 32-bit integer reduced modulo `2^16` when the
prefix is -128 or 127, and the absolute value of the prefix otherwise with no extra
bytes read; the cursor advances by 1 + count for a negative and 1 + 2·count for a
positive prefix, plus 4 in the two extended cases. -/
theorem read_enc_string_advance (env : Env) (st : State) (key : Nat → Nat)
    (hpos : enc_len st.in_base st.in_offset ≠ 0)
    (hlt : enc_len st.in_base st.in_offset < 256)
    (hfit : enc_end st.in_base st.in_offset ≤ st.in_base.length)
    (hwide : enc_len st.in_base st.in_offset < 128 →
      enc_count st.in_base st.in_offset ≤ 0x8000)
    (h64 : st.in_base.length < 2 ^ 64)
    (hkey : (keys env)[st.cur_key.getD 3]? = some key) :
    (∃ id st', read_enc_string env st = Except.ok (id, st') ∧
      st'.in_offset = enc_end st.in_base st.in_offset) ∧
    enc_end st.in_base st.in_offset =
      st.in_offset + 1 +
        (if enc_len st.in_base st.in_offset = 127 ∨
            enc_len st.in_base st.in_offset = 128 then 4 else 0) +
        (if enc_len st.in_base st.in_offset < 128 then 2 * enc_count st.in_base st.in_offset
          else enc_count st.in_base st.in_offset) ∧
    enc_count st.in_base st.in_offset =
      (if enc_len st.in_base st.in_offset = 127 ∨
          enc_len st.in_base st.in_offset = 128 then
        le_value ((st.in_base.drop (st.in_offset + 1)).take 4) % 2 ^ 16
      else if enc_len st.in_base st.in_offset < 128 then enc_len st.in_base st.in_offset
      else 256 - enc_len st.in_base st.in_offset) := by
  refine ⟨?_, ?_, rfl⟩
  · by_cases hw : enc_len st.in_base st.in_offset < 128
    · have hf : enc_payload st.in_base st.in_offset + 2 * enc_count st.in_base st.in_offset ≤
          st.in_base.length := by
        unfold enc_end at hfit; rw [if_pos hw] at hfit; exact hfit
      obtain ⟨data, hd⟩ := read_enc_string_pos env st key hpos hw hf (hwide hw) hkey
      refine ⟨(add_string data _).1, (add_string data _).2, hd, ?_⟩
      rw [add_string_in_offset]
      unfold enc_end in_skip
      rw [if_pos hw]
      dsimp only
      omega
    · have hf : enc_payload st.in_base st.in_offset + enc_count st.in_base st.in_offset ≤
          st.in_base.length := by
        unfold enc_end at hfit; rw [if_neg hw] at hfit; exact hfit
      refine ⟨(add_string _ _).1, (add_string _ _).2,
        read_enc_string_neg env st key (by omega) hlt hf hkey, ?_⟩
      rw [add_string_in_offset]
      unfold enc_end in_skip
      rw [if_neg hw]
      dsimp only
      omega
  · unfold enc_end enc_payload
    split <;> split <;> omega

theorem read_enc_string_advance_witness :
    (enc_len st_wide.in_base st_wide.in_offset = 2 ∧
      enc_end st_wide.in_base st_wide.in_offset = 5 ∧
      ∃ id st', read_enc_string env_zero st_wide = Except.ok (id, st') ∧
        st'.in_offset = enc_end st_wide.in_base st_wide.in_offset) ∧
    (enc_len st_long.in_base st_long.in_offset = 128 ∧
      enc_end st_long.in_base st_long.in_offset = 6 ∧
      ∃ id st', read_enc_string env_zero st_long = Except.ok (id, st') ∧
        st'.in_offset = enc_end st_long.in_base st_long.in_offset) :=
  ⟨⟨by decide, by decide,
      (read_enc_string_advance env_zero st_wide env_zero.key_bms (by decide) (by decide)
        (by decide) (by decide) (by decide) rfl).1⟩,
    ⟨by decide, by decide,
      (read_enc_string_advance env_zero st_long env_zero.key_bms (by decide) (by decide)
        (by decide) (by decide) (by decide) rfl).1⟩⟩

theorem key_valid_iff (key : Nat → Nat) (os : List Nat) :
    key_valid key os = true ↔
      ∀ i b, os[i]? = some b →
        0x20 ≤ b ^^^ key i ^^^ ((0xAA + i) % 256) ∧ b ^^^ key i ^^^ ((0xAA + i) % 256) < 0x80 := by
  unfold key_valid
  rw [List.all_eq_true]
  constructor
  · intro h i b hb
    have hm : (b ^^^ key i ^^^ ((0xAA + i) % 256)) ∈ decode_bytes key os := by
      apply List.getElem?_mem (n := i)
      rw [decode_bytes_getElem?, hb]
      rfl
    simpa using h _ hm
  · intro h c hc
    obtain ⟨i, hi⟩ := List.getElem?_of_mem hc
    rw [decode_bytes_getElem?] at hi
    cases hb : os[i]? with
    | none => rw [hb] at hi; cases hi
    | some b =>
      rw [hb] at hi
      cases hi
      simpa using h i b hb

theorem deduce_loop_keys (os : List Nat) (a b c : Nat → Nat) :
    deduce_loop os [a, b, c] 0 Option.none =
      if key_valid c os = true then some 2
      else if key_valid b os = true then some 1
      else if key_valid a os = true then some 0
      else Option.none := by
  simp only [deduce_loop]

/-- The function `deduce_key` on an oracle string with a negative prefix. -/
theorem deduce_key_eq (env : Env) (st : State)
    (hneg : 128 ≤ enc_len st.in_base st.in_offset)
    (hlt : enc_len st.in_base st.in_offset < 256)
    (hfit : enc_payload st.in_base st.in_offset + enc_count st.in_base st.in_offset ≤
      st.in_base.length) :
    deduce_key env st =
      if deduce_loop ((st.in_base.drop (enc_payload st.in_base st.in_offset)).take
          (enc_count st.in_base st.in_offset)) (keys env) 0 Option.none = Option.none then
        Except.error Err.failed_to_identify_the_locale
      else
        Except.ok (in_skip (enc_count st.in_base st.in_offset)
          { st with in_offset := enc_payload st.in_base st.in_offset,
                    cur_key := deduce_loop
                      ((st.in_base.drop (enc_payload st.in_base st.in_offset)).take
                        (enc_count st.in_base st.in_offset)) (keys env) 0 Option.none }) := by
  obtain ⟨r1, r2⟩ := read_slen_enc st true (by omega) hlt (by simp [hneg]) (by omega)
  simp only [if_true] at r2
  obtain ⟨s1, s2⟩ := to_signed_8_sign _ hlt
  have s3 := s2.mpr hneg
  unfold deduce_key
  rw [r1, bind_ok_eq]
  dsimp only
  rw [if_neg (by omega), r2, bind_ok_eq]
  dsimp only
  rw [in_bytes_ok _ _ { st with in_offset := enc_payload st.in_base st.in_offset } hfit,
    bind_ok_eq]

/-- C20 (amended): let the oracle string at the cursor have a negative prefix, let `n`
be the 32-bit integer behind the prefix reduced modulo 2^16 when the prefix is -128 and
the absolute value of the prefix otherwise, and let the first `n` payload bytes `b_i`,
`i < n`, lie inside the input. A candidate key is valid exactly when every one of these
`n` decoded bytes `b_i XOR key[i] XOR ((0xAA + i) mod 256)` is at least 0x20 and below
0x80; `deduce_key` selects the last valid key in the order (`key_bms`, `key_gms`,
`key_kms`) and leaves the cursor behind the `n` bytes; and it raises "Failed to identify
the locale" exactly when none of the three keys is valid. -/
theorem deduce_key_spec (env : Env) (st : State)
    (hneg : 128 ≤ enc_len st.in_base st.in_offset)
    (hlt : enc_len st.in_base st.in_offset < 256)
    (hfit : enc_payload st.in_base st.in_offset + enc_count st.in_base st.in_offset ≤
      st.in_base.length) :
    enc_count st.in_base st.in_offset =
      (if enc_len st.in_base st.in_offset = 128 then
        le_value ((st.in_base.drop (st.in_offset + 1)).take 4) % 2 ^ 16
      else 256 - enc_len st.in_base st.in_offset) ∧
    (enc_bytes st.in_base st.in_offset).length = enc_count st.in_base st.in_offset ∧
    (∀ key, key_valid key (enc_bytes st.in_base st.in_offset) = true ↔
      ∀ i b, (enc_bytes st.in_base st.in_offset)[i]? = some b →
        0x20 ≤ b ^^^ key i ^^^ ((0xAA + i) % 256) ∧
          b ^^^ key i ^^^ ((0xAA + i) % 256) < 0x80) ∧
    (∀ i, i < enc_count st.in_base st.in_offset →
      (enc_bytes st.in_base st.in_offset)[i]? =
        st.in_base[enc_payload st.in_base st.in_offset + i]?) ∧
    deduce_key env st =
      (if key_valid env.key_kms (enc_bytes st.in_base st.in_offset) = true then
        Except.ok (key_selected st 2)
      else if key_valid env.key_gms (enc_bytes st.in_base st.in_offset) = true then
        Except.ok (key_selected st 1)
      else if key_valid env.key_bms (enc_bytes st.in_base st.in_offset) = true then
        Except.ok (key_selected st 0)
      else Except.error Err.failed_to_identify_the_locale) ∧
    (deduce_key env st = Except.error Err.failed_to_identify_the_locale ↔
      key_valid env.key_bms (enc_bytes st.in_base st.in_offset) = false ∧
      key_valid env.key_gms (enc_bytes st.in_base st.in_offset) = false ∧
      key_valid env.key_kms (enc_bytes st.in_base st.in_offset) = false) := by
  have hd := deduce_key_eq env st hneg hlt hfit
  rw [keys, deduce_loop_keys] at hd
  have hmain : deduce_key env st =
      (if key_valid env.key_kms (enc_bytes st.in_base st.in_offset) = true then
        Except.ok (key_selected st 2)
      else if key_valid env.key_gms (enc_bytes st.in_base st.in_offset) = true then
        Except.ok (key_selected st 1)
      else if key_valid env.key_bms (enc_bytes st.in_base st.in_offset) = true then
        Except.ok (key_selected st 0)
      else Except.error Err.failed_to_identify_the_locale) := by
    rw [hd]
    unfold enc_bytes key_selected
    split
    · rfl
    · split
      · rfl
      · split
        · rfl
        · rfl
  refine ⟨enc_count_neg _ _ hneg, ?_, fun key => key_valid_iff key _, ?_, hmain, ?_⟩
  · unfold enc_bytes
    rw [List.length_take, List.length_drop]
    omega
  · intro i hi
    unfold enc_bytes
    rw [List.getElem?_take_of_lt hi, List.getElem?_drop]
  · rw [hmain]
    cases key_valid env.key_kms (enc_bytes st.in_base st.in_offset) <;>
      cases key_valid env.key_gms (enc_bytes st.in_base st.in_offset) <;>
      cases key_valid env.key_bms (enc_bytes st.in_base st.in_offset) <;>
      simp

theorem deduce_key_spec_witness :
    (128 ≤ enc_len st_oracle.in_base st_oracle.in_offset ∧
      key_valid env_last_bad.key_bms (enc_bytes st_oracle.in_base st_oracle.in_offset) = true ∧
      key_valid env_last_bad.key_gms (enc_bytes st_oracle.in_base st_oracle.in_offset) = true ∧
      key_valid env_last_bad.key_kms (enc_bytes st_oracle.in_base st_oracle.in_offset) = false ∧
      deduce_key env_last_bad st_oracle = Except.ok (key_selected st_oracle 1)) ∧
    (128 ≤ enc_len st_oracle_bad.in_base st_oracle_bad.in_offset ∧
      deduce_key env_none st_oracle_bad = Except.error Err.failed_to_identify_the_locale) ∧
    (enc_len st_long.in_base st_long.in_offset = 128 ∧
      le_value ((st_long.in_base.drop (st_long.in_offset + 1)).take 4) = 65537 ∧
      enc_bytes st_long.in_base st_long.in_offset = [203] ∧
      deduce_key env_last_bad st_long = Except.ok (key_selected st_long 1)) :=
  ⟨⟨by decide, by decide, by decide, by decide,
      (deduce_key_spec env_last_bad st_oracle (by decide) (by decide)
        (by decide)).2.2.2.2.1⟩,
    ⟨by decide,
      (deduce_key_spec env_none st_oracle_bad (by decide) (by decide)
        (by decide)).2.2.2.2.2.mpr ⟨by decide, by decide, by decide⟩⟩,
    ⟨by decide, by decide, by decide,
      (deduce_key_spec env_last_bad st_long (by decide) (by decide)
        (by decide)).2.2.2.2.1⟩⟩

/-! ### Property strings and the dispatch of `extended_property` -/

/-- C21: let `a` be the tag at the cursor. On the tag 0x00 or 0x73 `read_prop_string`
is `read_enc_string` at the byte behind the tag. On the tag 0x01 or 0x1B, with four more
bytes in the input, it decodes the string at `offset` plus the sign-extended 32-bit
integer that follows the tag: it returns the ID that `read_enc_string` returns there and
puts the cursor 5 bytes behind where it started, wherever the decoding ended, and it
fails where that decoding fails. On every other tag it fails with "Unknown property
string type". -/
theorem read_prop_string_spec (env : Env) (offset : Nat) (st : State) (a : Nat)
    (ha : st.in_base[st.in_offset]? = some a) :
    ((a = 0x00 ∨ a = 0x73) →
      read_prop_string env offset st =
        read_enc_string env { st with in_offset := st.in_offset + 1 }) ∧
    ((a = 0x01 ∨ a = 0x1B) → st.in_offset + 5 ≤ st.in_base.length →
      st.in_base.length < 2 ^ 64 →
      (∀ s st3,
        read_enc_string env
          (in_seek ((to_unsigned 64 (to_signed 32
              (le_value ((st.in_base.drop (st.in_offset + 1)).take 4))) + offset) % 2 ^ 64)
            { st with in_offset := st.in_offset + 5 }) = Except.ok (s, st3) →
        read_prop_string env offset st =
          Except.ok (s, { st3 with in_offset := st.in_offset + 5 })) ∧
      (∀ e,
        read_enc_string env
          (in_seek ((to_unsigned 64 (to_signed 32
              (le_value ((st.in_base.drop (st.in_offset + 1)).take 4))) + offset) % 2 ^ 64)
            { st with in_offset := st.in_offset + 5 }) = Except.error e →
        read_prop_string env offset st = Except.error e)) ∧
    (¬ (a = 0x00 ∨ a = 0x73 ∨ a = 0x01 ∨ a = 0x1B) →
      read_prop_string env offset st = Except.error Err.unknown_property_string_type) := by
  unfold read_prop_string
  rw [in_read_one st a ha, bind_ok_eq]
  dsimp only
  refine ⟨fun h => ?_, fun h h5 h64 => ⟨fun s st3 hs => ?_, fun e he => ?_⟩, fun h => ?_⟩
  · rw [if_pos h]
  · rw [if_neg (by omega), if_pos h, in_read_ok 4 _ (by dsimp only; omega), bind_ok_eq]
    dsimp only [in_tell] at hs ⊢
    rw [hs, bind_ok_eq]
    dsimp only [in_seek]
    rw [Nat.mod_eq_of_lt (by omega)]
  · rw [if_neg (by omega), if_pos h, in_read_ok 4 _ (by dsimp only; omega), bind_ok_eq]
    dsimp only [in_tell] at he ⊢
    rw [he, bind_error_eq]
  · rw [if_neg (by omega), if_neg (by omega)]

theorem read_prop_string_spec_witness :
    st_indirect.in_base[st_indirect.in_offset]? = some 1 ∧
    st_indirect.in_offset + 5 ≤ st_indirect.in_base.length ∧
    read_prop_string env_zero 0 st_indirect =
      Except.ok (0, { (add_string [97, 98] st_indirect).2 with in_offset := 5 }) :=
  ⟨by decide, by decide,
    ((read_prop_string_spec env_zero 0 st_indirect 1 (by decide)).2.1 (Or.inl rfl)
      (by decide) (by decide)).1 0 (in_seek 9 (add_string [97, 98] st_indirect).2)
      (by decide)⟩

/-- C22 (the code at failing inputs): the test `!strncmp(st.data, "Property", st.size)`
compares only the first `st.size` bytes, so it holds for the type name `Prop` and for the
empty type name; a type name that begins another literal passes the test of that
literal. In `wz_prop` the child `c` has the type name `Prop`, in `wz_noname` the empty
type name: both times the parser returns and `c` (index 2) has got the child `x` = 7 of
the `Property` branch, where "Unknown sub property type" is due. -/
theorem extended_property_accepts_shorter_name :
    type_is [80, 114, 111, 112] "Property" = true ∧
    type_is [] "Property" = true ∧
    type_is [67, 97] "Canvas" = true ∧
    type_is [83, 104, 97, 112, 101, 50, 68, 35] "Shape2D#Vector2D" = true ∧
    type_is [83, 111] "Sound_DX8" = true ∧
    type_is [85] "UOL" = true ∧
    (wztonx_parse env_zero 20 wz_prop).map (fun st => (st.nodes, st.strings)) =
      Except.ok ([⟨0, 1, 1, node_type.none, 0⟩, ⟨1, 2, 1, node_type.none, 0⟩,
                  ⟨2, 3, 1, node_type.none, 0⟩, ⟨4, 0, 0, node_type.integer, 7⟩],
                 [[], [97], [99], [80, 114, 111, 112], [120]]) ∧
    (wztonx_parse env_zero 20 wz_noname).map (fun st => (st.nodes, st.strings)) =
      Except.ok ([⟨0, 1, 1, node_type.none, 0⟩, ⟨1, 2, 1, node_type.none, 0⟩,
                  ⟨2, 3, 1, node_type.none, 0⟩, ⟨3, 0, 0, node_type.integer, 7⟩],
                 [[], [97], [99], [120]]) := by
  refine ⟨?_, ?_, ?_, ?_, ?_, ?_, ?_, ?_⟩ <;> decide

/-- C23 (the code at a failing input): in `wz_convex` the child `p` (index 2) has the
extended type `Shape2D#Convex2D` with two elements, the vectors (1, 2) and (3, 4). The
parser appends two nodes named `0` and `1` (indices 3 and 4) and registers the range
(3, 2) for sorting, but `p` keeps `children = 0` and `num = 0`; both elements are parsed
into node 3, which ends as the vector (3, 4), and node 4 stays without data. -/
theorem convex_leaves_parent_without_children :
    (wztonx_parse env_zero 20 wz_convex).map
        (fun st => (st.nodes, st.strings, st.nodes_to_sort)) =
      Except.ok ([⟨0, 1, 1, node_type.none, 0⟩, ⟨1, 2, 1, node_type.none, 0⟩,
                  ⟨2, 0, 0, node_type.none, 0⟩,
                  ⟨4, 0, 0, node_type.vector, 4 * 2 ^ 32 + 3⟩,
                  ⟨6, 0, 0, node_type.none, 0⟩],
                 [[], [97], [112],
                  [83, 104, 97, 112, 101, 50, 68, 35, 67, 111, 110, 118, 101, 120, 50, 68],
                  [48],
                  [83, 104, 97, 112, 101, 50, 68, 35, 86, 101, 99, 116, 111, 114, 50, 68],
                  [49]],
                 [(1, 1), (3, 2), (2, 1)]) := by
  decide

/-! ### Frame of an extended child, of a failed link and of sorting -/

/-- C25: let the child `c` of `sub_property` have the name read into `st1`, the tag 0x09
at the cursor of `st1` and four more bytes for the block length `L` behind it, and let
`extended_property` return any state `st5` on the state at the start of the block. Then
the child is processed without error and leaves the cursor at `L` plus the position just
behind the block length, as a 64-bit value, whatever the cursor of `st5` is; this is the
position behind the block length plus `L` whenever that sum is a position. The block
length is read before `in::tell()` is taken. -/
theorem extended_child_resumes (env : Env) (ext : State → Except Err State)
    (offset c i : Nat) (st : State) (name : Nat) (st1 st5 : State)
    (hc : c < st.nodes.length)
    (h1 : read_prop_string env offset st = Except.ok (name, st1))
    (htag : st1.in_base[st1.in_offset]? = some 0x09)
    (hlen : st1.in_offset + 5 ≤ st1.in_base.length)
    (hext : ext { set_name c name st1 with in_offset := st1.in_offset + 5 } = Except.ok st5) :
    sub_property_child env ext offset c i st =
      Except.ok (in_seek ((to_unsigned 64 (to_signed 32
        (le_value ((st1.in_base.drop (st1.in_offset + 1)).take 4))) +
          (st1.in_offset + 5)) % 2 ^ 64) st5) ∧
    (in_seek ((to_unsigned 64 (to_signed 32
        (le_value ((st1.in_base.drop (st1.in_offset + 1)).take 4))) +
          (st1.in_offset + 5)) % 2 ^ 64) st5).in_offset =
      (to_unsigned 64 (to_signed 32
        (le_value ((st1.in_base.drop (st1.in_offset + 1)).take 4))) +
          (st1.in_offset + 5)) % 2 ^ 64 ∧
    (∀ p : Nat, (p : Int) = ((st1.in_offset + 5 : Nat) : Int) +
        to_signed 32 (le_value ((st1.in_base.drop (st1.in_offset + 1)).take 4)) →
      p < 2 ^ 64 →
      (to_unsigned 64 (to_signed 32
        (le_value ((st1.in_base.drop (st1.in_offset + 1)).take 4))) +
          (st1.in_offset + 5)) % 2 ^ 64 = p) := by
  refine ⟨?_, ?_, ?_⟩
  · unfold sub_property_child
    rw [if_pos hc, h1, bind_ok_eq]
    dsimp only
    have htag' : (set_name c name st1).in_base[(set_name c name st1).in_offset]? = some 0x09 :=
      htag
    rw [in_read_one _ _ htag', bind_ok_eq]
    dsimp only
    rw [if_neg (by decide), if_neg (by decide), if_neg (by decide), if_neg (by decide),
      if_neg (by decide), if_neg (by decide), if_pos rfl]
    rw [in_read_ok 4 _ (by
      show st1.in_offset + 1 + 4 ≤ st1.in_base.length
      omega), bind_ok_eq]
    dsimp only [in_tell]
    have e : st1.in_offset + 1 + 4 = st1.in_offset + 5 := by omega
    have hext' : ext { set_name c name st1 with in_offset := st1.in_offset + 1 + 4 } =
        Except.ok st5 := by rw [e]; exact hext
    erw [hext']
    rw [bind_ok_eq, e]
    rfl
  · unfold in_seek
    dsimp only
    exact Nat.mod_mod _ _
  · intro p hp hlt
    unfold to_unsigned
    omega

theorem extended_child_resumes_witness :
    (2 < st_child_sound.nodes.length ∧
      read_prop_string env_zero 28 st_child_sound = Except.ok (2, st_name_sound) ∧
      st_name_sound.in_base[st_name_sound.in_offset]? = some 0x09 ∧
      extended_property env_zero 20 2 28
          { set_name 2 2 st_name_sound with in_offset := st_name_sound.in_offset + 5 } =
        Except.ok st_ext_sound ∧
      st_name_sound.in_offset + 5 = 42 ∧ st_ext_sound.in_offset = 53) ∧
    sub_property_child env_zero (extended_property env_zero 20 2 28) 28 2 0 st_child_sound =
      Except.ok (in_seek 58 st_ext_sound) :=
  ⟨⟨by decide, by decide, by decide, by decide, by decide, by decide⟩,
    (extended_child_resumes env_zero (extended_property env_zero 20 2 28) 28 2 0
      st_child_sound 2 st_name_sound st_ext_sound (by decide) (by decide) (by decide)
      (by decide) (by decide)).1⟩

/-- C27 (the code at a failing input): in `wz_clobber` the link (index 3, string `x/foo`)
is resolved below the image `a`. The walk finds `x` (index 2) and gets stuck there, and
the assignment `n.data_type = node::type::none` goes to the node of the walk: `x`, which
is not the link, loses its data type `integer`, and the link itself is unchanged. -/
theorem resolve_uols_changes_other_node :
    st_link_clobber.nodes =
      [⟨0, 1, 1, node_type.none, 0⟩, ⟨1, 2, 2, node_type.none, 0⟩,
       ⟨2, 0, 0, node_type.integer, 7⟩, ⟨3, 0, 0, node_type.uol, 5⟩] ∧
    st_link_clobber.strings[5]? = some [120, 47, 102, 111, 111] ∧
    (resolve_uols 1 3 st_link_clobber).map (fun st => st.nodes) =
      Except.ok [⟨0, 1, 1, node_type.none, 0⟩, ⟨1, 2, 2, node_type.none, 0⟩,
                 ⟨2, 0, 0, node_type.none, 7⟩, ⟨3, 0, 0, node_type.uol, 5⟩] ∧
    (ok_state (resolve_uols 1 3 st_link_clobber)).nodes[2]? ≠ st_link_clobber.nodes[2]? := by
  refine ⟨?_, ?_, ?_, ?_⟩ <;> decide

theorem drop_take_append (l : List node) (first count : Nat) :
    l = l.take first ++ ((l.drop first).take count ++ l.drop (first + count)) := by
  rw [← List.drop_drop, List.take_append_drop, List.take_append_drop]

/-- The part of a table outside of a replaced range. -/
theorem node_range_outside (l r : List node) (first count a m : Nat)
    (h : first + count ≤ l.length) (hr : r.length = count)
    (ha : a + m ≤ first ∨ first + count ≤ a) :
    node_range a m (l.take first ++ r ++ l.drop (first + count)) = node_range a m l := by
  apply List.ext_getElem?
  intro k
  unfold node_range
  rw [List.getElem?_take, List.getElem?_take]
  split
  · rename_i hk
    rw [List.getElem?_drop, List.getElem?_drop]
    have hl : (l.take first).length = first := by simp; omega
    rcases ha with ha | ha
    · rw [List.append_assoc, List.getElem?_append_left (by omega),
        List.getElem?_take_of_lt (by omega)]
    · rw [List.getElem?_append_right (by simp; omega)]
      simp only [List.length_append, hl, hr, List.getElem?_drop]
      congr 1
      omega
  · rfl

/-- C28 (amended): whenever `sort_nodes(first, count)` returns, the table has the same
length and the strings are the same; every node at an index outside of
`[first, first+count)` is unchanged; the nodes inside are a permutation of the records
that were there, each with its own name, children, num, data type and payload; and a child
range `(a, m)` that is the sorted range or lies apart from it (`a + m ≤ first` or
`first + count ≤ a`) covers the same records as before. It does return when the range lies
inside the table and its names are valid, pairwise distinct and free of zero bytes. -/
theorem sort_nodes_frame (first count : Nat) (st : State) :
    (∀ st', sort_nodes first count st = Except.ok st' →
      st'.nodes.length = st.nodes.length ∧ st'.strings = st.strings ∧
      (∀ i, i < first ∨ first + count ≤ i → st'.nodes[i]? = st.nodes[i]?) ∧
      (node_range first count st'.nodes).Perm (node_range first count st.nodes) ∧
      (∀ a m, a + m ≤ first ∨ first + count ≤ a →
        node_range a m st'.nodes = node_range a m st.nodes)) ∧
    (first + count ≤ st.nodes.length →
      (∀ n ∈ node_range first count st.nodes, n.name < st.strings.length) →
      (∀ n ∈ node_range first count st.nodes, 0 ∉ node_name st.strings n) →
      (node_range first count st.nodes).Pairwise
        (fun a b => node_name st.strings a ≠ node_name st.strings b) →
      ∃ st', sort_nodes first count st = Except.ok st') := by
  refine ⟨fun st' h => ?_, fun hrange hvalid hnul hdistinct => ?_⟩
  · have hperm := sort_nodes_perm h
    unfold sort_nodes at h
    split at h
    · rename_i hrange
      obtain ⟨r, h1, h2⟩ := bind_eq_ok h
      cases h2
      have hp := std_sort_perm _ _ _ h1
      have hr : r.length = count := by
        rw [hp.length_eq, List.length_take, List.length_drop]; omega
      have hl : (st.nodes.take first).length = first := by simp; omega
      refine ⟨hperm.length_eq, rfl, fun i hi => ?_, ?_, fun a m ha => ?_⟩
      · have := node_range_outside st.nodes r first count i 1 hrange hr
          (by rcases hi with hi | hi
              · exact Or.inl (by omega)
              · exact Or.inr hi)
        have e1 := congrArg (fun l => l[0]?) this
        simp only [node_range, List.getElem?_take_of_lt (Nat.zero_lt_one),
          List.getElem?_drop, Nat.add_zero] at e1
        exact e1
      · dsimp only
        have e : node_range first count (st.nodes.take first ++ r ++
            st.nodes.drop (first + count)) = r := by
          unfold node_range
          rw [List.append_assoc, List.drop_left' hl, List.take_left' hr]
        rw [e]
        exact hp
      · exact node_range_outside st.nodes r first count a m hrange hr ha
    · cases h
  · have hcomp : (node_range first count st.nodes).Pairwise
        (fun a b => node_lt st.strings a b ∨ node_lt st.strings b a) := by
      refine List.Pairwise.imp_of_mem ?_ hdistinct
      intro a b ha hb hne
      unfold node_lt name_lt
      rw [c_str_of_not_mem _ (hnul a ha), c_str_of_not_mem _ (hnul b hb)]
      rcases lt_trichotomy (node_name st.strings a) (node_name st.strings b) with h | h | h
      · exact Or.inl (Or.inl h)
      · exact absurd h hne
      · exact Or.inr (Or.inl h)
    obtain ⟨r, hr, _, _⟩ := (std_sort_spec st.strings _ hvalid).1 hcomp
    unfold sort_nodes
    rw [if_pos hrange]
    unfold node_range at hr
    rw [hr, bind_ok_eq]
    exact ⟨_, rfl⟩

theorem sort_nodes_frame_witness :
    (2 + 2 ≤ st_simple.nodes.length ∧
      st_simple.nodes = [⟨0, 1, 1, node_type.none, 0⟩, ⟨1, 2, 2, node_type.none, 0⟩,
        ⟨2, 0, 0, node_type.integer, 7⟩, ⟨3, 0, 0, node_type.uol, 2⟩]) ∧
    ∃ st', sort_nodes 2 2 st_simple = Except.ok st' ∧
      st'.nodes.length = st_simple.nodes.length ∧
      (node_range 2 2 st'.nodes).Perm (node_range 2 2 st_simple.nodes) ∧
      st'.nodes[0]? = st_simple.nodes[0]? ∧ st'.nodes[1]? = st_simple.nodes[1]? := by
  obtain ⟨st', h⟩ := (sort_nodes_frame 2 2 st_simple).2 (by decide) (by decide) (by decide)
    (by decide)
  obtain ⟨h1, _, h3, h4, _⟩ := (sort_nodes_frame 2 2 st_simple).1 st' h
  exact ⟨⟨by decide, by decide⟩, st', h, h1, h4, h3 0 (Or.inl (by decide)),
    h3 1 (Or.inl (by decide))⟩

/-! ### Termination of `resolve_uols` -/

/-- On a string of 65535 slashes the loop that cuts the link string never ends: every
round is at an even index below 65535, finds a slash there, and goes on two bytes
further, from 65534 to 0 as a 16-bit value. -/
theorem uol_path_loop_slashes :
    ∀ (fuel i b : Nat) (path : List (List Nat)), i % 2 = 0 → i < 65536 →
      (i = 0 ∨ i = b + 1) →
      uol_path_loop (List.replicate 65535 47) fuel i b path = Except.error Err.out_of_fuel := by
  intro fuel
  induction fuel with
  | zero => intro i b path _ _ _; rfl
  | succ fuel ih =>
    intro i b path h2 hlt hb
    have hi : i < 65535 := by omega
    rw [uol_path_loop]
    rw [if_pos (by rw [List.length_replicate]; exact hi)]
    have hg : (List.replicate 65535 47).getD i 0 = 47 := by
      rw [List.getD_eq_getElem?_getD, List.getElem?_replicate, if_pos hi]
      rfl
    rw [if_pos hg, if_neg (by omega)]
    exact ih _ _ _ (by omega) (Nat.mod_lt _ (by decide)) (by omega)

theorem resolve_children_path (call : Nat → State → Except Err State)
    (hcall : ∀ c s s', call c s = Except.ok s' → s'.resolve_path = s.resolve_path)
    (u : Nat) :
    ∀ (k i : Nat) (st st' : State), resolve_children call u k i st = Except.ok st' →
      st'.resolve_path = st.resolve_path := by
  intro k
  induction k with
  | zero =>
    intro i st st' h
    simp [resolve_children] at h
  | succ k ih =>
    intro i st st' h
    rw [resolve_children] at h
    split at h
    · cases h
    · split at h
      · obtain ⟨st1, h1, h2⟩ := bind_eq_ok h
        rw [ih _ _ _ h2, hcall _ _ _ h1]
      · cases h; rfl

/-- Whenever `resolve_uols` returns, the stack `resolve_path` is what it was. -/
theorem resolve_uols_path :
    ∀ (fuel u : Nat) (st st' : State), resolve_uols fuel u st = Except.ok st' →
      st'.resolve_path = st.resolve_path := by
  intro fuel
  induction fuel with
  | zero =>
    intro u st st' h
    simp [resolve_uols] at h
  | succ fuel ih =>
    intro u st st' h
    rw [resolve_uols] at h
    split at h
    · cases h
    · rename_i n hn
      split at h
      · split at h
        · cases h
        · obtain ⟨path, _, h2⟩ := bind_eq_ok h
          obtain ⟨r, _, h4⟩ := bind_eq_ok h2
          split at h4
          · split at h4
            · cases h4
            · cases h4; rfl
          · split at h4
            · cases h4
            · cases h4; rfl
      · obtain ⟨st1, h1, h2⟩ := bind_eq_ok h
        obtain ⟨st2, h3, h4⟩ := bind_eq_ok h2
        have e2 := resolve_children_path _ (fun c s s' hs => ih c s s' hs) _ _ _ _ _ h3
        unfold resolve_push at h1
        unfold resolve_pop at h4
        by_cases hu : u = 0
        · rw [if_neg (by simpa using hu)] at h1 h4
          cases h1; cases h4; exact e2
        · rw [if_pos hu] at h1 h4
          split at h1
          · cases h1
          · cases h1
            split at h4
            · cases h4
            · cases h4
              dsimp only at e2 ⊢
              rw [e2, List.dropLast_concat]

/-- C29 (the code at a failing input): in `st_slashes` the root has one child, a link
whose string consists of 65535 slashes; the child ranges form a tree and the string has
no `..` segment. The loop of `resolve_uols` that cuts the string at slashes steps from
index 65534 to `65534 + 2`, which is 0 in the 16-bit loop variable, and starts over: no
number of rounds ends it, so `resolve_uols(0)` does not return, whatever the fuel. -/
theorem resolve_uols_loops_forever :
    st_slashes.nodes = [⟨0, 1, 1, node_type.none, 0⟩, ⟨2, 0, 0, node_type.uol, 1⟩] ∧
    st_slashes.strings[1]? = some (List.replicate 65535 47) ∧
    (∀ (fuel : Nat) (path : List (List Nat)),
      uol_path_loop (List.replicate 65535 47) fuel 0 0 path =
        Except.error Err.out_of_fuel) ∧
    (∀ fuel, resolve_uols fuel 1 st_slashes = Except.error Err.out_of_fuel) ∧
    (∀ fuel, resolve_uols fuel 0 st_slashes = Except.error Err.out_of_fuel) := by
  have hloop : ∀ (fuel : Nat) (path : List (List Nat)),
      uol_path_loop (List.replicate 65535 47) fuel 0 0 path =
        Except.error Err.out_of_fuel :=
    fun fuel path => uol_path_loop_slashes fuel 0 0 path rfl (by decide) (Or.inl rfl)
  have h1 : ∀ fuel, resolve_uols fuel 1 st_slashes = Except.error Err.out_of_fuel := by
    intro fuel
    cases fuel with
    | zero => rfl
    | succ fuel =>
      rw [resolve_uols]
      have e1 : st_slashes.nodes[1]? = some ⟨2, 0, 0, node_type.uol, 1⟩ := rfl
      have e2 : st_slashes.strings[(1 : Nat) % 2 ^ 32]? = some (List.replicate 65535 47) := rfl
      simp only [e1, if_true, e2, uol_path, hloop, bind_error_eq]
  refine ⟨rfl, rfl, hloop, h1, ?_⟩
  intro fuel
  cases fuel with
  | zero => rfl
  | succ fuel =>
    rw [resolve_uols]
    have e0 : st_slashes.nodes[0]? = some ⟨0, 1, 1, node_type.none, 0⟩ := rfl
    simp only [e0, resolve_push]
    rw [if_neg (by decide), if_neg (by decide), bind_ok_eq]
    show (resolve_children (resolve_uols fuel) 0 (65535 + 1) 0 st_slashes >>= _) = _
    rw [resolve_children]
    simp only [e0]
    rw [if_pos (by decide)]
    have e3 : (1 + 0) % 2 ^ 32 = 1 := rfl
    rw [e3, h1 fuel]
    rfl

/-! ### The key and the queues during the parse of an image -/

theorem add_string_nodes (data : List Nat) (st : State) :
    (add_string data st).2.nodes = st.nodes :=
  interns_nodes (interns_add_string rfl)

/-- The extended byte string with the count 65537 at the start of an input. -/
theorem enc_cut (b : Nat) (F : List Nat) (st : State)
    (hb : st.in_base = [128, 1, 0, 1, 0, b] ++ F) (ho : st.in_offset = 0) :
    enc_len st.in_base st.in_offset = 128 ∧
    enc_payload st.in_base st.in_offset = 5 ∧
    enc_count st.in_base st.in_offset = 1 ∧
    le_value ((st.in_base.drop (st.in_offset + 1)).take 4) = 65537 ∧
    (st.in_base.drop 5).take 1 = [b] ∧
    5 + 1 ≤ st.in_base.length ∧
    st.in_base.length = st.in_offset + 1 + 4 + (1 + F.length) ∧
    st.in_base[st.in_offset + 1 + 4 + 1]? = F[0]? := by
  rw [hb, ho]
  have e1 : enc_len ([128, 1, 0, 1, 0, b] ++ F) 0 = 128 := rfl
  have e2 : (([128, 1, 0, 1, 0, b] ++ F).drop (0 + 1)).take 4 = [1, 0, 1, 0] := rfl
  have e3 : le_value [1, 0, 1, 0] = 65537 := by norm_num [le_value]
  refine ⟨e1, ?_, ?_, ?_, rfl, ?_, ?_, ?_⟩
  · unfold enc_payload
    rw [e1]
    rfl
  · unfold enc_count
    rw [e1, e2, e3]
    rfl
  · rw [e2, e3]
  · simp
  · simp
    omega
  · rw [List.getElem?_append_right (by simp)]
    rfl

theorem read_enc_string_cut (b : Nat) (F : List Nat) (st : State)
    (hb : st.in_base = [128, 1, 0, 1, 0, b] ++ F) (ho : st.in_offset = 0)
    (hk : st.cur_key = some 0) :
    read_enc_string env_zero st = Except.ok
      (add_string (decode_bytes env_zero.key_bms [b])
        (in_skip 1 { st with in_offset := 5 })) := by
  obtain ⟨h1, h2, h3, _, h5, h6, _, _⟩ := enc_cut b F st hb ho
  have h := read_enc_string_neg env_zero st env_zero.key_bms (by omega) (by omega)
    (by rw [h2, h3]; exact h6) (by rw [hk]; rfl)
  rw [h2, h3, h5] at h
  exact h

theorem deduce_key_cut (b : Nat) (F : List Nat) (st : State)
    (hb : st.in_base = [128, 1, 0, 1, 0, b] ++ F) (ho : st.in_offset = 0)
    (hv : key_valid env_zero.key_kms [b] = true) :
    deduce_key env_zero st = Except.ok (key_selected st 2) ∧
    (key_selected st 2).in_offset = 6 ∧ (key_selected st 2).cur_key = some 2 := by
  obtain ⟨h1, h2, h3, _, h5, h6, _, _⟩ := enc_cut b F st hb ho
  have h := deduce_key_eq env_zero st (by omega) (by omega) (by rw [h2, h3]; exact h6)
  rw [keys, deduce_loop_keys, h2, h3, h5, if_pos hv] at h
  refine ⟨?_, ?_, ?_⟩
  · rw [h]
    unfold key_selected
    rw [h2, h3]
    simp
  · unfold key_selected in_skip
    rw [h2, h3]
    rfl
  · rfl

/-- C18 (counterexample): the input of `st_cut` holds the prefix -128, the 32-bit integer
65537 and then 65537 payload bytes, all inside the input. `read_enc_string` returns and
interns the string of one byte `a`, the first payload byte decoded, not a string of 65537
bytes; the cursor is left behind the first payload byte. -/
theorem long_string_is_cut :
    st_cut.in_base = [128, 1, 0, 1, 0, 203] ++ List.replicate 65536 203 ∧
    enc_len st_cut.in_base st_cut.in_offset = 128 ∧
    le_value ((st_cut.in_base.drop (st_cut.in_offset + 1)).take 4) = 65537 ∧
    st_cut.in_offset + 1 + 4 + 65537 = st_cut.in_base.length ∧
    read_enc_string env_zero st_cut = Except.ok (add_string [97] (in_seek 6 st_cut)) ∧
    (add_string [97] (in_seek 6 st_cut)).2.strings = [[97]] ∧
    ([97] : List Nat).length ≠ 65537 := by
  obtain ⟨h1, _, _, h4, _, _, h7, _⟩ :=
    enc_cut 203 (List.replicate 65536 203) st_cut rfl rfl
  refine ⟨rfl, h1, h4, ?_, read_enc_string_cut 203 (List.replicate 65536 203) st_cut rfl rfl rfl,
    ?_, by decide⟩
  · rw [h7, List.length_replicate]
  · rw [add_string_eq]
    rfl

/-- C20 (counterexample): the input of `st_oracle_cut` holds an oracle string with the
prefix -128, the 32-bit integer 65537 and then 65537 payload bytes, all inside the input;
under each of the three zero keys the second payload byte decodes to the control character
1. `deduce_key` does not raise "Failed to identify the locale": it tests the first payload
byte only, returns with the third key selected and leaves the cursor behind the first
payload byte. -/
theorem oracle_is_cut :
    st_oracle_cut.in_base = [128, 1, 0, 1, 0, 203, 170] ++ List.replicate 65535 203 ∧
    enc_len st_oracle_cut.in_base st_oracle_cut.in_offset = 128 ∧
    le_value ((st_oracle_cut.in_base.drop (st_oracle_cut.in_offset + 1)).take 4) = 65537 ∧
    st_oracle_cut.in_offset + 1 + 4 + 65537 = st_oracle_cut.in_base.length ∧
    st_oracle_cut.in_base[st_oracle_cut.in_offset + 1 + 4 + 1]? = some 170 ∧
    (∀ key ∈ keys env_zero, 170 ^^^ key 1 ^^^ ((0xAA + 1) % 256) = 1) ∧
    deduce_key env_zero st_oracle_cut = Except.ok (key_selected st_oracle_cut 2) ∧
    (key_selected st_oracle_cut 2).cur_key = some 2 ∧
    (key_selected st_oracle_cut 2).in_offset = 6 := by
  obtain ⟨h1, _, _, h4, _, _, h7, h8⟩ :=
    enc_cut 203 (170 :: List.replicate 65535 203) st_oracle_cut rfl rfl
  obtain ⟨d1, d2, d3⟩ :=
    deduce_key_cut 203 (170 :: List.replicate 65535 203) st_oracle_cut rfl rfl (by decide)
  refine ⟨rfl, h1, h4, ?_, h8.trans List.getElem?_cons_zero, by decide, d1, d3, d2⟩
  rw [h7, List.length_cons, List.length_replicate]

/-- C28 (counterexample): in `st_part` the root has the child range (1, 1), which holds
the node named `b`, and index 2 holds a node named `a`; the names are distinct.
`sort_nodes(1, 2)` returns, the range (1, 2) is a permutation of what it was, and the
child range of the root now holds the node named `a`: it no longer covers the same
node. -/
theorem sort_nodes_changes_part_of_range :
    st_part.nodes = [⟨0, 1, 1, node_type.none, 0⟩, ⟨1, 0, 0, node_type.none, 0⟩,
      ⟨2, 0, 0, node_type.none, 0⟩] ∧
    (node_range 1 2 st_part.nodes).Pairwise
      (fun a b => node_name st_part.strings a ≠ node_name st_part.strings b) ∧
    (st_part.nodes[0]?.map (fun n => (n.children, n.num))) = some (1, 1) ∧
    (node_range 1 1 st_part.nodes).map (node_name st_part.strings) = [[98]] ∧
    sort_nodes 1 2 st_part = Except.ok { st_part with
      nodes := [⟨0, 1, 1, node_type.none, 0⟩, ⟨2, 0, 0, node_type.none, 0⟩,
        ⟨1, 0, 0, node_type.none, 0⟩] } ∧
    (node_range 1 2 (ok_state (sort_nodes 1 2 st_part)).nodes).Perm
      (node_range 1 2 st_part.nodes) ∧
    (ok_state (sort_nodes 1 2 st_part)).nodes[0]? = st_part.nodes[0]? ∧
    (node_range 1 1 (ok_state (sort_nodes 1 2 st_part)).nodes).map
      (node_name st_part.strings) = [[97]] ∧
    node_range 1 1 (ok_state (sort_nodes 1 2 st_part)).nodes ≠
      node_range 1 1 st_part.nodes := by
  refine ⟨rfl, by decide, by decide, by decide, by decide, ?_, by decide, by decide,
    by decide⟩
  decide

end nl
